import Mathlib

set_option maxHeartbeats 1000000
set_option maxRecDepth 4096

/-!
Verification development for the trif-lang source-to-source compiler
(C++ sources under `src/native`).  The C++ front end and code generators
are shallowly embedded: the lexer (`lexer.cpp`), the recursive-descent
parser (`parser.cpp`, with an explicit fuel argument standing for the
call stack), the Python and JavaScript code generators (`codegen.cpp`,
with the `IndentedEmitter` made an explicit state record), and the
driver-facing `compile_source` / `compile_file` (`compiler.cpp`, with
the filesystem of `compile_file` modelled as a partial map from paths
to file contents).  C++ exceptions become `Except` errors carrying the
same message strings.

Modelling notes (deliberate, documented deviations):
* `Number` AST nodes store the literal's text instead of the C++
  `double` produced by `std::stod` and re-rendered by `operator<<`;
  IEEE floating point formatting is outside the embedding.  No claim
  below depends on the numeric value of a literal.
* Reading the token vector past its end is undefined behaviour in C++;
  the embedding returns an `EOF`-typed sentinel token instead, which
  coincides with the C++ behaviour on every stream that ends with the
  `EOF` token the lexer always appends.
-/

namespace Trif

/-- Token record, mirroring `trif::lexer::Token` (`token.hpp`). -/
structure Token where
  type : String
  value : String
  line : Nat
  column : Nat
deriving DecidableEq, Repr

/-- Length of the longest prefix satisfying `p` (regex `p*` matching). -/
def takeWhileLen (p : Char → Bool) : List Char → Nat
  | [] => 0
  | c :: cs => if p c then takeWhileLen p cs + 1 else 0

/-- Regex `\d+(?:\.\d+)?` anchored at the start: matched length. -/
def matchNumber (cs : List Char) : Option Nat :=
  let d := takeWhileLen Char.isDigit cs
  if d = 0 then none
  else
    match cs.drop d with
    | '.' :: rest =>
      let d2 := takeWhileLen Char.isDigit rest
      if d2 = 0 then some d else some (d + 1 + d2)
    | _ => some d

/-- Length of the string body after the opening quote, up to and
including the closing quote: regex `([^q\\]|\\.)*q`. -/
def stringBodyLen (q : Char) : List Char → Option Nat
  | [] => none
  | c :: cs =>
    if c = q then some 1
    else if c = '\\' then
      match cs with
      | [] => none
      | _ :: cs2 => (stringBodyLen q cs2).map (· + 2)
    else (stringBodyLen q cs).map (· + 1)

/-- Regex for `STRING`: a double- or single-quoted literal with `\.` escapes. -/
def matchStringTok : List Char → Option Nat
  | [] => none
  | c :: cs =>
    if c = '"' ∨ c = '\'' then (stringBodyLen c cs).map (· + 1) else none

/-- Regex for `COMMENT`: `//[^\n]*`. -/
def matchComment : List Char → Option Nat
  | '/' :: '/' :: rest => some (2 + takeWhileLen (fun c => !(c = '\n')) rest)
  | _ => none

def isNameStart (c : Char) : Bool := c.isAlpha || c = '_'

def isNameRest (c : Char) : Bool := c.isAlphanum || c = '_'

/-- Regex for `NAME`: `[A-Za-z_][A-Za-z0-9_]*`. -/
def matchName : List Char → Option Nat
  | [] => none
  | c :: cs => if isNameStart c then some (1 + takeWhileLen isNameRest cs) else none

def twoCharOps : List (Char × Char) :=
  [('=', '='), ('!', '='), ('<', '='), ('>', '='), ('=', '>'), ('&', '&'), ('|', '|')]

def singleCharOps : List Char := ['+', '-', '*', '/', '%', '=', '<', '>', '!']

/-- Regex for `OP`: `==|!=|<=|>=|=>|&&|\|\||[+\-*/%=<>!]`, alternatives
tried left to right so the two-character operators win. -/
def matchOp : List Char → Option Nat
  | [] => none
  | [c] => if singleCharOps.contains c then some 1 else none
  | c1 :: c2 :: _ =>
    if twoCharOps.contains (c1, c2) then some 2
    else if singleCharOps.contains c1 then some 1 else none

/-- Regex for `SKIP`: `[ \t]+`. -/
def matchSkip (cs : List Char) : Option Nat :=
  let n := takeWhileLen (fun c => c = ' ' || c = '\t') cs
  if n = 0 then none else some n

/-- The distinct token kind of each punctuation character. -/
def punctKind (c : Char) : Option String :=
  if c = '(' then some "LPAREN"
  else if c = ')' then some "RPAREN"
  else if c = '{' then some "LBRACE"
  else if c = '}' then some "RBRACE"
  else if c = '[' then some "LBRACKET"
  else if c = ']' then some "RBRACKET"
  else if c = ',' then some "COMMA"
  else if c = ':' then some "COLON"
  else if c = '.' then some "DOT"
  else if c = ';' then some "SEMICOLON"
  else none

/-- Regex for `NEWLINE`: `\n` anchored at the start. -/
def matchNewline (cs : List Char) : Option Nat :=
  if cs.head? = some '\n' then some 1 else none

/-- `token_patterns()` of `lexer.cpp`, tried in priority order against the
start of the remaining input; returns the kind name and matched length. -/
def matchToken (cs : List Char) : Option (String × Nat) :=
  ((matchNumber cs).map (fun n => ("NUMBER", n))) <|>
  ((matchStringTok cs).map (fun n => ("STRING", n))) <|>
  ((matchComment cs).map (fun n => ("COMMENT", n))) <|>
  ((matchName cs).map (fun n => ("NAME", n))) <|>
  ((matchOp cs).map (fun n => ("OP", n))) <|>
  ((matchNewline cs).map (fun n => ("NEWLINE", n))) <|>
  ((matchSkip cs).map (fun n => ("SKIP", n))) <|>
  ((cs.head?.bind punctKind).map (fun k => (k, 1)))

/-- `kKeywords` of `lexer.cpp`. -/
def keywordList : List String :=
  ["let", "fn", "function", "return", "if", "else", "while",
   "for", "in", "true", "false", "null", "import", "as",
   "from", "const", "export", "default", "spawn"]

/-- `trif::lexer::is_keyword`. -/
def is_keyword (s : String) : Bool := keywordList.contains s

/-- `uppercase` of `lexer.cpp` (ASCII keywords only). -/
def uppercase (s : String) : String := String.mk (s.toList.map Char.toUpper)

/-- Escape interpretation of `decode_string_literal`: `\n \t \r` become
control characters, any other escaped character passes through literally. -/
def decodeEscapes : List Char → List Char
  | '\\' :: c :: rest =>
    (if c = 'n' then '\n'
     else if c = 't' then '\t'
     else if c = 'r' then '\r'
     else if c = '\\' then '\\'
     else if c = '"' then '"'
     else if c = '\'' then '\''
     else c) :: decodeEscapes rest
  | c :: rest => c :: decodeEscapes rest
  | [] => []

/-- `decode_string_literal` of `lexer.cpp`: strip the surrounding quotes,
then interpret escapes. -/
def decode_string_literal (raw : List Char) : List Char :=
  if raw.length < 2 then raw
  else decodeEscapes ((raw.drop 1).dropLast)

/-- Index of the first occurrence of `*/` (C++ `remaining.find("* /")`,
searched from position 0, so it may overlap the opening `/*`). -/
def findCommentClose : List Char → Option Nat
  | '*' :: '/' :: _ => some 0
  | _ :: rest => (findCommentClose rest).map (· + 1)
  | [] => none

/-- The suffix after the last newline, `none` when there is no newline. -/
def tailAfterNewline : List Char → Option (List Char)
  | [] => none
  | '\n' :: rest => some ((tailAfterNewline rest).getD rest)
  | _ :: rest => tailAfterNewline rest

theorem takeWhileLen_le (p : Char → Bool) : ∀ cs : List Char, takeWhileLen p cs ≤ cs.length := by
  intro cs
  induction cs with
  | nil => simp [takeWhileLen]
  | cons c cs ih =>
    simp only [takeWhileLen, List.length_cons]
    split <;> omega

theorem matchNumber_pos {cs : List Char} {m : Nat} (h : matchNumber cs = some m) : 1 ≤ m := by
  simp only [matchNumber] at h
  split at h
  · cases h
  · split at h
    · split at h <;> (injection h with h2; omega)
    · injection h with h2; omega

theorem matchStringTok_pos {cs : List Char} {m : Nat} (h : matchStringTok cs = some m) : 1 ≤ m := by
  simp only [matchStringTok] at h
  split at h
  · cases h
  · split at h
    · rcases Option.map_eq_some'.mp h with ⟨a, -, h2⟩
      omega
    · cases h

theorem matchComment_pos {cs : List Char} {m : Nat} (h : matchComment cs = some m) : 1 ≤ m := by
  simp only [matchComment] at h
  split at h
  · injection h with h2; omega
  · cases h

theorem matchName_pos {cs : List Char} {m : Nat} (h : matchName cs = some m) : 1 ≤ m := by
  simp only [matchName] at h
  split at h
  · cases h
  · split at h
    · injection h with h2; omega
    · cases h

theorem matchOp_pos {cs : List Char} {m : Nat} (h : matchOp cs = some m) : 1 ≤ m := by
  simp only [matchOp] at h
  split at h
  · cases h
  · split at h
    · injection h with h2; omega
    · cases h
  · split at h
    · injection h with h2; omega
    · split at h
      · injection h with h2; omega
      · cases h

theorem matchSkip_pos {cs : List Char} {m : Nat} (h : matchSkip cs = some m) : 1 ≤ m := by
  simp only [matchSkip] at h
  split at h
  · cases h
  · injection h with h2; omega

theorem matchNewline_pos {cs : List Char} {m : Nat} (h : matchNewline cs = some m) : 1 ≤ m := by
  simp only [matchNewline] at h
  split at h
  · injection h with h2; omega
  · cases h

theorem matchToken_pos {cs : List Char} {k : String} {n : Nat}
    (h : matchToken cs = some (k, n)) : 1 ≤ n := by
  unfold matchToken at h
  cases h1 : matchNumber cs with
  | some m =>
    simp only [h1, Option.map_some', Option.some_orElse, Option.some.injEq, Prod.mk.injEq] at h
    obtain ⟨-, rfl⟩ := h
    exact matchNumber_pos h1
  | none =>
  simp only [h1, Option.map_none', Option.none_orElse] at h
  cases h2 : matchStringTok cs with
  | some m =>
    simp only [h2, Option.map_some', Option.some_orElse, Option.some.injEq, Prod.mk.injEq] at h
    obtain ⟨-, rfl⟩ := h
    exact matchStringTok_pos h2
  | none =>
  simp only [h2, Option.map_none', Option.none_orElse] at h
  cases h3 : matchComment cs with
  | some m =>
    simp only [h3, Option.map_some', Option.some_orElse, Option.some.injEq, Prod.mk.injEq] at h
    obtain ⟨-, rfl⟩ := h
    exact matchComment_pos h3
  | none =>
  simp only [h3, Option.map_none', Option.none_orElse] at h
  cases h4 : matchName cs with
  | some m =>
    simp only [h4, Option.map_some', Option.some_orElse, Option.some.injEq, Prod.mk.injEq] at h
    obtain ⟨-, rfl⟩ := h
    exact matchName_pos h4
  | none =>
  simp only [h4, Option.map_none', Option.none_orElse] at h
  cases h5 : matchOp cs with
  | some m =>
    simp only [h5, Option.map_some', Option.some_orElse, Option.some.injEq, Prod.mk.injEq] at h
    obtain ⟨-, rfl⟩ := h
    exact matchOp_pos h5
  | none =>
  simp only [h5, Option.map_none', Option.none_orElse] at h
  cases h6 : matchNewline cs with
  | some m =>
    simp only [h6, Option.map_some', Option.some_orElse, Option.some.injEq, Prod.mk.injEq] at h
    obtain ⟨-, rfl⟩ := h
    exact matchNewline_pos h6
  | none =>
  simp only [h6, Option.map_none', Option.none_orElse] at h
  cases h7 : matchSkip cs with
  | some m =>
    simp only [h7, Option.map_some', Option.some_orElse, Option.some.injEq, Prod.mk.injEq] at h
    obtain ⟨-, rfl⟩ := h
    exact matchSkip_pos h7
  | none =>
  simp only [h7, Option.map_none', Option.none_orElse] at h
  rcases Option.map_eq_some'.mp h with ⟨a, -, h8⟩
  injection h8 with h9 h10
  omega

/-- Lexer failure: a genuine `std::runtime_error`, or fuel exhaustion
(an artefact of the embedding, proved unreachable for the budget
`tokenize` supplies). -/
inductive LexErr where
  | fuelOut
  | err (msg : String)
deriving DecidableEq, Repr

/-- The tokenizer main loop of `trif::lexer::tokenize`: cursor state is
the remaining characters plus 1-based `line`/`column`.  Every iteration
consumes at least one character, so the explicit fuel (standing for the
loop's variant) never runs out with the budget `tokenize` supplies
(theorem `tokenizeLoop_no_fuelOut`). -/
def tokenizeLoop : Nat → List Char → Nat → Nat → List Token → Except LexErr (List Token)
  | 0, _, _, _, _ => .error .fuelOut
  | _ + 1, [], line, column, acc => .ok (acc ++ [⟨"EOF", "", line, column⟩])
  | fuel + 1, c1 :: rest1, line, column, acc =>
    if c1 = '/' ∧ rest1.head? = some '*' then
      match findCommentClose (c1 :: rest1) with
      | none => .error (.err ("Unterminated block comment at line " ++ toString line))
      | some j =>
        let n := j + 2
        let value := (c1 :: rest1).take n
        let k := value.count '\n'
        let line2 := line + k
        let column2 :=
          if 0 < k then ((tailAfterNewline value).getD []).length + 1 else column + n
        tokenizeLoop fuel ((c1 :: rest1).drop n) line2 column2 acc
    else
      match matchToken (c1 :: rest1) with
      | none =>
        .error (.err ("Unexpected character '" ++ String.mk [c1] ++ "' at line " ++
          toString line ++ " column " ++ toString column))
      | some (kind, n) =>
        let rawVal := String.mk ((c1 :: rest1).take n)
        if kind = "NEWLINE" then
          tokenizeLoop fuel ((c1 :: rest1).drop n) (line + 1) 1
            (acc ++ [⟨"NEWLINE", rawVal, line, column⟩])
        else if kind = "SKIP" ∨ kind = "COMMENT" then
          tokenizeLoop fuel ((c1 :: rest1).drop n) line (column + n) acc
        else
          let kind2 := if kind = "NAME" ∧ is_keyword rawVal then uppercase rawVal else kind
          let value :=
            if kind = "STRING" then String.mk (decode_string_literal ((c1 :: rest1).take n))
            else rawVal
          tokenizeLoop fuel ((c1 :: rest1).drop n) line (column + n)
            (acc ++ [⟨kind2, value, line, column⟩])

/-- `trif::lexer::tokenize`: cursor starts at `(source begin, 1, 1)`;
the fuel budget is one more than the character count. -/
def tokenize (source : String) : Except LexErr (List Token) :=
  tokenizeLoop (source.toList.length + 1) source.toList 1 1 []

/-- The lexer's fuel is sufficient: with more fuel than remaining
characters, `tokenizeLoop` never reports exhaustion — every loop
iteration consumes at least one character. -/
theorem tokenizeLoop_no_fuelOut :
    ∀ (fuel : Nat) (cs : List Char) (line column : Nat) (acc : List Token),
      cs.length < fuel → tokenizeLoop fuel cs line column acc ≠ .error .fuelOut := by
  intro fuel
  induction fuel with
  | zero => intro cs line column acc h; omega
  | succ fuel ih =>
    intro cs line column acc h
    match cs with
    | [] => simp [tokenizeLoop]
    | c1 :: rest1 =>
      rw [tokenizeLoop]
      split
      · split
        · simp
        · rename_i j hfind
          refine ih _ _ _ _ ?_
          simp only [List.length_drop, List.length_cons] at h ⊢
          omega
      · cases hmt : matchToken (c1 :: rest1) with
        | none => simp [hmt]
        | some p =>
          obtain ⟨kind, n⟩ := p
          simp only [hmt]
          have hn := matchToken_pos hmt
          have hlen : ((c1 :: rest1).drop n).length < fuel := by
            simp only [List.length_drop, List.length_cons] at h ⊢
            omega
          split
          · exact ih _ _ _ _ hlen
          · split
            · exact ih _ _ _ _ hlen
            · exact ih _ _ _ _ hlen

/-! ## The AST (`ast.hpp`)

Statements and expressions are the two node families; `Number` stores
the literal's text (see the modelling notes above). -/

/-- Expression nodes of `trif::ast`. -/
inductive Expr where
  | name (id : String)
  | number (value : String)
  | str (value : String)
  | boolean (value : Bool)
  | null
  | binaryOp (left : Expr) (op : String) (right : Expr)
  | unaryOp (op : String) (operand : Expr)
  | call (func : Expr) (args : List Expr)
  | attribute (value : Expr) (attr : String)
  | listLiteral (elements : List Expr)
  | dictLiteral (pairs : List (Expr × Expr))

/-- Statement nodes of `trif::ast`; `exprStmt` is a bare expression in
statement position (the parser pushes expressions into `Module::body`);
the C++ field `alias` is spelled `aliasName` (`alias` is reserved here). -/
inductive Stmt where
  | importStmt (module : String) (aliasName : Option String)
  | importFrom (module : String) (names : List (String × String))
      (default_name : Option String) (namespace_name : Option String)
  | letStmt (name : String) (value : Expr) (mutable_flag exported is_default : Bool)
  | assign (target : Expr) (value : Expr)
  | functionDef (name : String) (params : List String) (body : List Stmt)
      (exported is_default : Bool)
  | exportNames (names : List (String × String)) (source : Option String)
  | exportDefault (value : Expr)
  | ret (value : Option Expr)
  | ifStmt (test : Expr) (body : List Stmt) (orelse : List Stmt)
  | whileStmt (test : Expr) (body : List Stmt)
  | forStmt (target : String) (iterator : Expr) (body : List Stmt)
  | spawn (call : Expr)
  | exprStmt (e : Expr)

/-- `trif::ast::Module`. -/
structure Module where
  body : List Stmt

/-! ## The parser (`parser.cpp`)

Functions take the token list and a cursor index; reading past the end
yields the `EOF` sentinel (see modelling notes).  The mutually recursive
core carries a fuel argument standing for the C++ call stack; running
out of fuel is the distinguished error `ParseErr.fuelOut`, which theorem
`c10_parser_terminates` below proves unreachable for the fuel budget
`parse` supplies. -/

/-- Out-of-range sentinel for `tokens_[index_]`. -/
def eofTok : Token := ⟨"EOF", "", 0, 0⟩

/-- `Parser::current` / `Parser::peek`. -/
def tokAt (ts : List Token) (i : Nat) : Token := ts.getD i eofTok

/-- Parse-time failure: a genuine `std::runtime_error`, or fuel exhaustion
(an artefact of the embedding, proved unreachable). -/
inductive ParseErr where
  | fuelOut
  | err (msg : String)
deriving DecidableEq, Repr

/-- Result of a parsing function: value plus the new cursor index. -/
abbrev PRes (α : Type) := Except ParseErr (α × Nat)

/-- The message of `Parser::consume` when the expected kind is absent. -/
def expectedMsg (expected : String) (t : Token) : ParseErr :=
  .err ("Expected " ++ expected ++ " but got " ++ t.type ++ " at line " ++ toString t.line)

theorem tokAt_past (ts : List Token) (i : Nat) (h : ts.length ≤ i) : tokAt ts i = eofTok := by
  simp [tokAt, List.getD_eq_default, h, List.getElem?_eq_none h]

/-- A token whose type is not `"EOF"` lies inside the list. -/
theorem tokAt_lt {ts : List Token} {i : Nat} (h : (tokAt ts i).type ≠ "EOF") :
    i < ts.length := by
  by_contra hge
  rw [tokAt_past ts i (by omega)] at h
  simp [eofTok] at h

/-- The loop of `Parser::optional_newline`, with its variant (the
remaining token count) made an explicit fuel argument. -/
def optionalNewlineF : Nat → List Token → Nat → Nat
  | 0, _, i => i
  | fuel + 1, ts, i =>
    if (tokAt ts i).type = "NEWLINE" ∨ (tokAt ts i).type = "SEMICOLON" then
      optionalNewlineF fuel ts (i + 1)
    else i

/-- `Parser::optional_newline`: eagerly consume `NEWLINE`/`SEMICOLON`.
The supplied budget always exceeds the remaining token count, so the
loop runs exactly as in C++ (`optionalNewlineF_stable`). -/
def optional_newline (ts : List Token) (i : Nat) : Nat :=
  optionalNewlineF (ts.length + 1) ts i

theorem optionalNewlineF_ge (fuel : Nat) :
    ∀ (ts : List Token) (i : Nat), i ≤ optionalNewlineF fuel ts i := by
  induction fuel with
  | zero => intro ts i; exact Nat.le_refl i
  | succ fuel ih =>
    intro ts i
    rw [optionalNewlineF]
    split
    · have := ih ts (i + 1)
      omega
    · exact Nat.le_refl i

theorem optional_newline_ge (ts : List Token) (i : Nat) : i ≤ optional_newline ts i :=
  optionalNewlineF_ge _ ts i

/-- With more fuel than remaining tokens, the separator loop has
stabilised: any two sufficient budgets agree. -/
theorem optionalNewlineF_stable :
    ∀ (fuel1 fuel2 : Nat) (ts : List Token) (i : Nat),
      ts.length - i < fuel1 → ts.length - i < fuel2 →
      optionalNewlineF fuel1 ts i = optionalNewlineF fuel2 ts i := by
  intro fuel1
  induction fuel1 with
  | zero => intro fuel2 ts i h1; omega
  | succ fuel1 ih =>
    intro fuel2 ts i h1 h2
    match fuel2 with
    | 0 => omega
    | fuel2 + 1 =>
      rw [optionalNewlineF, optionalNewlineF]
      split
      · rename_i h
        have hlt : i < ts.length := by
          refine tokAt_lt ?_
          rcases h with h | h <;> rw [h] <;> decide
        exact ih fuel2 ts (i + 1) (by omega) (by omega)
      · rfl

/-- One C++ loop step of `optional_newline`. -/
theorem optional_newline_step (ts : List Token) (i : Nat) :
    optional_newline ts i =
      if (tokAt ts i).type = "NEWLINE" ∨ (tokAt ts i).type = "SEMICOLON" then
        optional_newline ts (i + 1)
      else i := by
  unfold optional_newline
  rw [optionalNewlineF]
  split
  · rename_i h
    have hlt : i < ts.length := by
      refine tokAt_lt ?_
      rcases h with h | h <;> rw [h] <;> decide
    exact optionalNewlineF_stable ts.length (ts.length + 1) ts (i + 1) (by omega) (by omega)
  · rfl

/-- The loop of `Parser::parse_dotted_name` after the first `NAME`
(fuel = remaining token count, always sufficient at the call site). -/
def dottedLoopF : Nat → List Token → Nat → String → PRes String
  | 0, _, _, _ => .error .fuelOut
  | fuel + 1, ts, i, acc =>
    if (tokAt ts i).type = "DOT" then
      if (tokAt ts (i + 1)).type = "NAME" then
        dottedLoopF fuel ts (i + 2) (acc ++ "." ++ (tokAt ts (i + 1)).value)
      else .error (expectedMsg "NAME" (tokAt ts (i + 1)))
    else .ok (acc, i)

/-- `Parser::parse_dotted_name`. -/
def parse_dotted_name (ts : List Token) (i : Nat) : PRes String :=
  if (tokAt ts i).type = "NAME" then
    dottedLoopF (ts.length + 1) ts (i + 1) (tokAt ts i).value
  else .error (expectedMsg "NAME" (tokAt ts i))

/-- The shared body of `Parser::parse_import_specifiers` and
`Parser::parse_export_specifiers` (the two are textually identical):
the loop between the braces, which stops at `RBRACE` or after a
pair not followed by a comma. -/
def specLoopF : Nat → List Token → Nat → List (String × String) → PRes (List (String × String))
  | 0, _, _, _ => .error .fuelOut
  | fuel + 1, ts, i, acc =>
    if (tokAt ts i).type = "RBRACE" then .ok (acc, i)
    else if (tokAt ts i).type = "NAME" then
      let first := (tokAt ts i).value
      if (tokAt ts (i + 1)).type = "AS" then
        if (tokAt ts (i + 2)).type = "NAME" then
          let second := (tokAt ts (i + 2)).value
          if (tokAt ts (i + 3)).type = "COMMA" then
            specLoopF fuel ts (i + 4) (acc ++ [(first, second)])
          else .ok (acc ++ [(first, second)], i + 3)
        else .error (expectedMsg "NAME" (tokAt ts (i + 2)))
      else
        if (tokAt ts (i + 1)).type = "COMMA" then specLoopF fuel ts (i + 2) (acc ++ [(first, first)])
        else .ok (acc ++ [(first, first)], i + 1)
    else .error (expectedMsg "NAME" (tokAt ts i))

/-- `Parser::parse_import_specifiers` / `parse_export_specifiers`:
braces around the spec loop. -/
def parse_specifiers (ts : List Token) (i : Nat) : PRes (List (String × String)) :=
  if (tokAt ts i).type = "LBRACE" then
    match specLoopF (ts.length + 1) ts (i + 1) [] with
    | .error e => .error e
    | .ok (names, j) =>
      if (tokAt ts j).type = "RBRACE" then .ok (names, j + 1)
      else .error (expectedMsg "RBRACE" (tokAt ts j))
  else .error (expectedMsg "LBRACE" (tokAt ts i))

/-- `Parser::parse_module_specifier`. -/
def parse_module_specifier (ts : List Token) (i : Nat) : PRes String :=
  if (tokAt ts i).type = "STRING" then .ok ((tokAt ts i).value, i + 1)
  else parse_dotted_name ts i

/-- The four prefix shapes of a non-string `import` statement (default name,
default-plus-named list, named list, star-namespace), before the common
`FROM` / plain-module tail of `Parser::parse_import_statement`. -/
def importBranch (ts : List Token) (i1 : Nat) :
    Except ParseErr ((Option String × List (String × String) × Option String) × Nat) :=
  if (tokAt ts i1).type = "NAME" ∧ (tokAt ts (i1 + 1)).type = "COMMA" then
    let dflt := (tokAt ts i1).value
    if (tokAt ts (i1 + 2)).type = "LBRACE" then
      match parse_specifiers ts (i1 + 2) with
      | .error e => .error e
      | .ok (names, j) => .ok ((some dflt, names, none), j)
    else .error (.err "Expected named import list after comma")
  else if (tokAt ts i1).type = "NAME" ∧ (tokAt ts (i1 + 1)).type = "FROM" then
    .ok ((some (tokAt ts i1).value, [], none), i1 + 1)
  else if (tokAt ts i1).type = "LBRACE" then
    match parse_specifiers ts i1 with
    | .error e => .error e
    | .ok (names, j) => .ok ((none, names, none), j)
  else if (tokAt ts i1).type = "OP" ∧ (tokAt ts i1).value = "*" then
    if (tokAt ts (i1 + 1)).type = "AS" then
      if (tokAt ts (i1 + 2)).type = "NAME" then
        .ok ((none, [], some (tokAt ts (i1 + 2)).value), i1 + 3)
      else .error (expectedMsg "NAME" (tokAt ts (i1 + 2)))
    else .error (expectedMsg "AS" (tokAt ts (i1 + 1)))
  else .ok ((none, [], none), i1)

/-- `Parser::parse_import_statement` (it consumes the `IMPORT` itself). -/
def parse_import_statement (ts : List Token) (i : Nat) : PRes Stmt :=
  if (tokAt ts i).type = "IMPORT" then
    let i1 := i + 1
    if (tokAt ts i1).type = "STRING" then
      let module := (tokAt ts i1).value
      if (tokAt ts (i1 + 1)).type = "AS" then
        if (tokAt ts (i1 + 2)).type = "NAME" then
          .ok (.importStmt module (some (tokAt ts (i1 + 2)).value), i1 + 3)
        else .error (expectedMsg "NAME" (tokAt ts (i1 + 2)))
      else .ok (.importStmt module none, i1 + 1)
    else
      match importBranch ts i1 with
      | .error e => .error e
      | .ok ((dflt, names, nspace), j) =>
        if dflt.isSome ∨ names ≠ [] ∨ nspace.isSome then
          if (tokAt ts j).type = "FROM" then
            match parse_module_specifier ts (j + 1) with
            | .error e => .error e
            | .ok (module, j2) => .ok (.importFrom module names dflt nspace, j2)
          else .error (expectedMsg "FROM" (tokAt ts j))
        else
          match parse_module_specifier ts j with
          | .error e => .error e
          | .ok (module, j2) =>
            if (tokAt ts j2).type = "AS" then
              if (tokAt ts (j2 + 1)).type = "NAME" then
                .ok (.importStmt module (some (tokAt ts (j2 + 1)).value), j2 + 2)
              else .error (expectedMsg "NAME" (tokAt ts (j2 + 1)))
            else .ok (.importStmt module none, j2)
  else .error (expectedMsg "IMPORT" (tokAt ts i))

/-- The parameter-list loop of `Parser::parse_function_statement`
(entered only when the next token is not `RPAREN`); fueled like the
other loops, with an always-sufficient budget at the call site. -/
def paramsLoopF : Nat → List Token → Nat → List String → PRes (List String)
  | 0, _, _, _ => .error .fuelOut
  | fuel + 1, ts, i, acc =>
    if (tokAt ts i).type = "NAME" then
      let acc2 := acc ++ [(tokAt ts i).value]
      if (tokAt ts (i + 1)).type = "COMMA" then paramsLoopF fuel ts (i + 2) acc2
      else .ok (acc2, i + 1)
    else .error (expectedMsg "NAME" (tokAt ts i))

/-- `Spawn`'s parse-time guard: is the expression a `Call` node? -/
def Expr.isCall : Expr → Bool
  | .call _ _ => true
  | _ => false

/-- Is the expression a `Name` node (assignment-target test)? -/
def Expr.isName : Expr → Bool
  | .name _ => true
  | _ => false

/-- Is the expression an `Attribute` node (assignment-target test)? -/
def Expr.isAttribute : Expr → Bool
  | .attribute _ _ => true
  | _ => false

/-- The operator set of each binary-precedence level: 0 = `parse_or`,
1 = `parse_and`, 2 = `parse_equality`, 3 = `parse_comparison`,
4 = `parse_term`, 5 = `parse_factor` (whose operands are `parse_unary`).
The six C++ functions are this one function at the six levels. -/
def binopOps : Nat → List String
  | 0 => ["||"]
  | 1 => ["&&"]
  | 2 => ["==", "!="]
  | 3 => ["<", ">", "<=", ">="]
  | 4 => ["+", "-"]
  | 5 => ["*", "/", "%"]
  | _ => []

/-- The recursive core of `Parser` as one fuel-structural function: a
request tag selects which C++ member function runs (loop tags carry the
loop's accumulator, `binopR lvl` is `parse_or` … `parse_factor` at the
six levels).  A single structural recursion on the fuel keeps every
concrete run kernel-computable; the named wrappers below restore the
C++ signatures. -/
inductive PReq where
  | statementR
  | exportR
  | varR (mutable_flag exported is_default : Bool)
  | fnR (exported is_default : Bool)
  | blockR
  | blockLoopR (acc : List Stmt)
  | topLoopR (acc : List Stmt)
  | binopR (lvl : Nat)
  | binopLoopR (lvl : Nat) (left : Expr)
  | unaryR
  | callR
  | postfixR (left : Expr)
  | argsR (acc : List Expr)
  | primaryR
  | listR (acc : List Expr)
  | dictR (acc : List (Expr × Expr))

/-- The value each request produces. -/
@[reducible] def PReq.ret : PReq → Type
  | statementR => Stmt
  | exportR => Stmt
  | varR _ _ _ => Stmt
  | fnR _ _ => Stmt
  | blockR => List Stmt
  | blockLoopR _ => List Stmt
  | topLoopR _ => List Stmt
  | binopR _ => Expr
  | binopLoopR _ _ => Expr
  | unaryR => Expr
  | callR => Expr
  | postfixR _ => Expr
  | argsR _ => List Expr
  | primaryR => Expr
  | listR _ => List Expr
  | dictR _ => List (Expr × Expr)

/-- The bodies of the mutually recursive `Parser` members, dispatched on
the request tag; each case is the corresponding C++ function. -/
def parserCore : (fuel : Nat) → (r : PReq) → (ts : List Token) → (i : Nat) →
    Except ParseErr (r.ret × Nat)
  | 0, _, _, _ => .error .fuelOut
  | fuel + 1, .statementR, ts, i =>
    -- `Parser::parse_statement`
    let t := tokAt ts i
    if t.type = "IMPORT" then
      match parse_import_statement ts i with
      | .error e => .error e
      | .ok (s, j) => .ok (s, optional_newline ts j)
    else if t.type = "EXPORT" then
      match parserCore fuel .exportR ts i with
      | .error e => .error e
      | .ok (s, j) => .ok (s, optional_newline ts j)
    else if t.type = "LET" ∨ t.type = "CONST" then
      match parserCore fuel (.varR (t.type = "LET") false false) ts (i + 1) with
      | .error e => .error e
      | .ok (s, j) => .ok (s, optional_newline ts j)
    else if t.type = "FN" ∨ t.type = "FUNCTION" then
      match parserCore fuel (.fnR false false) ts i with
      | .error e => .error e
      | .ok (s, j) => .ok (s, optional_newline ts j)
    else if t.type = "RETURN" then
      if (tokAt ts (i + 1)).type ≠ "NEWLINE" ∧ (tokAt ts (i + 1)).type ≠ "RBRACE" ∧
          (tokAt ts (i + 1)).type ≠ "EOF" then
        match parserCore fuel (.binopR 0) ts (i + 1) with
        | .error e => .error e
        | .ok (e, j) => .ok (.ret (some e), optional_newline ts j)
      else .ok (.ret none, optional_newline ts (i + 1))
    else if t.type = "IF" then
      match parserCore fuel (.binopR 0) ts (i + 1) with
      | .error e => .error e
      | .ok (test, j) =>
        match parserCore fuel .blockR ts j with
        | .error e => .error e
        | .ok (body, j2) =>
          if (tokAt ts j2).type = "ELSE" then
            match parserCore fuel .blockR ts (j2 + 1) with
            | .error e => .error e
            | .ok (orelse, j3) => .ok (.ifStmt test body orelse, optional_newline ts j3)
          else .ok (.ifStmt test body [], optional_newline ts j2)
    else if t.type = "WHILE" then
      match parserCore fuel (.binopR 0) ts (i + 1) with
      | .error e => .error e
      | .ok (test, j) =>
        match parserCore fuel .blockR ts j with
        | .error e => .error e
        | .ok (body, j2) => .ok (.whileStmt test body, optional_newline ts j2)
    else if t.type = "FOR" then
      if (tokAt ts (i + 1)).type = "NAME" then
        let target := (tokAt ts (i + 1)).value
        if (tokAt ts (i + 2)).type = "IN" then
          match parserCore fuel (.binopR 0) ts (i + 3) with
          | .error e => .error e
          | .ok (iter, j) =>
            match parserCore fuel .blockR ts j with
            | .error e => .error e
            | .ok (body, j2) => .ok (.forStmt target iter body, optional_newline ts j2)
        else .error (expectedMsg "IN" (tokAt ts (i + 2)))
      else .error (expectedMsg "NAME" (tokAt ts (i + 1)))
    else if t.type = "SPAWN" then
      match parserCore fuel (.binopR 0) ts (i + 1) with
      | .error e => .error e
      | .ok (ce, j) =>
        if ce.isCall then .ok (.spawn ce, optional_newline ts j)
        else .error (.err "spawn expects a function call")
    else
      match parserCore fuel (.binopR 0) ts i with
      | .error e => .error e
      | .ok (e, j) =>
        if (e.isName ∨ e.isAttribute) ∧ (tokAt ts j).type = "OP" ∧ (tokAt ts j).value = "=" then
          match parserCore fuel (.binopR 0) ts (j + 1) with
          | .error e2 => .error e2
          | .ok (v, j2) => .ok (.assign e v, optional_newline ts j2)
        else .ok (.exprStmt e, optional_newline ts j)
  | fuel + 1, .exportR, ts, i =>
    -- `Parser::parse_export_statement` (consumes the `EXPORT` itself)
    if (tokAt ts i).type = "EXPORT" then
      let i1 := i + 1
      if (tokAt ts i1).type = "DEFAULT" then
        let i2 := i1 + 1
        if (tokAt ts i2).type = "FN" ∨ (tokAt ts i2).type = "FUNCTION" then
          parserCore fuel (.fnR true true) ts i2
        else if (tokAt ts i2).type = "LET" ∨ (tokAt ts i2).type = "CONST" then
          parserCore fuel (.varR ((tokAt ts i2).type = "LET") true true) ts (i2 + 1)
        else
          match parserCore fuel (.binopR 0) ts i2 with
          | .error e => .error e
          | .ok (e, j) => .ok (.exportDefault e, j)
      else if (tokAt ts i1).type = "FN" ∨ (tokAt ts i1).type = "FUNCTION" then
        parserCore fuel (.fnR true false) ts i1
      else if (tokAt ts i1).type = "LET" ∨ (tokAt ts i1).type = "CONST" then
        parserCore fuel (.varR ((tokAt ts i1).type = "LET") true false) ts (i1 + 1)
      else if (tokAt ts i1).type = "LBRACE" then
        match parse_specifiers ts i1 with
        | .error e => .error e
        | .ok (names, j) =>
          if (tokAt ts j).type = "FROM" then
            match parse_module_specifier ts (j + 1) with
            | .error e => .error e
            | .ok (src, j2) => .ok (.exportNames names (some src), j2)
          else .ok (.exportNames names none, j)
      else .error (.err "Unsupported export statement")
    else .error (expectedMsg "EXPORT" (tokAt ts i))
  | fuel + 1, .varR mutable_flag exported is_default, ts, i =>
    -- `Parser::parse_variable_statement` (keyword already consumed)
    if (tokAt ts i).type = "NAME" then
      let name := (tokAt ts i).value
      if (tokAt ts (i + 1)).type = "OP" ∧ (tokAt ts (i + 1)).value = "=" then
        match parserCore fuel (.binopR 0) ts (i + 2) with
        | .error e => .error e
        | .ok (v, j) => .ok (.letStmt name v mutable_flag exported is_default, j)
      else .error (.err "Expected \x27=\x27 in variable declaration")
    else .error (expectedMsg "NAME" (tokAt ts i))
  | fuel + 1, .fnR exported is_default, ts, i =>
    -- `Parser::parse_function_statement` (consumes the keyword blindly)
    let i1 := i + 1
    match (if (tokAt ts i1).type = "NAME" then .ok ((tokAt ts i1).value, i1 + 1)
           else if is_default then .ok ("_default_export", i1)
           else .error (.err "Function declaration requires a name") :
           Except ParseErr (String × Nat)) with
    | .error e => .error e
    | .ok (name, k) =>
      if (tokAt ts k).type = "LPAREN" then
        match (if (tokAt ts (k + 1)).type = "RPAREN" then .ok ([], k + 1)
               else paramsLoopF (ts.length + 1) ts (k + 1) []) with
        | .error e => .error e
        | .ok (ps, j) =>
          if (tokAt ts j).type = "RPAREN" then
            match parserCore fuel .blockR ts (j + 1) with
            | .error e => .error e
            | .ok (body, j2) => .ok (.functionDef name ps body exported is_default, j2)
          else .error (expectedMsg "RPAREN" (tokAt ts j))
      else .error (expectedMsg "LPAREN" (tokAt ts k))
  | fuel + 1, .blockR, ts, i =>
    -- `Parser::parse_block`
    if (tokAt ts i).type = "LBRACE" then parserCore fuel (.blockLoopR []) ts (i + 1)
    else .error (expectedMsg "LBRACE" (tokAt ts i))
  | fuel + 1, .blockLoopR acc, ts, i =>
    -- the statement loop of `parse_block` (exits by consuming `RBRACE`)
    if (tokAt ts i).type = "RBRACE" then .ok (acc, i + 1)
    else if (tokAt ts i).type = "NEWLINE" ∨ (tokAt ts i).type = "SEMICOLON" then
      parserCore fuel (.blockLoopR acc) ts (i + 1)
    else
      match parserCore fuel .statementR ts i with
      | .error e => .error e
      | .ok (s, j) => parserCore fuel (.blockLoopR (acc ++ [s])) ts j
  | fuel + 1, .topLoopR acc, ts, i =>
    -- the top-level loop of `Parser::parse`
    if (tokAt ts i).type = "EOF" then .ok (acc, i)
    else if (tokAt ts i).type = "NEWLINE" ∨ (tokAt ts i).type = "SEMICOLON" then
      parserCore fuel (.topLoopR acc) ts (i + 1)
    else
      match parserCore fuel .statementR ts i with
      | .error e => .error e
      | .ok (s, j) => parserCore fuel (.topLoopR (acc ++ [s])) ts j
  | fuel + 1, .binopR lvl, ts, i =>
    -- `parse_or` … `parse_factor` at level `lvl`
    match (if 5 ≤ lvl then parserCore fuel .unaryR ts i
           else parserCore fuel (.binopR (lvl + 1)) ts i) with
    | .error e => .error e
    | .ok (e, j) => parserCore fuel (.binopLoopR lvl e) ts j
  | fuel + 1, .binopLoopR lvl left, ts, i =>
    -- the operator loop at level `lvl`
    let t := tokAt ts i
    if t.type = "OP" ∧ (binopOps lvl).contains t.value then
      match (if 5 ≤ lvl then parserCore fuel .unaryR ts (i + 1)
             else parserCore fuel (.binopR (lvl + 1)) ts (i + 1)) with
      | .error e => .error e
      | .ok (r, j) => parserCore fuel (.binopLoopR lvl (.binaryOp left t.value r)) ts j
    else .ok (left, i)
  | fuel + 1, .unaryR, ts, i =>
    -- `Parser::parse_unary`
    let t := tokAt ts i
    if t.type = "OP" ∧ (t.value = "-" ∨ t.value = "!") then
      match parserCore fuel .unaryR ts (i + 1) with
      | .error e => .error e
      | .ok (e, j) => .ok (.unaryOp t.value e, j)
    else parserCore fuel .callR ts i
  | fuel + 1, .callR, ts, i =>
    -- `Parser::parse_call_expression`
    match parserCore fuel .primaryR ts i with
    | .error e => .error e
    | .ok (e, j) => parserCore fuel (.postfixR e) ts j
  | fuel + 1, .postfixR left, ts, i =>
    -- the postfix chain loop of `parse_call_expression`
    if (tokAt ts i).type = "LPAREN" then
      if (tokAt ts (i + 1)).type = "RPAREN" then
        parserCore fuel (.postfixR (.call left [])) ts (i + 2)
      else
        match parserCore fuel (.argsR []) ts (i + 1) with
        | .error e => .error e
        | .ok (args, j) =>
          if (tokAt ts j).type = "RPAREN" then
            parserCore fuel (.postfixR (.call left args)) ts (j + 1)
          else .error (expectedMsg "RPAREN" (tokAt ts j))
    else if (tokAt ts i).type = "DOT" then
      if (tokAt ts (i + 1)).type = "NAME" then
        parserCore fuel (.postfixR (.attribute left (tokAt ts (i + 1)).value)) ts (i + 2)
      else .error (expectedMsg "NAME" (tokAt ts (i + 1)))
    else .ok (left, i)
  | fuel + 1, .argsR acc, ts, i =>
    -- the comma-separated argument list of a call
    match parserCore fuel (.binopR 0) ts i with
    | .error e => .error e
    | .ok (e, j) =>
      if (tokAt ts j).type = "COMMA" then parserCore fuel (.argsR (acc ++ [e])) ts (j + 1)
      else .ok (acc ++ [e], j)
  | fuel + 1, .primaryR, ts, i =>
    -- `Parser::parse_primary`
    let t := tokAt ts i
    if t.type = "NUMBER" then .ok (.number t.value, i + 1)
    else if t.type = "STRING" then .ok (.str t.value, i + 1)
    else if t.type = "TRUE" then .ok (.boolean true, i + 1)
    else if t.type = "FALSE" then .ok (.boolean false, i + 1)
    else if t.type = "NULL" then .ok (.null, i + 1)
    else if t.type = "NAME" then .ok (.name t.value, i + 1)
    else if t.type = "LPAREN" then
      match parserCore fuel (.binopR 0) ts (i + 1) with
      | .error e => .error e
      | .ok (e, j) =>
        if (tokAt ts j).type = "RPAREN" then .ok (e, j + 1)
        else .error (expectedMsg "RPAREN" (tokAt ts j))
    else if t.type = "LBRACKET" then
      if (tokAt ts (i + 1)).type = "RBRACKET" then .ok (.listLiteral [], i + 2)
      else
        match parserCore fuel (.listR []) ts (i + 1) with
        | .error e => .error e
        | .ok (els, j) =>
          if (tokAt ts j).type = "RBRACKET" then .ok (.listLiteral els, j + 1)
          else .error (expectedMsg "RBRACKET" (tokAt ts j))
    else if t.type = "LBRACE" then
      if (tokAt ts (i + 1)).type = "RBRACE" then .ok (.dictLiteral [], i + 2)
      else
        match parserCore fuel (.dictR []) ts (i + 1) with
        | .error e => .error e
        | .ok (prs, j) =>
          if (tokAt ts j).type = "RBRACE" then .ok (.dictLiteral prs, j + 1)
          else .error (expectedMsg "RBRACE" (tokAt ts j))
    else .error (.err ("Unexpected token " ++ t.type ++ " at line " ++ toString t.line))
  | fuel + 1, .listR acc, ts, i =>
    -- the element loop of a list literal
    match parserCore fuel (.binopR 0) ts i with
    | .error e => .error e
    | .ok (e, j) =>
      if (tokAt ts j).type = "COMMA" then parserCore fuel (.listR (acc ++ [e])) ts (j + 1)
      else .ok (acc ++ [e], j)
  | fuel + 1, .dictR acc, ts, i =>
    -- the `key : value` pair loop of a dict literal
    match parserCore fuel (.binopR 0) ts i with
    | .error e => .error e
    | .ok (key, j) =>
      if (tokAt ts j).type = "COLON" then
        match parserCore fuel (.binopR 0) ts (j + 1) with
        | .error e => .error e
        | .ok (v, j2) =>
          if (tokAt ts j2).type = "COMMA" then
            parserCore fuel (.dictR (acc ++ [(key, v)])) ts (j2 + 1)
          else .ok (acc ++ [(key, v)], j2)
      else .error (expectedMsg "COLON" (tokAt ts j))

/-- `Parser::parse_statement`. -/
def parse_statement (fuel : Nat) (ts : List Token) (i : Nat) : PRes Stmt :=
  parserCore fuel .statementR ts i

/-- `Parser::parse_export_statement`. -/
def parse_export_statement (fuel : Nat) (ts : List Token) (i : Nat) : PRes Stmt :=
  parserCore fuel .exportR ts i

/-- `Parser::parse_variable_statement`. -/
def parse_variable_statement (fuel : Nat) (ts : List Token) (i : Nat)
    (mutable_flag exported is_default : Bool) : PRes Stmt :=
  parserCore fuel (.varR mutable_flag exported is_default) ts i

/-- `Parser::parse_function_statement`. -/
def parse_function_statement (fuel : Nat) (ts : List Token) (i : Nat)
    (exported is_default : Bool) : PRes Stmt :=
  parserCore fuel (.fnR exported is_default) ts i

/-- `Parser::parse_block`. -/
def parse_block (fuel : Nat) (ts : List Token) (i : Nat) : PRes (List Stmt) :=
  parserCore fuel .blockR ts i

/-- `Parser::parse_primary`. -/
def parse_primary (fuel : Nat) (ts : List Token) (i : Nat) : PRes Expr :=
  parserCore fuel .primaryR ts i

/-- `Parser::parse_unary`. -/
def parse_unary (fuel : Nat) (ts : List Token) (i : Nat) : PRes Expr :=
  parserCore fuel .unaryR ts i


/-- `Parser::parse_expression` is `parse_or`, level 0 of the binop chain. -/
def parse_expression (fuel : Nat) (ts : List Token) (i : Nat) : PRes Expr :=
  parserCore fuel (.binopR 0) ts i

/-- The fuel budget `parse` gives the recursive core: theorem
`fuel_sufficient` below shows it can never be exhausted. -/
def parseFuel (ts : List Token) : Nat := 15 * ts.length + 15

/-- `trif::parser::parse`: run the top-level loop from index 0. -/
def parse (ts : List Token) : Except ParseErr Module :=
  match parserCore (parseFuel ts) (.topLoopR []) ts 0 with
  | .error e => .error e
  | .ok (body, _) => .ok ⟨body⟩

/-! ## The code generators (`codegen.cpp`)

The `IndentedEmitter` becomes an explicit state record holding the
emitted `(indent level, payload)` pairs; `str()` renders each pair as
`4·level` spaces, the payload and a newline. -/

/-- `IndentedEmitter`'s state: accumulated lines and current indent
level, plus the `PythonVisitor::temp_index_` counter. -/
structure EmitState where
  lines : List (Nat × String)
  indentLevel : Nat
  tempIndex : Nat

/-- `IndentedEmitter::emit`: record the payload at the current level. -/
def EmitState.emit (st : EmitState) (line : String) : EmitState :=
  { st with lines := st.lines ++ [(st.indentLevel, line)] }

/-- `IndentedEmitter::indent`. -/
def EmitState.indent (st : EmitState) : EmitState :=
  { st with indentLevel := st.indentLevel + 1 }

/-- `IndentedEmitter::dedent`: fatal internal error below zero. -/
def EmitState.dedent (st : EmitState) : Except String EmitState :=
  if st.indentLevel = 0 then .error "Indentation underflow"
  else .ok { st with indentLevel := st.indentLevel - 1 }

/-- `IndentedEmitter::str`: each recorded line becomes
`4·level` spaces, the payload, and one newline. -/
def renderLines : List (Nat × String) → String
  | [] => ""
  | p :: rest => String.mk (List.replicate (4 * p.1) ' ') ++ p.2 ++ "\n" ++ renderLines rest

def EmitState.render (st : EmitState) : String := renderLines st.lines

/-- `join(values, ", ")` of both visitors: separators between elements. -/
def joinComma : List String → String
  | [] => ""
  | [v] => v
  | v :: rest => v ++ ", " ++ joinComma rest

/-- One character of `repr_string` (shared by both visitors):
`\ " \n \t \r` are escaped, everything else passes through. -/
def reprChar (c : Char) : List Char :=
  if c = '\\' then ['\\', '\\']
  else if c = '"' then ['\\', '"']
  else if c = '\n' then ['\\', 'n']
  else if c = '\t' then ['\\', 't']
  else if c = '\r' then ['\\', 'r']
  else [c]

/-- The character loop of `repr_string`. -/
def reprChars : List Char → List Char
  | [] => []
  | c :: rest => reprChar c ++ reprChars rest

/-- `PythonVisitor::repr_string` / `JavaScriptVisitor::repr_string`:
a double quote, each character escaped, a double quote. -/
def repr_string (value : String) : String :=
  String.mk ('"' :: reprChars value.toList ++ ['"'])

mutual

/-- `PythonVisitor::render_expression` (see the modelling note on
`Number`: the literal's text is rendered). -/
def render_expression : Expr → String
  | .name id => id
  | .number v => v
  | .str v => repr_string v
  | .boolean b => if b then "True" else "False"
  | .null => "None"
  | .binaryOp l op r => render_expression l ++ " " ++ op ++ " " ++ render_expression r
  | .unaryOp op e => op ++ render_expression e
  | .call f args => render_expression f ++ "(" ++ joinComma (renderArgs args) ++ ")"
  | .attribute v a => render_expression v ++ "." ++ a
  | .listLiteral es => "[" ++ joinComma (renderArgs es) ++ "]"
  | .dictLiteral ps => "\x7b" ++ joinComma (renderPairs ps) ++ "\x7d"

/-- The rendered argument/element list of a call or list literal. -/
def renderArgs : List Expr → List String
  | [] => []
  | e :: rest => render_expression e :: renderArgs rest

/-- The rendered `key: value` list of a dict literal. -/
def renderPairs : List (Expr × Expr) → List String
  | [] => []
  | (k, v) :: rest => (render_expression k ++ ": " ++ render_expression v) :: renderPairs rest

end

/-- `PythonVisitor::temp`: `"__trif_" + prefix + "_" + n`. -/
def tempName (pfx : String) (n : Nat) : String := "__trif_" ++ pfx ++ "_" ++ toString n

/-- `PythonVisitor::visit_import`: `.` and `-` in the binding target are
replaced by `_`; the target defaults to the module name. -/
def visit_import (module : String) (aliasName : Option String) (st : EmitState) : EmitState :=
  let target :=
    String.mk ((aliasName.getD module).toList.map fun ch => if ch = '.' ∨ ch = '-' then '_' else ch)
  st.emit (target ++ " = runtime.import_module('" ++ module ++ "')")

/-- The named-binding loop of `PythonVisitor::visit_import_from`. -/
def emitImportExtracts (tn : String) : List (String × String) → EmitState → EmitState
  | [], st => st
  | (source, aliasN) :: rest, st =>
    emitImportExtracts tn rest
      (st.emit (aliasN ++ " = runtime.extract_export(" ++ tn ++ ", '" ++ source ++ "')"))

/-- `PythonVisitor::visit_import_from`. -/
def visit_import_from (module : String) (names : List (String × String))
    (default_name namespace_name : Option String) (st : EmitState) : EmitState :=
  let tn := tempName "import" st.tempIndex
  let st := { st with tempIndex := st.tempIndex + 1 }
  let st := st.emit (tn ++ " = runtime.import_module('" ++ module ++ "')")
  let st := match namespace_name with
    | some n => st.emit (n ++ " = " ++ tn)
    | none => st
  let st := match default_name with
    | some n => st.emit (n ++ " = runtime.extract_default(" ++ tn ++ ")")
    | none => st
  emitImportExtracts tn names st

/-- `PythonVisitor::visit_let`. -/
def visit_let (name : String) (value : Expr) (mutable_flag exported is_default : Bool)
    (st : EmitState) : EmitState :=
  let assignment := name ++ " = " ++ render_expression value
  let assignment := if !mutable_flag then assignment ++ "  # const" else assignment
  let st := st.emit assignment
  let st := if exported then st.emit ("__trif_exports__['" ++ name ++ "'] = " ++ name) else st
  if is_default then st.emit ("__trif_default_export__ = " ++ name) else st

/-- The re-export loop of `PythonVisitor::visit_export_names` with a source. -/
def emitExportExtracts (tn : String) : List (String × String) → EmitState → EmitState
  | [], st => st
  | (source, aliasN) :: rest, st =>
    emitExportExtracts tn rest
      (st.emit ("__trif_exports__['" ++ aliasN ++ "'] = runtime.extract_export(" ++
        tn ++ ", '" ++ source ++ "')"))

/-- The local-binding loop of `PythonVisitor::visit_export_names`. -/
def emitExportLocals : List (String × String) → EmitState → EmitState
  | [], st => st
  | (lcl, aliasN) :: rest, st =>
    emitExportLocals rest (st.emit ("__trif_exports__['" ++ aliasN ++ "'] = " ++ lcl))

/-- `PythonVisitor::visit_export_names`. -/
def visit_export_names (names : List (String × String)) (source : Option String)
    (st : EmitState) : EmitState :=
  match source with
  | some s =>
    let tn := tempName "export" st.tempIndex
    let st := { st with tempIndex := st.tempIndex + 1 }
    let st := st.emit (tn ++ " = runtime.import_module('" ++ s ++ "')")
    emitExportExtracts tn names st
  | none => emitExportLocals names st

/-- `node->body.back()->kind == NodeKind::Return` of `visit_function_def`. -/
def lastIsReturn (body : List Stmt) : Bool :=
  match body.getLast? with
  | some (.ret _) => true
  | _ => false

mutual

/-- `PythonVisitor::visit`, dispatching on the statement kind.  (The C++
`default:` arm—bare expressions—is the `exprStmt` case; an unsupported
node kind cannot arise in the typed embedding.) -/
def visitStmt : Stmt → EmitState → Except String EmitState
  | .importStmt m a, st => .ok (visit_import m a st)
  | .importFrom m ns d nsp, st => .ok (visit_import_from m ns d nsp st)
  | .letStmt n v mf ex df, st => .ok (visit_let n v mf ex df st)
  | .assign t v, st => .ok (st.emit (render_expression t ++ " = " ++ render_expression v))
  | .functionDef n ps body ex df, st =>
    let st := st.emit ("def " ++ n ++ "(" ++ joinComma ps ++ "):")
    let st := st.indent
    match (if body.isEmpty then .ok (st.emit "return None")
           else match visitStmts body st with
             | .error e => .error e
             | .ok st2 =>
               if body.isEmpty ∨ !lastIsReturn body then .ok (st2.emit "return None")
               else .ok st2 : Except String EmitState) with
    | .error e => .error e
    | .ok st3 =>
      match st3.dedent with
      | .error e => .error e
      | .ok st4 =>
        let st5 := if ex then st4.emit ("__trif_exports__['" ++ n ++ "'] = " ++ n) else st4
        let st6 := if df then st5.emit ("__trif_default_export__ = " ++ n) else st5
        .ok (st6.emit "")
  | .ret none, st => .ok (st.emit "return None")
  | .ret (some v), st => .ok (st.emit ("return " ++ render_expression v))
  | .exportNames ns src, st => .ok (visit_export_names ns src st)
  | .exportDefault v, st => .ok (st.emit ("__trif_default_export__ = " ++ render_expression v))
  | .ifStmt t b o, st =>
    let st := st.emit ("if " ++ render_expression t ++ ":")
    match visitStmts b st.indent with
    | .error e => .error e
    | .ok st2 =>
      match st2.dedent with
      | .error e => .error e
      | .ok st3 =>
        if !o.isEmpty then
          let st4 := st3.emit "else:"
          match visitStmts o st4.indent with
          | .error e => .error e
          | .ok st5 => st5.dedent
        else .ok st3
  | .whileStmt t b, st =>
    let st := st.emit ("while " ++ render_expression t ++ ":")
    match visitStmts b st.indent with
    | .error e => .error e
    | .ok st2 => st2.dedent
  | .forStmt tgt it b, st =>
    let st := st.emit ("for " ++ tgt ++ " in " ++ render_expression it ++ ":")
    match visitStmts b st.indent with
    | .error e => .error e
    | .ok st2 => st2.dedent
  | .spawn c, st => .ok (st.emit ("runtime.spawn(" ++ render_expression c ++ ")"))
  | .exprStmt e, st => .ok (st.emit (render_expression e))

/-- The statement-sequence fold of the Python visitor. -/
def visitStmts : List Stmt → EmitState → Except String EmitState
  | [], st => .ok st
  | s :: rest, st =>
    match visitStmt s st with
    | .error e => .error e
    | .ok st2 => visitStmts rest st2

end

/-- `PythonVisitor::generate`: prelude, body, epilogue. -/
def python_generate (m : Module) : Except String String :=
  let st : EmitState := ⟨[], 0, 0⟩
  let st := st.emit "import pathlib"
  let st := st.emit "import sys"
  let st := st.emit "_trif_origin = pathlib.Path(__file__).resolve().parent if '__file__' in globals() else pathlib.Path.cwd()"
  let st := st.emit "for _candidate in (_trif_origin, _trif_origin.parent):"
  let st := st.indent
  let st := st.emit "candidate_pkg = _candidate / 'trif_lang'"
  let st := st.emit "if candidate_pkg.exists():"
  let st := st.indent
  let st := st.emit "if str(_candidate) not in sys.path:"
  let st := st.indent
  let st := st.emit "sys.path.insert(0, str(_candidate))"
  match st.dedent with
  | .error e => .error e
  | .ok st =>
  let st := st.emit "break"
  match st.dedent with
  | .error e => .error e
  | .ok st =>
  match st.dedent with
  | .error e => .error e
  | .ok st =>
  let st := st.emit "from trif_lang.runtime import runtime"
  let st := st.emit "__trif_exports__ = \x7b\x7d"
  let st := st.emit "__trif_default_export__ = None"
  let st := st.emit ""
  match visitStmts m.body st with
  | .error e => .error e
  | .ok st =>
  let st := st.emit ""
  let st := st.emit "runtime.register_module_exports(__name__, __trif_exports__, __trif_default_export__)"
  let st := st.emit ""
  let st := st.emit "if __name__ == '__main__':"
  let st := st.indent
  let st := st.emit "runtime.default_entry_point(locals())"
  match st.dedent with
  | .error e => .error e
  | .ok st => .ok st.render

mutual

/-- `JavaScriptVisitor::render_expression`. -/
def render_expression_js : Expr → String
  | .name id => id
  | .number v => v
  | .str v => repr_string v
  | .boolean b => if b then "true" else "false"
  | .null => "null"
  | .binaryOp l op r => render_expression_js l ++ " " ++ op ++ " " ++ render_expression_js r
  | .unaryOp op e => op ++ render_expression_js e
  | .call f args => render_expression_js f ++ "(" ++ joinComma (renderArgsJs args) ++ ")"
  | .attribute v a => render_expression_js v ++ "." ++ a
  | .listLiteral es => "[" ++ joinComma (renderArgsJs es) ++ "]"
  | .dictLiteral ps => "\x7b" ++ joinComma (renderPairsJs ps) ++ "\x7d"

def renderArgsJs : List Expr → List String
  | [] => []
  | e :: rest => render_expression_js e :: renderArgsJs rest

def renderPairsJs : List (Expr × Expr) → List String
  | [] => []
  | (k, v) :: rest => (render_expression_js k ++ ": " ++ render_expression_js v) :: renderPairsJs rest

end

/-- Named-binding loop of `JavaScriptVisitor::visit_import_from`. -/
def emitImportExtractsJs : List (String × String) → EmitState → EmitState
  | [], st => st
  | (source, aliasN) :: rest, st =>
    emitImportExtractsJs rest
      (st.emit ("const " ++ aliasN ++ " = runtime.extractExport(__mod, '" ++ source ++ "');"))

/-- Re-export loop of `JavaScriptVisitor::visit_export_names` with a source. -/
def emitExportExtractsJs : List (String × String) → EmitState → EmitState
  | [], st => st
  | (source, aliasN) :: rest, st =>
    emitExportExtractsJs rest
      (st.emit ("__trif_exports__.set('" ++ aliasN ++ "', runtime.extractExport(__mod, '" ++
        source ++ "'));"))

/-- Local-binding loop of `JavaScriptVisitor::visit_export_names`. -/
def emitExportLocalsJs : List (String × String) → EmitState → EmitState
  | [], st => st
  | (lcl, aliasN) :: rest, st =>
    emitExportLocalsJs rest (st.emit ("__trif_exports__.set('" ++ aliasN ++ "', " ++ lcl ++ ");"))

mutual

/-- `JavaScriptVisitor::visit`. -/
def visitStmtJs : Stmt → EmitState → Except String EmitState
  | .importStmt m a, st =>
    .ok (st.emit ("const " ++ a.getD m ++ " = await runtime.importModule('" ++ m ++ "');"))
  | .importFrom m ns d nsp, st =>
    let st := st.emit ("const __mod = await runtime.importModule('" ++ m ++ "');")
    let st := match nsp with
      | some n => st.emit ("const " ++ n ++ " = __mod;")
      | none => st
    let st := match d with
      | some n => st.emit ("const " ++ n ++ " = runtime.extractDefault(__mod);")
      | none => st
    .ok (emitImportExtractsJs ns st)
  | .letStmt n v mf ex df, st =>
    let keyword := if mf then "let" else "const"
    let st := st.emit (keyword ++ " " ++ n ++ " = " ++ render_expression_js v ++ ";")
    let st := if ex then st.emit ("__trif_exports__.set('" ++ n ++ "', " ++ n ++ ");") else st
    .ok (if df then st.emit ("__trif_default_export__ = " ++ n ++ ";") else st)
  | .assign t v, st =>
    .ok (st.emit (render_expression_js t ++ " = " ++ render_expression_js v ++ ";"))
  | .functionDef n ps body ex df, st =>
    let st := st.emit ("function " ++ n ++ "(" ++ joinComma ps ++ ") \x7b")
    let st := st.indent
    match (if body.isEmpty then .ok (st.emit "return null;")
           else match visitStmtsJs body st with
             | .error e => .error e
             | .ok st2 => .ok (st2.emit "return null;") : Except String EmitState) with
    | .error e => .error e
    | .ok st3 =>
      match st3.dedent with
      | .error e => .error e
      | .ok st4 =>
        let st4 := st4.emit "\x7d"
        let st5 := if ex then st4.emit ("__trif_exports__.set('" ++ n ++ "', " ++ n ++ ");") else st4
        let st6 := if df then st5.emit ("__trif_default_export__ = " ++ n ++ ";") else st5
        .ok (st6.emit "")
  | .ret none, st => .ok (st.emit "return null;")
  | .ret (some v), st => .ok (st.emit ("return " ++ render_expression_js v ++ ";"))
  | .exportNames ns src, st =>
    match src with
    | some s =>
      let st := st.emit ("const __mod = await runtime.importModule('" ++ s ++ "');")
      .ok (emitExportExtractsJs ns st)
    | none => .ok (emitExportLocalsJs ns st)
  | .exportDefault v, st =>
    .ok (st.emit ("__trif_default_export__ = " ++ render_expression_js v ++ ";"))
  | .ifStmt t b o, st =>
    let st := st.emit ("if (" ++ render_expression_js t ++ ") \x7b")
    match visitStmtsJs b st.indent with
    | .error e => .error e
    | .ok st2 =>
      match st2.dedent with
      | .error e => .error e
      | .ok st3 =>
        if !o.isEmpty then
          let st4 := st3.emit "\x7d else \x7b"
          match visitStmtsJs o st4.indent with
          | .error e => .error e
          | .ok st5 =>
            match st5.dedent with
            | .error e => .error e
            | .ok st6 => .ok (st6.emit "\x7d")
        else .ok (st3.emit "\x7d")
  | .whileStmt t b, st =>
    let st := st.emit ("while (" ++ render_expression_js t ++ ") \x7b")
    match visitStmtsJs b st.indent with
    | .error e => .error e
    | .ok st2 =>
      match st2.dedent with
      | .error e => .error e
      | .ok st3 => .ok (st3.emit "\x7d")
  | .forStmt tgt it b, st =>
    let st := st.emit ("for (const " ++ tgt ++ " of " ++ render_expression_js it ++ ") \x7b")
    match visitStmtsJs b st.indent with
    | .error e => .error e
    | .ok st2 =>
      match st2.dedent with
      | .error e => .error e
      | .ok st3 => .ok (st3.emit "\x7d")
  | .spawn c, st => .ok (st.emit ("runtime.spawn(" ++ render_expression_js c ++ ");"))
  | .exprStmt e, st => .ok (st.emit (render_expression_js e ++ ";"))

/-- The statement-sequence fold of the JavaScript visitor. -/
def visitStmtsJs : List Stmt → EmitState → Except String EmitState
  | [], st => .ok st
  | s :: rest, st =>
    match visitStmtJs s st with
    | .error e => .error e
    | .ok st2 => visitStmtsJs rest st2

end

/-- `JavaScriptVisitor::generate`. -/
def javascript_generate (m : Module) : Except String String :=
  let st : EmitState := ⟨[], 0, 0⟩
  let st := st.emit "import \x7b runtime \x7d from '@trif/lang/runtime.js'"
  let st := st.emit "const __trif_exports__ = new Map();"
  let st := st.emit "let __trif_default_export__ = null;"
  let st := st.emit ""
  match visitStmtsJs m.body st with
  | .error e => .error e
  | .ok st =>
  let st := st.emit ""
  let st := st.emit "export default __trif_default_export__;"
  let st := st.emit "export const exports = __trif_exports__;"
  .ok st.render

/-! ## The compiler (`compiler.cpp`) -/

/-- `generate_cpp_stub`: a fixed skeleton regardless of the module. -/
def generate_cpp_stub : String :=
  "#include <trif/runtime.hpp>\n" ++
  "#include <utility>\n" ++
  "\n" ++
  "int main(int argc, char** argv) \x7b\n" ++
  "    trif::runtime::Runtime runtime;\n" ++
  "    auto exports = runtime.create_module();\n" ++
  "    auto default_export = runtime.null_value();\n" ++
  "    runtime.bootstrap(argv[0]);\n" ++
  "    // TODO: Generated body\n" ++
  "    runtime.register_module(exports, default_export);\n" ++
  "    return 0;\n" ++
  "\x7d\n"

/-- `trif::compiler::CompileOptions`. -/
structure CompileOptions where
  target : String := "python"
  aggressive_errors : Bool := false
deriving DecidableEq

/-- The body of the `try` block of `Compiler::compile_source`: tokenize,
parse, pick the generator.  The `fuelOut` arm is unreachable (theorem
`c10_parser_terminates`); it is surfaced as a distinguished message so
nothing is silently conflated. -/
def compileRaw (source : String) (options : CompileOptions) :
    Except String (Module × Option String) :=
  match tokenize source with
  | .error (.err m) => .error m
  | .error .fuelOut => .error "lexer fuel exhausted"
  | .ok tokens =>
    match parse tokens with
    | .error (.err m) => .error m
    | .error .fuelOut => .error "parser fuel exhausted"
    | .ok m =>
      if options.target = "python" then
        match python_generate m with
        | .error e => .error e
        | .ok out => .ok (m, some out)
      else if options.target = "javascript" ∨ options.target = "js" then
        match javascript_generate m with
        | .error e => .error e
        | .ok out => .ok (m, some out)
      else if options.target = "cpp" ∨ options.target = "c++" then
        .ok (m, some generate_cpp_stub)
      else .error ("Unknown target: " ++ options.target)

/-- `Compiler::compile_source`: the catch clause rethrows the original
message under `--aggressive-errors` and wraps it otherwise. -/
def compile_source (source : String) (options : CompileOptions) :
    Except String (Module × Option String) :=
  match compileRaw source options with
  | .ok r => .ok r
  | .error m =>
    .error (if options.aggressive_errors then m else "Compilation failed: " ++ m)

/-- `Compiler::compile_file`: the filesystem is a partial map from paths
to contents; the open failure happens before (outside) `compile_source`. -/
def compile_file (fs : String → Option String) (path : String) (options : CompileOptions) :
    Except String (Module × Option String) :=
  match fs path with
  | none => .error ("Unable to open file: " ++ path)
  | some source => compile_source source options

/-! ## C7: string literal round trip -/

theorem decodeEscapes_no_backslash :
    ∀ p : List Char, (∀ c ∈ p, c ≠ '\\') → decodeEscapes p = p := by
  intro p
  induction p with
  | nil => intro _; rfl
  | cons c rest ih =>
    intro h
    have hc : c ≠ '\\' := h c (by simp)
    rw [decodeEscapes.eq_def]
    split
    · rename_i heq
      injection heq with h1 h2
      exact absurd h1 hc
    · rename_i c' rest' heq
      injection heq with h1 h2
      subst h1; subst h2
      rw [ih (fun d hd => h d (by simp [hd]))]
    · rename_i heq
      cases heq

theorem reprChars_plain :
    ∀ p : List Char,
      (∀ c ∈ p, c ≠ '\\' ∧ c ≠ '"' ∧ c ≠ '\n' ∧ c ≠ '\t' ∧ c ≠ '\r') →
      reprChars p = p := by
  intro p
  induction p with
  | nil => intro _; rfl
  | cons c rest ih =>
    intro h
    obtain ⟨h1, h2, h3, h4, h5⟩ := h c (by simp)
    have : reprChar c = [c] := by simp [reprChar, h1, h2, h3, h4, h5]
    simp only [reprChars, this, List.singleton_append]
    rw [ih (fun d hd => h d (by simp [hd]))]

/-- C7.  String round-trip: for every payload `p` that contains no
backslash and no character the generator escapes (no double quote,
newline, tab or carriage return), decoding the double-quoted literal
with the lexer's `decode_string_literal` and re-emitting the decoded
value with the generator's `repr_string` yields exactly the original
payload surrounded by double quotes. -/
theorem c7_string_roundtrip (p : List Char)
    (h : ∀ c ∈ p, c ≠ '\\' ∧ c ≠ '"' ∧ c ≠ '\n' ∧ c ≠ '\t' ∧ c ≠ '\r') :
    repr_string (String.mk (decode_string_literal ('"' :: p ++ ['"']))) =
      String.mk ('"' :: p ++ ['"']) := by
  have hlen : ¬ (('"' :: p ++ ['"']).length < 2) := by simp
  have hdecode : decode_string_literal ('"' :: p ++ ['"']) = p := by
    unfold decode_string_literal
    rw [if_neg hlen]
    have : (('"' :: p ++ ['"']).drop 1).dropLast = p := by simp
    rw [this, decodeEscapes_no_backslash p (fun c hc => (h c hc).1)]
  rw [hdecode]
  unfold repr_string
  have : (String.mk p).toList = p := rfl
  rw [this, reprChars_plain p h]

/-- Closed witness for `c7_string_roundtrip`. -/
theorem c7_string_roundtrip_witness :
    repr_string (String.mk (decode_string_literal ('"' :: "ab c".toList ++ ['"']))) =
      String.mk ('"' :: "ab c".toList ++ ['"']) :=
  c7_string_roundtrip "ab c".toList (by decide)

/-! ## C6: operator precedence and associativity -/

/-- C6.  `1 + 2 * 3` parses as `1 + (2 * 3)`; `a || b && c` parses as
`a || (b && c)`; `!!x` parses as `!(!x)` (prefix `!` is
right-associative).  Each source is tokenized and parsed by the
embedded pipeline and the resulting AST is stated literally. -/
theorem c6_operator_precedence :
    (match tokenize "1 + 2 * 3" with
     | .ok ts => parse ts
     | .error _ => .error .fuelOut) =
      .ok ⟨[.exprStmt (.binaryOp (.number "1") "+"
        (.binaryOp (.number "2") "*" (.number "3")))]⟩ ∧
    (match tokenize "a || b && c" with
     | .ok ts => parse ts
     | .error _ => .error .fuelOut) =
      .ok ⟨[.exprStmt (.binaryOp (.name "a") "||"
        (.binaryOp (.name "b") "&&" (.name "c")))]⟩ ∧
    (match tokenize "!!x" with
     | .ok ts => parse ts
     | .error _ => .error .fuelOut) =
      .ok ⟨[.exprStmt (.unaryOp "!" (.unaryOp "!" (.name "x")))]⟩ := by
  refine ⟨?_, ?_, ?_⟩ <;> rfl

/-! ## C8: determinism of compilation -/

/-- C8.  Compilation is deterministic: `compile_source` is a pure
function of the source text and the options — two runs on equal inputs
yield the same result, so they either both fail or both succeed with
byte-identical output text.  (The C++ visitor state — the emitter and
the `temp_index_` counter — is constructed afresh inside each call, so
the embedding threads it explicitly and locally; no state survives
between compilations.) -/
theorem c8_deterministic (source : String) (options : CompileOptions)
    (r1 r2 : Except String (Module × Option String))
    (h1 : compile_source source options = r1)
    (h2 : compile_source source options = r2) : r1 = r2 :=
  h1 ▸ h2

/-- Closed witness for `c8_deterministic`. -/
theorem c8_deterministic_witness :
    compile_source "let x = 1" ⟨"python", false⟩ = compile_source "let x = 1" ⟨"python", false⟩ :=
  c8_deterministic "let x = 1" ⟨"python", false⟩ _ _ rfl rfl

/-! ## C1: error wrapping policy (corrected: the cannot-read-input
error of `compile_file` is never wrapped) -/

/-- C1 counterexample.  With `--aggressive-errors` NOT set, the I/O
error for an unreadable input file is reported as
`"Unable to open file: input.trif"`, which does not carry the
`"Compilation failed: "` prefix the claim requires for every failure
class. -/
theorem c1_counterexample :
    compile_file (fun _ => none) "input.trif" ⟨"python", false⟩ =
      .error "Unable to open file: input.trif" ∧
    ¬ ("Compilation failed: ".toList.isPrefixOf "Unable to open file: input.trif".toList) := by
  exact ⟨rfl, by decide⟩

/-- C1 (amended).  Failures raised inside `compile_source` — lex, parse,
codegen and unknown-target errors — are wrapped as
`"Compilation failed: <original>"` by default and surfaced unchanged
with `--aggressive-errors`; successful runs are unchanged; but the I/O
error for an unreadable input, raised in `compile_file` before
`compile_source` runs, is surfaced unchanged in both modes. -/
theorem c1_error_wrapping :
    (∀ source options msg, compileRaw source options = .error msg →
      compile_source source options =
        .error (if options.aggressive_errors then msg else "Compilation failed: " ++ msg)) ∧
    (∀ source options r, compileRaw source options = .ok r →
      compile_source source options = .ok r) ∧
    (∀ fs path options, fs path = none →
      compile_file fs path options = .error ("Unable to open file: " ++ path)) := by
  refine ⟨?_, ?_, ?_⟩
  · intro source options msg h
    unfold compile_source
    rw [h]
  · intro source options r h
    unfold compile_source
    rw [h]
  · intro fs path options h
    unfold compile_file
    rw [h]

/-- Closed witness for `c1_error_wrapping`: a lex failure is wrapped in
default mode, and the unreadable-input error is unwrapped even in
default mode. -/
theorem c1_error_wrapping_witness :
    compile_source "???" ⟨"python", false⟩ =
      .error "Compilation failed: Unexpected character '?' at line 1 column 1" ∧
    compile_file (fun _ => none) "main.trif" ⟨"python", false⟩ =
      .error "Unable to open file: main.trif" :=
  ⟨c1_error_wrapping.1 "???" ⟨"python", false⟩
      "Unexpected character '?' at line 1 column 1" rfl,
   c1_error_wrapping.2.2 (fun _ => none) "main.trif" ⟨"python", false⟩ rfl⟩

/-! ## C5: unterminated block comment (corrected: the message reports
the line but not the column) -/

theorem matchToken_cons_newline (cs : List Char) : matchToken ('\n' :: cs) = some ("NEWLINE", 1) := by
  have h1 : matchNumber ('\n' :: cs) = none := by
    simp [matchNumber, takeWhileLen, show Char.isDigit '\n' = false from by decide]
  have h2 : matchStringTok ('\n' :: cs) = none := by
    simp [matchStringTok, show ¬('\n' = '"' ∨ '\n' = '\'') from by decide]
  have h3 : matchComment ('\n' :: cs) = none := rfl
  have h4 : matchName ('\n' :: cs) = none := by
    simp [matchName, show isNameStart '\n' = false from by decide]
  have h5 : matchOp ('\n' :: cs) = none := by
    cases cs with
    | nil => rfl
    | cons c2 rest => simp +decide [matchOp, twoCharOps, singleCharOps]
  have h6 : matchNewline ('\n' :: cs) = some 1 := rfl
  unfold matchToken
  rw [h1, h2, h3, h4, h5, h6]
  rfl

/-- The lexer loop over a run of newlines followed by an unterminated
block comment opener: the failure line is the start line plus the
newline count, and the message carries no column. -/
theorem tokenizeLoop_unterminated (n : Nat) :
    ∀ (fuel line column : Nat) (acc : List Token) (q : List Char),
      n + 1 ≤ fuel → findCommentClose ('/' :: '*' :: q) = none →
      tokenizeLoop fuel (List.replicate n '\n' ++ '/' :: '*' :: q) line column acc =
        .error (.err ("Unterminated block comment at line " ++ toString (line + n))) := by
  induction n with
  | zero =>
    intro fuel line column acc q hfuel hq
    match fuel with
    | f + 1 =>
      rw [List.replicate_zero, List.nil_append, tokenizeLoop]
      rw [if_pos ⟨rfl, rfl⟩, hq]
      simp
  | succ n ih =>
    intro fuel line column acc q hfuel hq
    match fuel with
    | f + 1 =>
      have hc : List.replicate (n + 1) '\n' ++ '/' :: '*' :: q =
          '\n' :: (List.replicate n '\n' ++ '/' :: '*' :: q) := by
        simp [List.replicate_succ]
      rw [hc, tokenizeLoop]
      rw [if_neg (by simp)]
      rw [matchToken_cons_newline]
      simp only [List.drop_succ_cons, List.drop_zero, eq_self_iff_true, if_true, ite_true]
      rw [ih f (line + 1) 1 _ q (by omega) hq]
      have : line + 1 + n = line + (n + 1) := by omega
      rw [this]

/-- C5 counterexample.  On the source `"  /*"` (the comment opens at
column 3) the tokenizer fails with exactly
`"Unterminated block comment at line 1"`: the 1-based line is reported
but the column is not — the message does not even contain the digit 3,
so the claim that both line and column are reported fails. -/
theorem c5_counterexample :
    tokenize "  /*" = .error (.err "Unterminated block comment at line 1") ∧
    ¬ (("Unterminated block comment at line 1".toList.contains '3') = true) := by
  exact ⟨rfl, by decide⟩

/-- C5 (amended).  Whenever the lexer loop, in any state it can be in
(any remaining fuel, any accumulated tokens, any line/column counters),
stands at a `/*` with no later `*/`, it fails with
`"Unterminated block comment at line L"` where `L` is the loop's
current line counter; the column is not part of the message.  When the
opener is preceded only by newlines, `L` is the 1-based physical line
of the opener.  The counter can lag the physical line: it advances only
when a NEWLINE token or a block comment is consumed, so a raw newline
inside a string literal is not counted, and on `"a\nb"/*` the message
says line 1 although the opener sits on physical line 2. -/
theorem c5_unterminated_block_comment :
    (∀ (fuel line column : Nat) (acc : List Token) (q : List Char),
        findCommentClose ('/' :: '*' :: q) = none →
        tokenizeLoop (fuel + 1) ('/' :: '*' :: q) line column acc =
          .error (.err ("Unterminated block comment at line " ++ toString line))) ∧
    (∀ (n : Nat) (q : List Char),
        findCommentClose ('/' :: '*' :: q) = none →
        tokenize (String.mk (List.replicate n '\n' ++ '/' :: '*' :: q)) =
          .error (.err ("Unterminated block comment at line " ++ toString (n + 1)))) ∧
    tokenize "\"a\nb\"/*" = .error (.err "Unterminated block comment at line 1") := by
  refine ⟨?_, ?_, rfl⟩
  · intro fuel line column acc q h
    rw [tokenizeLoop, if_pos ⟨rfl, rfl⟩, h]
  · intro n q h
    unfold tokenize
    have hl : (String.mk (List.replicate n '\n' ++ '/' :: '*' :: q)).toList =
        List.replicate n '\n' ++ '/' :: '*' :: q := rfl
    rw [hl]
    rw [tokenizeLoop_unterminated n _ 1 1 [] q (by simp) h]
    rw [Nat.add_comm 1 n]

/-- Closed witness for `c5_unterminated_block_comment`: a mid-lex state
on line 7 with pending tokens fails with the line-7 message. -/
theorem c5_unterminated_block_comment_witness :
    tokenizeLoop (0 + 1) ('/' :: '*' :: ['x']) 7 3 [⟨"NAME", "a", 7, 1⟩] =
      .error (.err ("Unterminated block comment at line " ++ toString 7)) :=
  c5_unterminated_block_comment.1 0 7 3 [⟨"NAME", "a", 7, 1⟩] ['x'] (by decide)

/-! ## C4 / C9: Python generator structure

The shared workhorse is `visitStmt_spec` / `visitStmts_spec`: the
Python visitor never fails (in particular never raises the indentation
underflow), returns to the entry indent level, and only appends lines;
when the statement is `Clean` (its raw string fields contain no newline
and do not start with a space — string-literal expressions excepted,
since `repr_string` escapes them) every appended payload is clean too. -/

/-- No newline inside the string. -/
def noNL (s : String) : Bool := !s.toList.contains '\n'

/-- The string does not start with a space. -/
def headNotSpace (s : String) : Bool := s.toList.head? != some ' '

/-- A payload that renders to physical lines whose leading spaces are
exactly the emitter's indent: no embedded newline, no leading space. -/
def cleanStr (s : String) : Bool := noNL s && headNotSpace s

/-- A raw AST string field that keeps the generated lines well-shaped:
clean as a payload and nonempty. -/
def cleanField (s : String) : Bool := cleanStr s && !s.toList.isEmpty

mutual

/-- Raw string fields of an expression are clean (string literals are
exempt: `repr_string` escapes them). -/
def cleanExpr : Expr → Bool
  | .name id => cleanField id
  | .number v => cleanField v
  | .str _ => true
  | .boolean _ => true
  | .null => true
  | .binaryOp l op r => cleanExpr l && cleanField op && cleanExpr r
  | .unaryOp op e => cleanField op && cleanExpr e
  | .call f args => cleanExpr f && cleanExprs args
  | .attribute v a => cleanExpr v && cleanField a
  | .listLiteral es => cleanExprs es
  | .dictLiteral ps => cleanPairs ps

def cleanExprs : List Expr → Bool
  | [] => true
  | e :: rest => cleanExpr e && cleanExprs rest

def cleanPairs : List (Expr × Expr) → Bool
  | [] => true
  | (k, v) :: rest => cleanExpr k && cleanExpr v && cleanPairs rest

end

/-- Clean pair lists (import/export specifier pairs). -/
def cleanSPairs : List (String × String) → Bool
  | [] => true
  | (a, b) :: rest => cleanField a && cleanField b && cleanSPairs rest

/-- Clean optional string. -/
def cleanOpt : Option String → Bool
  | none => true
  | some s => cleanField s

/-- Clean string list (parameter lists). -/
def cleanStrs : List String → Bool
  | [] => true
  | s :: rest => cleanField s && cleanStrs rest

mutual

/-- Raw string fields of a statement are clean. -/
def cleanStmt : Stmt → Bool
  | .importStmt m a => cleanField m && cleanOpt a
  | .importFrom m ns d nsp => cleanField m && cleanSPairs ns && cleanOpt d && cleanOpt nsp
  | .letStmt n v _ _ _ => cleanField n && cleanExpr v
  | .assign t v => cleanExpr t && cleanExpr v
  | .functionDef n ps body _ _ => cleanField n && cleanStrs ps && cleanStmts body
  | .exportNames ns src => cleanSPairs ns && cleanOpt src
  | .exportDefault v => cleanExpr v
  | .ret none => true
  | .ret (some v) => cleanExpr v
  | .ifStmt t b o => cleanExpr t && cleanStmts b && cleanStmts o
  | .whileStmt t b => cleanExpr t && cleanStmts b
  | .forStmt tgt it b => cleanField tgt && cleanExpr it && cleanStmts b
  | .spawn c => cleanExpr c
  | .exprStmt e => cleanExpr e

def cleanStmts : List Stmt → Bool
  | [] => true
  | s :: rest => cleanStmt s && cleanStmts rest

end

theorem toList_append (a b : String) : (a ++ b).toList = a.toList ++ b.toList := rfl

theorem noNL_append (a b : String) : noNL (a ++ b) = (noNL a && noNL b) := by
  simp only [noNL, toList_append]
  by_cases h1 : '\n' ∈ a.toList <;> by_cases h2 : '\n' ∈ b.toList <;>
    simp [h1, h2]

theorem headNotSpace_append_of_ne (a b : String) (ha : a.toList ≠ [])
    (h : headNotSpace a = true) : headNotSpace (a ++ b) = true := by
  simp only [headNotSpace, toList_append]
  match hd : a.toList with
  | [] => exact absurd hd ha
  | c :: rest =>
    simp only [headNotSpace, hd] at h
    simpa using h

theorem cleanStr_append_left (a b : String) (ha : a.toList ≠ []) (hca : cleanStr a = true)
    (hb : noNL b = true) : cleanStr (a ++ b) = true := by
  simp only [cleanStr, Bool.and_eq_true] at hca ⊢
  exact ⟨by rw [noNL_append]; simp [hca.1, hb],
         headNotSpace_append_of_ne a b ha hca.2⟩

theorem cleanField_append_left (a b : String) (ha : cleanField a = true)
    (hb : noNL b = true) : cleanField (a ++ b) = true := by
  simp only [cleanField, Bool.and_eq_true] at ha
  obtain ⟨ha1, ha2⟩ := ha
  have hne : a.toList ≠ [] := by
    intro hnil
    rw [hnil] at ha2
    simp at ha2
  simp only [cleanField, Bool.and_eq_true]
  refine ⟨cleanStr_append_left a b hne ha1 hb, ?_⟩
  rw [toList_append]
  cases h : a.toList with
  | nil => exact absurd h hne
  | cons c rest => simp

theorem reprChar_noNL (c : Char) : ¬ '\n' ∈ reprChar c := by
  unfold reprChar
  split
  · simp
  · split
    · simp
    · split
      · simp
      · split
        · simp
        · split
          · simp
          · rename_i h1 h2 h3 h4 h5
            simp only [List.mem_singleton]
            exact fun hh => h3 hh.symm

theorem reprChars_noNL (cs : List Char) : ¬ '\n' ∈ reprChars cs := by
  induction cs with
  | nil => simp [reprChars]
  | cons c rest ih =>
    simp only [reprChars, List.mem_append]
    rintro (h | h)
    · exact reprChar_noNL c h
    · exact ih h

theorem repr_string_cleanField (v : String) : cleanField (repr_string v) = true := by
  unfold repr_string cleanField cleanStr noNL headNotSpace
  have h1 : (String.mk ('"' :: reprChars v.toList ++ ['"'])).toList =
      '"' :: reprChars v.toList ++ ['"'] := rfl
  rw [h1]
  have h2 : ¬ '\n' ∈ '"' :: (reprChars v.toList ++ ['"']) := by
    intro hmem
    rcases List.mem_cons.mp hmem with h | h
    · exact absurd h (by decide)
    · rcases List.mem_append.mp h with h | h
      · exact reprChars_noNL v.toList h
      · exact absurd (List.mem_singleton.mp h) (by decide)
  simp [h2]
  exact reprChars_noNL v.data

theorem cleanField_noNL {s : String} (h : cleanField s = true) : noNL s = true := by
  simp only [cleanField, cleanStr, Bool.and_eq_true] at h
  exact h.1.1

theorem joinComma_noNL : ∀ l : List String, (∀ s ∈ l, noNL s = true) → noNL (joinComma l) = true := by
  intro l
  induction l with
  | nil => intro _; decide
  | cons v rest ih =>
    intro h
    cases rest with
    | nil => exact h v (by simp)
    | cons w rest2 =>
      have heq : joinComma (v :: w :: rest2) = v ++ ", " ++ joinComma (w :: rest2) := rfl
      rw [heq, noNL_append, noNL_append]
      have h1 := h v (by simp)
      have h2 : noNL ", " = true := by decide
      have h3 := ih (fun s hs => h s (by simp [List.mem_cons] at hs ⊢; tauto))
      simp [h1, h2, h3]

mutual

theorem renderExpr_clean : ∀ e : Expr, cleanExpr e = true → cleanField (render_expression e) = true
  | .name id => fun h => by simpa [cleanExpr, render_expression] using h
  | .number v => fun h => by simpa [cleanExpr, render_expression] using h
  | .str v => fun _ => by
    simpa [render_expression] using repr_string_cleanField v
  | .boolean b => fun _ => by cases b <;> decide
  | .null => fun _ => by decide
  | .binaryOp l op r => fun h => by
    simp only [cleanExpr, Bool.and_eq_true] at h
    obtain ⟨⟨hl, hop⟩, hr⟩ := h
    have cl := renderExpr_clean l hl
    have cr := renderExpr_clean r hr
    simp only [render_expression]
    refine cleanField_append_left _ _ ?_ (cleanField_noNL cr)
    refine cleanField_append_left _ _ ?_ (by decide)
    refine cleanField_append_left _ _ ?_ (cleanField_noNL hop)
    exact cleanField_append_left _ _ cl (by decide)
  | .unaryOp op e => fun h => by
    simp only [cleanExpr, Bool.and_eq_true] at h
    obtain ⟨hop, he⟩ := h
    have ce := renderExpr_clean e he
    simp only [render_expression]
    exact cleanField_append_left _ _ hop (cleanField_noNL ce)
  | .call f args => fun h => by
    simp only [cleanExpr, Bool.and_eq_true] at h
    obtain ⟨hf, hargs⟩ := h
    have cf := renderExpr_clean f hf
    have cargs := renderArgs_clean args hargs
    simp only [render_expression]
    refine cleanField_append_left _ _ ?_ (by decide)
    refine cleanField_append_left _ _ ?_ (joinComma_noNL _ cargs)
    exact cleanField_append_left _ _ cf (by decide)
  | .attribute v a => fun h => by
    simp only [cleanExpr, Bool.and_eq_true] at h
    obtain ⟨hv, ha⟩ := h
    have cv := renderExpr_clean v hv
    simp only [render_expression]
    refine cleanField_append_left _ _ ?_ (cleanField_noNL ha)
    exact cleanField_append_left _ _ cv (by decide)
  | .listLiteral es => fun h => by
    simp only [cleanExpr] at h
    have ces := renderArgs_clean es h
    simp only [render_expression]
    refine cleanField_append_left _ _ ?_ (by decide)
    exact cleanField_append_left _ _ (by decide) (joinComma_noNL _ ces)
  | .dictLiteral ps => fun h => by
    simp only [cleanExpr] at h
    have cps := renderPairs_clean ps h
    simp only [render_expression]
    refine cleanField_append_left _ _ ?_ (by decide)
    exact cleanField_append_left _ _ (by decide) (joinComma_noNL _ cps)

theorem renderArgs_clean : ∀ es : List Expr, cleanExprs es = true →
    ∀ s ∈ renderArgs es, noNL s = true
  | [] => fun _ => by simp [renderArgs]
  | e :: rest => fun h => by
    simp only [cleanExprs, Bool.and_eq_true] at h
    obtain ⟨he, hrest⟩ := h
    intro s hs
    simp only [renderArgs, List.mem_cons] at hs
    rcases hs with hs | hs
    · subst hs
      exact cleanField_noNL (renderExpr_clean e he)
    · exact renderArgs_clean rest hrest s hs

theorem renderPairs_clean : ∀ ps : List (Expr × Expr), cleanPairs ps = true →
    ∀ s ∈ renderPairs ps, noNL s = true
  | [] => fun _ => by simp [renderPairs]
  | (k, v) :: rest => fun h => by
    simp only [cleanPairs, Bool.and_eq_true] at h
    obtain ⟨⟨hk, hv⟩, hrest⟩ := h
    intro s hs
    simp only [renderPairs, List.mem_cons] at hs
    rcases hs with hs | hs
    · subst hs
      rw [noNL_append, noNL_append]
      simp [cleanField_noNL (renderExpr_clean k hk),
        cleanField_noNL (renderExpr_clean v hv), show noNL ": " = true from by decide]
    · exact renderPairs_clean rest hrest s hs

end

theorem cleanStr_of_cleanField {s : String} (h : cleanField s = true) : cleanStr s = true := by
  simp only [cleanField, Bool.and_eq_true] at h
  exact h.1

theorem digitChar_ok (n : Nat) : Nat.digitChar n ≠ '\n' ∧ Nat.digitChar n ≠ ' ' := by
  match n with
  | 0 | 1 | 2 | 3 | 4 | 5 | 6 | 7 | 8 | 9 | 10 | 11 | 12 | 13 | 14 | 15 => decide
  | m + 16 =>
    unfold Nat.digitChar
    repeat rw [if_neg (by omega)]
    decide

theorem toDigitsCore_ok (b : Nat) :
    ∀ (fuel n : Nat) (acc : List Char),
      (∀ c ∈ acc, c ≠ '\n' ∧ c ≠ ' ') →
      ∀ c ∈ Nat.toDigitsCore b fuel n acc, c ≠ '\n' ∧ c ≠ ' ' := by
  intro fuel
  induction fuel with
  | zero => intro n acc hacc; simpa [Nat.toDigitsCore] using hacc
  | succ fuel ih =>
    intro n acc hacc c hc
    rw [Nat.toDigitsCore] at hc
    split at hc
    · rcases List.mem_cons.mp hc with h | h
      · subst h; exact digitChar_ok _
      · exact hacc c h
    · refine ih (n / b) (Nat.digitChar (n % b) :: acc) ?_ c hc
      intro d hd
      rcases List.mem_cons.mp hd with h | h
      · subst h; exact digitChar_ok _
      · exact hacc d h

theorem toDigitsCore_ne_nil (b : Nat) :
    ∀ (fuel n : Nat) (acc : List Char), acc ≠ [] ∨ 1 ≤ fuel →
      Nat.toDigitsCore b fuel n acc ≠ [] := by
  intro fuel
  induction fuel with
  | zero =>
    intro n acc h
    rcases h with h | h
    · simpa [Nat.toDigitsCore] using h
    · omega
  | succ fuel ih =>
    intro n acc _
    rw [Nat.toDigitsCore]
    split
    · simp
    · exact ih (n / b) _ (Or.inl (by simp))

/-- `toString n` for a natural number is newline-free, space-free and
nonempty, hence a clean field. -/
theorem natRepr_cleanField (n : Nat) : cleanField (toString n) = true := by
  have hrepr : toString n = (Nat.toDigits 10 n).asString := rfl
  have hlist : (toString n).toList = Nat.toDigits 10 n := by rw [hrepr]; rfl
  have hok : ∀ c ∈ Nat.toDigits 10 n, c ≠ '\n' ∧ c ≠ ' ' :=
    toDigitsCore_ok 10 (n + 1) n [] (by simp)
  have hne : Nat.toDigits 10 n ≠ [] := toDigitsCore_ne_nil 10 (n + 1) n [] (Or.inr (by omega))
  simp only [cleanField, cleanStr, noNL, headNotSpace, Bool.and_eq_true, hlist]
  refine ⟨⟨by simpa using fun hmem => (hok '\n' hmem).1 rfl, ?_⟩, by simpa using hne⟩
  match hd : Nat.toDigits 10 n with
  | [] => exact absurd hd hne
  | c :: rest =>
    have := hok c (by rw [hd]; simp)
    simpa using fun heq => this.2 (by rw [heq])

theorem tempName_cleanField (pfx : String) (n : Nat) (hp : cleanField pfx = true)
    (hpn : noNL (toString n) = true) : cleanField (tempName pfx n) = true := by
  unfold tempName
  refine cleanField_append_left _ _ ?_ hpn
  refine cleanField_append_left _ _ ?_ (by decide)
  exact cleanField_append_left _ _ (by decide) (cleanField_noNL hp)

/-- The `.`/`-` → `_` replacement of `visit_import` preserves clean fields. -/
theorem mapDots_cleanField (s : String) (h : cleanField s = true) :
    cleanField (String.mk (s.toList.map fun ch => if ch = '.' ∨ ch = '-' then '_' else ch)) =
      true := by
  simp only [cleanField, cleanStr, noNL, headNotSpace, Bool.and_eq_true] at h ⊢
  obtain ⟨⟨h1, h2⟩, h3⟩ := h
  have htl : (String.mk (s.toList.map fun ch => if ch = '.' ∨ ch = '-' then '_' else ch)).toList =
      s.toList.map fun ch => if ch = '.' ∨ ch = '-' then '_' else ch := rfl
  rw [htl]
  refine ⟨⟨?_, ?_⟩, ?_⟩
  · have h1m : '\n' ∉ s.toList := by simpa using h1
    suffices hgoal : '\n' ∉ s.toList.map fun ch => if ch = '.' ∨ ch = '-' then '_' else ch by
      simpa using hgoal
    intro hmem
    obtain ⟨d, hd1, hd2⟩ := List.mem_map.mp hmem
    by_cases hdd : d = '.' ∨ d = '-'
    · rw [if_pos hdd] at hd2
      exact absurd hd2 (by decide)
    · rw [if_neg hdd] at hd2
      exact h1m (hd2 ▸ hd1)
  · match hd : s.toList with
    | [] => simp
    | c :: rest =>
      rw [hd] at h2
      simp only [List.map_cons, List.head?_cons]
      by_cases hcc : c = '.' ∨ c = '-'
      · simp [if_pos hcc]
      · simp only [if_neg hcc]
        simpa using h2
  · simpa using (by simpa using h3 : ¬ s.toList = [])

theorem emitImportExtracts_spec (tn : String) :
    ∀ (names : List (String × String)) (st : EmitState), ∃ Δ,
      emitImportExtracts tn names st = ⟨st.lines ++ Δ, st.indentLevel, st.tempIndex⟩ ∧
      (cleanField tn = true → cleanSPairs names = true → ∀ p ∈ Δ, cleanStr p.2 = true) := by
  intro names
  induction names with
  | nil =>
    intro st
    exact ⟨[], by simp [emitImportExtracts], by simp⟩
  | cons pair rest ih =>
    intro st
    obtain ⟨source, aliasN⟩ := pair
    set payload :=
      aliasN ++ " = runtime.extract_export(" ++ tn ++ ", '" ++ source ++ "')" with hpay
    obtain ⟨Δ, hΔ, hclean⟩ := ih (st.emit payload)
    refine ⟨(st.indentLevel, payload) :: Δ, ?_, ?_⟩
    · rw [emitImportExtracts, hΔ]
      simp [EmitState.emit]
    · intro htn hc p hp
      simp only [cleanSPairs, Bool.and_eq_true] at hc
      obtain ⟨⟨hs, ha⟩, hrest⟩ := hc
      rcases List.mem_cons.mp hp with h | h
      · subst h
        refine cleanStr_of_cleanField ?_
        rw [hpay]
        refine cleanField_append_left _ _ ?_ (by decide)
        refine cleanField_append_left _ _ ?_ (cleanField_noNL hs)
        refine cleanField_append_left _ _ ?_ (by decide)
        refine cleanField_append_left _ _ ?_ (cleanField_noNL htn)
        exact cleanField_append_left _ _ ha (by decide)
      · exact hclean htn hrest p h

theorem emitExportExtracts_spec (tn : String) :
    ∀ (names : List (String × String)) (st : EmitState), ∃ Δ,
      emitExportExtracts tn names st = ⟨st.lines ++ Δ, st.indentLevel, st.tempIndex⟩ ∧
      (cleanField tn = true → cleanSPairs names = true → ∀ p ∈ Δ, cleanStr p.2 = true) := by
  intro names
  induction names with
  | nil =>
    intro st
    exact ⟨[], by simp [emitExportExtracts], by simp⟩
  | cons pair rest ih =>
    intro st
    obtain ⟨source, aliasN⟩ := pair
    set payload := "__trif_exports__['" ++ aliasN ++ "'] = runtime.extract_export(" ++
      tn ++ ", '" ++ source ++ "')" with hpay
    obtain ⟨Δ, hΔ, hclean⟩ := ih (st.emit payload)
    refine ⟨(st.indentLevel, payload) :: Δ, ?_, ?_⟩
    · rw [emitExportExtracts, hΔ]
      simp [EmitState.emit]
    · intro htn hc p hp
      simp only [cleanSPairs, Bool.and_eq_true] at hc
      obtain ⟨⟨hs, ha⟩, hrest⟩ := hc
      rcases List.mem_cons.mp hp with h | h
      · subst h
        refine cleanStr_of_cleanField ?_
        rw [hpay]
        refine cleanField_append_left _ _ ?_ (by decide)
        refine cleanField_append_left _ _ ?_ (cleanField_noNL hs)
        refine cleanField_append_left _ _ ?_ (by decide)
        refine cleanField_append_left _ _ ?_ (cleanField_noNL htn)
        refine cleanField_append_left _ _ ?_ (by decide)
        exact cleanField_append_left _ _ (by decide) (cleanField_noNL ha)
      · exact hclean htn hrest p h

theorem emitExportLocals_spec :
    ∀ (names : List (String × String)) (st : EmitState), ∃ Δ,
      emitExportLocals names st = ⟨st.lines ++ Δ, st.indentLevel, st.tempIndex⟩ ∧
      (cleanSPairs names = true → ∀ p ∈ Δ, cleanStr p.2 = true) := by
  intro names
  induction names with
  | nil =>
    intro st
    exact ⟨[], by simp [emitExportLocals], by simp⟩
  | cons pair rest ih =>
    intro st
    obtain ⟨lcl, aliasN⟩ := pair
    set payload := "__trif_exports__['" ++ aliasN ++ "'] = " ++ lcl with hpay
    obtain ⟨Δ, hΔ, hclean⟩ := ih (st.emit payload)
    refine ⟨(st.indentLevel, payload) :: Δ, ?_, ?_⟩
    · rw [emitExportLocals, hΔ]
      simp [EmitState.emit]
    · intro hc p hp
      simp only [cleanSPairs, Bool.and_eq_true] at hc
      obtain ⟨⟨hl, ha⟩, hrest⟩ := hc
      rcases List.mem_cons.mp hp with h | h
      · subst h
        refine cleanStr_of_cleanField ?_
        rw [hpay]
        refine cleanField_append_left _ _ ?_ (cleanField_noNL hl)
        refine cleanField_append_left _ _ ?_ (by decide)
        exact cleanField_append_left _ _ (by decide) (cleanField_noNL ha)
      · exact hclean hrest p h

theorem emit_ok (st : EmitState) (payload : String) :
    st.emit payload =
      (⟨st.lines ++ [(st.indentLevel, payload)], st.indentLevel, st.tempIndex⟩ : EmitState) := rfl

theorem dedent_succ (L : List (Nat × String)) (lvl t : Nat) :
    (⟨L, lvl + 1, t⟩ : EmitState).dedent = .ok (⟨L, lvl, t⟩ : EmitState) := by
  simp [EmitState.dedent]

theorem ite_emit (b : Bool) (st : EmitState) (s : String) :
    (if b then st.emit s else st) =
      ⟨st.lines ++ (if b then [(st.indentLevel, s)] else []), st.indentLevel, st.tempIndex⟩ := by
  cases b <;> simp [EmitState.emit]

theorem mem_ite_nil {b : Bool} {l : List (Nat × String)} {p : Nat × String}
    (h : p ∈ (if b then l else ([] : List (Nat × String)))) : p ∈ l := by
  cases b <;> simp_all

theorem cleanStrs_noNL : ∀ ps : List String, cleanStrs ps = true → ∀ s ∈ ps, noNL s = true := by
  intro ps
  induction ps with
  | nil => simp
  | cons q rest ih =>
    intro h s hs
    simp only [cleanStrs, Bool.and_eq_true] at h
    rcases List.mem_cons.mp hs with hq | hq
    · subst hq; exact cleanField_noNL h.1
    · exact ih h.2 s hq

/-- The payload emitted for an exported name: clean when the name is. -/
theorem export_payload_clean (n : String) (hn : cleanField n = true) :
    cleanStr ("__trif_exports__['" ++ n ++ "'] = " ++ n) = true := by
  refine cleanStr_of_cleanField ?_
  refine cleanField_append_left _ _ ?_ (cleanField_noNL hn)
  refine cleanField_append_left _ _ ?_ (by decide)
  exact cleanField_append_left _ _ (by decide) (cleanField_noNL hn)

/-- The payload emitted for a default export binding. -/
theorem default_payload_clean (n : String) (hn : noNL n = true) :
    cleanStr ("__trif_default_export__ = " ++ n) = true := by
  refine cleanStr_of_cleanField ?_
  exact cleanField_append_left _ _ (by decide) hn

mutual

theorem visitStmt_spec : ∀ (s : Stmt) (st : EmitState), ∃ Δ t,
    visitStmt s st = .ok ⟨st.lines ++ Δ, st.indentLevel, t⟩ ∧
    (cleanStmt s = true → ∀ p ∈ Δ, cleanStr p.2 = true)
  | .importStmt m a, st => by
    simp only [visitStmt, visit_import]
    refine ⟨[(st.indentLevel, _)], st.tempIndex, rfl, ?_⟩
    intro hc p hp
    simp only [cleanStmt, Bool.and_eq_true] at hc
    obtain ⟨hm, ha⟩ := hc
    rcases List.mem_cons.mp hp with h | h
    · subst h
      refine cleanStr_of_cleanField ?_
      refine cleanField_append_left _ _ ?_ (by decide)
      refine cleanField_append_left _ _ ?_ (cleanField_noNL hm)
      refine cleanField_append_left _ _ ?_ (by decide)
      refine mapDots_cleanField _ ?_
      cases a with
      | none => simpa using hm
      | some s => simpa [cleanOpt] using ha
    · cases h
  | .importFrom m ns d nsp, st => by
    have htn : cleanField (tempName "import" st.tempIndex) = true :=
      tempName_cleanField _ _ (by decide) (cleanField_noNL (natRepr_cleanField _))
    set tn := tempName "import" st.tempIndex with htn_def
    set pay1 := tn ++ " = runtime.import_module('" ++ m ++ "')" with hpay1
    have hpay1c : cleanStmt (.importFrom m ns d nsp) = true → cleanStr pay1 = true := by
      intro hc
      simp only [cleanStmt, Bool.and_eq_true] at hc
      refine cleanStr_of_cleanField ?_
      refine cleanField_append_left _ _ ?_ (by decide)
      refine cleanField_append_left _ _ ?_ (cleanField_noNL hc.1.1.1)
      exact cleanField_append_left _ _ htn (by decide)
    rcases nsp with _ | nname <;> rcases d with _ | dname
    · obtain ⟨Δ, hΔ, hclean⟩ := emitImportExtracts_spec tn ns
        ⟨st.lines ++ [(st.indentLevel, pay1)], st.indentLevel, st.tempIndex + 1⟩
      refine ⟨(st.indentLevel, pay1) :: Δ, st.tempIndex + 1, ?_, ?_⟩
      · have hrw : visitStmt (Stmt.importFrom m ns none none) st =
            .ok (emitImportExtracts tn ns
              ⟨st.lines ++ [(st.indentLevel, pay1)], st.indentLevel, st.tempIndex + 1⟩) := rfl
        rw [hrw, hΔ]
        simp
      · intro hc p hp
        simp only [cleanStmt, Bool.and_eq_true] at hc
        rcases List.mem_cons.mp hp with h | h
        · subst h
          exact hpay1c (by simp [cleanStmt, Bool.and_eq_true]; tauto)
        · exact hclean htn hc.1.1.2 p h
    · set pay3 := dname ++ " = runtime.extract_default(" ++ tn ++ ")" with hpay3
      obtain ⟨Δ, hΔ, hclean⟩ := emitImportExtracts_spec tn ns
        ⟨st.lines ++ [(st.indentLevel, pay1)] ++ [(st.indentLevel, pay3)],
          st.indentLevel, st.tempIndex + 1⟩
      refine ⟨(st.indentLevel, pay1) :: (st.indentLevel, pay3) :: Δ, st.tempIndex + 1, ?_, ?_⟩
      · have hrw : visitStmt (Stmt.importFrom m ns (some dname) none) st =
            .ok (emitImportExtracts tn ns
              ⟨st.lines ++ [(st.indentLevel, pay1)] ++ [(st.indentLevel, pay3)],
                st.indentLevel, st.tempIndex + 1⟩) := rfl
        rw [hrw, hΔ]
        simp
      · intro hc p hp
        simp only [cleanStmt, cleanOpt, Bool.and_eq_true] at hc
        rcases List.mem_cons.mp hp with h | h
        · subst h
          exact hpay1c (by simp [cleanStmt, cleanOpt, Bool.and_eq_true]; tauto)
        · rcases List.mem_cons.mp h with h2 | h2
          · subst h2
            refine cleanStr_of_cleanField ?_
            refine cleanField_append_left _ _ ?_ (by decide)
            refine cleanField_append_left _ _ ?_ (cleanField_noNL htn)
            exact cleanField_append_left _ _ hc.1.2 (by decide)
          · exact hclean htn hc.1.1.2 p h2
    · set pay2 := nname ++ " = " ++ tn with hpay2
      obtain ⟨Δ, hΔ, hclean⟩ := emitImportExtracts_spec tn ns
        ⟨st.lines ++ [(st.indentLevel, pay1)] ++ [(st.indentLevel, pay2)],
          st.indentLevel, st.tempIndex + 1⟩
      refine ⟨(st.indentLevel, pay1) :: (st.indentLevel, pay2) :: Δ, st.tempIndex + 1, ?_, ?_⟩
      · have hrw : visitStmt (Stmt.importFrom m ns none (some nname)) st =
            .ok (emitImportExtracts tn ns
              ⟨st.lines ++ [(st.indentLevel, pay1)] ++ [(st.indentLevel, pay2)],
                st.indentLevel, st.tempIndex + 1⟩) := rfl
        rw [hrw, hΔ]
        simp
      · intro hc p hp
        simp only [cleanStmt, cleanOpt, Bool.and_eq_true] at hc
        rcases List.mem_cons.mp hp with h | h
        · subst h
          exact hpay1c (by simp [cleanStmt, cleanOpt, Bool.and_eq_true]; tauto)
        · rcases List.mem_cons.mp h with h2 | h2
          · subst h2
            refine cleanStr_of_cleanField ?_
            refine cleanField_append_left _ _ ?_ (cleanField_noNL htn)
            exact cleanField_append_left _ _ hc.2 (by decide)
          · exact hclean htn hc.1.1.2 p h2
    · set pay2 := nname ++ " = " ++ tn with hpay2
      set pay3 := dname ++ " = runtime.extract_default(" ++ tn ++ ")" with hpay3
      obtain ⟨Δ, hΔ, hclean⟩ := emitImportExtracts_spec tn ns
        ⟨st.lines ++ [(st.indentLevel, pay1)] ++ [(st.indentLevel, pay2)] ++
          [(st.indentLevel, pay3)], st.indentLevel, st.tempIndex + 1⟩
      refine ⟨(st.indentLevel, pay1) :: (st.indentLevel, pay2) :: (st.indentLevel, pay3) :: Δ,
        st.tempIndex + 1, ?_, ?_⟩
      · have hrw : visitStmt (Stmt.importFrom m ns (some dname) (some nname)) st =
            .ok (emitImportExtracts tn ns
              ⟨st.lines ++ [(st.indentLevel, pay1)] ++ [(st.indentLevel, pay2)] ++
                [(st.indentLevel, pay3)], st.indentLevel, st.tempIndex + 1⟩) := rfl
        rw [hrw, hΔ]
        simp
      · intro hc p hp
        simp only [cleanStmt, cleanOpt, Bool.and_eq_true] at hc
        rcases List.mem_cons.mp hp with h | h
        · subst h
          exact hpay1c (by simp [cleanStmt, cleanOpt, Bool.and_eq_true]; tauto)
        · rcases List.mem_cons.mp h with h2 | h2
          · subst h2
            refine cleanStr_of_cleanField ?_
            refine cleanField_append_left _ _ ?_ (cleanField_noNL htn)
            exact cleanField_append_left _ _ hc.2 (by decide)
          · rcases List.mem_cons.mp h2 with h3 | h3
            · subst h3
              refine cleanStr_of_cleanField ?_
              refine cleanField_append_left _ _ ?_ (by decide)
              refine cleanField_append_left _ _ ?_ (cleanField_noNL htn)
              exact cleanField_append_left _ _ hc.1.2 (by decide)
            · exact hclean htn hc.1.1.2 p h3
  | .letStmt n v mf ex df, st => by
    simp only [visitStmt, visit_let]
    set assignment := (if !mf then n ++ " = " ++ render_expression v ++ "  # const"
      else n ++ " = " ++ render_expression v) with hassign
    simp only [ite_emit]
    refine ⟨(st.indentLevel, assignment) ::
      ((if ex then [(st.indentLevel, "__trif_exports__['" ++ n ++ "'] = " ++ n)] else []) ++
       (if df then [(st.indentLevel, "__trif_default_export__ = " ++ n)] else [])),
      st.tempIndex, ?_, ?_⟩
    · simp [EmitState.emit, List.append_assoc]
    · intro hc p hp
      simp only [cleanStmt, Bool.and_eq_true] at hc
      obtain ⟨hn, hv⟩ := hc
      have hrender := renderExpr_clean v hv
      rcases List.mem_cons.mp hp with h | h
      · subst h
        refine cleanStr_of_cleanField ?_
        cases mf with
        | true =>
          simp only [hassign, Bool.not_true, if_neg (by decide : ¬ (false = true))]
          refine cleanField_append_left _ _ ?_ (cleanField_noNL hrender)
          exact cleanField_append_left _ _ hn (by decide)
        | false =>
          simp only [hassign, Bool.not_false, if_pos rfl]
          refine cleanField_append_left _ _ ?_ (by decide)
          refine cleanField_append_left _ _ ?_ (cleanField_noNL hrender)
          exact cleanField_append_left _ _ hn (by decide)
      · rcases List.mem_append.mp h with h2 | h2
        · have := mem_ite_nil h2
          simp only [List.mem_singleton] at this
          subst this
          exact export_payload_clean n hn
        · have := mem_ite_nil h2
          simp only [List.mem_singleton] at this
          subst this
          exact default_payload_clean n (cleanField_noNL hn)
  | .assign t v, st => by
    simp only [visitStmt]
    refine ⟨[(st.indentLevel, _)], st.tempIndex, rfl, ?_⟩
    intro hc p hp
    simp only [cleanStmt, Bool.and_eq_true] at hc
    rcases List.mem_cons.mp hp with h | h
    · subst h
      refine cleanStr_of_cleanField ?_
      refine cleanField_append_left _ _ ?_ (cleanField_noNL (renderExpr_clean v hc.2))
      exact cleanField_append_left _ _ (renderExpr_clean t hc.1) (by decide)
    · cases h
  | .functionDef n ps body ex df, st => by
    simp only [visitStmt]
    set header := "def " ++ n ++ "(" ++ joinComma ps ++ "):" with hheader
    set st2 : EmitState :=
      ⟨st.lines ++ [(st.indentLevel, header)], st.indentLevel + 1, st.tempIndex⟩ with hst2
    have hs2 : (st.emit header).indent = st2 := rfl
    obtain ⟨Δb, tb, hΔb, hcleanb⟩ := visitStmts_spec body st2
    by_cases hb : body.isEmpty
    · have hbody : body = [] := by simpa [List.isEmpty_iff] using hb
      subst hbody
      refine ⟨(st.indentLevel, header) :: (st.indentLevel + 1, "return None") ::
        ((if ex then [(st.indentLevel, "__trif_exports__['" ++ n ++ "'] = " ++ n)] else []) ++
         (if df then [(st.indentLevel, "__trif_default_export__ = " ++ n)] else []) ++
         [(st.indentLevel, "")]),
        st.tempIndex, ?_, ?_⟩
      · simp only [List.isEmpty_nil, if_pos rfl, hs2, if_true]
        cases ex <;> cases df <;>
          simp [dedent_succ, EmitState.emit, List.append_assoc, hst2]
      · intro hc p hp
        simp only [cleanStmt, Bool.and_eq_true] at hc
        obtain ⟨⟨hn, hps⟩, _⟩ := hc
        rcases List.mem_cons.mp hp with h | h
        · subst h
          refine cleanStr_of_cleanField ?_
          refine cleanField_append_left _ _ ?_ (by decide)
          refine cleanField_append_left _ _ ?_ (joinComma_noNL ps (cleanStrs_noNL ps hps))
          refine cleanField_append_left _ _ ?_ (by decide)
          exact cleanField_append_left _ _ (by decide) (cleanField_noNL hn)
        · rcases List.mem_cons.mp h with h2 | h2
          · subst h2
            exact (show cleanStr "return None" = true by decide)
          · rcases List.mem_append.mp h2 with h3 | h3
            · rcases List.mem_append.mp h3 with h4 | h4
              · have := mem_ite_nil h4
                simp only [List.mem_singleton] at this
                subst this
                exact export_payload_clean n hn
              · have := mem_ite_nil h4
                simp only [List.mem_singleton] at this
                subst this
                exact default_payload_clean n (cleanField_noNL hn)
            · simp only [List.mem_singleton] at h3
              subst h3
              exact (show cleanStr "" = true by decide)
    · have hbfalse : body.isEmpty = false := by simpa using hb
      refine ⟨(st.indentLevel, header) ::
        (Δb ++ (if !lastIsReturn body then [(st.indentLevel + 1, "return None")] else []) ++
         ((if ex then [(st.indentLevel, "__trif_exports__['" ++ n ++ "'] = " ++ n)] else []) ++
          (if df then [(st.indentLevel, "__trif_default_export__ = " ++ n)] else []) ++
          [(st.indentLevel, "")])),
        tb, ?_, ?_⟩
      · rw [hbfalse]
        simp only [Bool.false_eq_true, if_neg (by simp : ¬ (false = true)), hs2, hΔb]
        cases hlr : lastIsReturn body <;> cases ex <;> cases df <;>
          simp [hlr, dedent_succ, EmitState.emit, List.append_assoc, hst2]
      · intro hc p hp
        simp only [cleanStmt, Bool.and_eq_true] at hc
        obtain ⟨⟨hn, hps⟩, hbody⟩ := hc
        rcases List.mem_cons.mp hp with h | h
        · subst h
          refine cleanStr_of_cleanField ?_
          refine cleanField_append_left _ _ ?_ (by decide)
          refine cleanField_append_left _ _ ?_ (joinComma_noNL ps (cleanStrs_noNL ps hps))
          refine cleanField_append_left _ _ ?_ (by decide)
          exact cleanField_append_left _ _ (by decide) (cleanField_noNL hn)
        · rcases List.mem_append.mp h with h2 | h2
          · rcases List.mem_append.mp h2 with h3 | h3
            · exact hcleanb hbody p h3
            · have hmem := mem_ite_nil h3
              simp only [List.mem_singleton] at hmem
              subst hmem
              exact (show cleanStr "return None" = true by decide)
          · rcases List.mem_append.mp h2 with h3 | h3
            · rcases List.mem_append.mp h3 with h4 | h4
              · have := mem_ite_nil h4
                simp only [List.mem_singleton] at this
                subst this
                exact export_payload_clean n hn
              · have := mem_ite_nil h4
                simp only [List.mem_singleton] at this
                subst this
                exact default_payload_clean n (cleanField_noNL hn)
            · simp only [List.mem_singleton] at h3
              subst h3
              exact (show cleanStr "" = true by decide)
  | .ret none, st => by
    simp only [visitStmt]
    refine ⟨[(st.indentLevel, "return None")], st.tempIndex, rfl, ?_⟩
    intro _ p hp
    have hpe : p = (st.indentLevel, "return None") := List.mem_singleton.mp hp
    rw [hpe]
    exact (show cleanStr "return None" = true by decide)
  | .ret (some v), st => by
    simp only [visitStmt]
    refine ⟨[(st.indentLevel, _)], st.tempIndex, rfl, ?_⟩
    intro hc p hp
    simp only [cleanStmt] at hc
    rcases List.mem_singleton.mp hp with h
    subst h
    refine cleanStr_of_cleanField ?_
    exact cleanField_append_left _ _ (by decide) (cleanField_noNL (renderExpr_clean v hc))
  | .exportNames ns src, st => by
    cases src with
    | none =>
      obtain ⟨Δ, hΔ, hclean⟩ := emitExportLocals_spec ns st
      have hrw : visitStmt (Stmt.exportNames ns none) st = .ok (emitExportLocals ns st) := rfl
      refine ⟨Δ, st.tempIndex, by rw [hrw, hΔ], ?_⟩
      intro hc p hp
      simp only [cleanStmt, Bool.and_eq_true] at hc
      exact hclean hc.1 p hp
    | some src =>
      have htn : cleanField (tempName "export" st.tempIndex) = true :=
        tempName_cleanField _ _ (by decide) (cleanField_noNL (natRepr_cleanField _))
      set tn := tempName "export" st.tempIndex with htn_def
      set pay1 := tn ++ " = runtime.import_module('" ++ src ++ "')" with hpay1
      obtain ⟨Δ, hΔ, hclean⟩ := emitExportExtracts_spec tn ns
        ⟨st.lines ++ [(st.indentLevel, pay1)], st.indentLevel, st.tempIndex + 1⟩
      refine ⟨(st.indentLevel, pay1) :: Δ, st.tempIndex + 1, ?_, ?_⟩
      · have hrw : visitStmt (Stmt.exportNames ns (some src)) st =
            .ok (emitExportExtracts tn ns
              ⟨st.lines ++ [(st.indentLevel, pay1)], st.indentLevel, st.tempIndex + 1⟩) := rfl
        rw [hrw, hΔ]
        simp
      · intro hc p hp
        simp only [cleanStmt, cleanOpt, Bool.and_eq_true] at hc
        rcases List.mem_cons.mp hp with h | h
        · subst h
          refine cleanStr_of_cleanField ?_
          refine cleanField_append_left _ _ ?_ (by decide)
          refine cleanField_append_left _ _ ?_ (cleanField_noNL hc.2)
          exact cleanField_append_left _ _ htn (by decide)
        · exact hclean htn hc.1 p h
  | .exportDefault v, st => by
    simp only [visitStmt]
    refine ⟨[(st.indentLevel, _)], st.tempIndex, rfl, ?_⟩
    intro hc p hp
    simp only [cleanStmt] at hc
    rcases List.mem_singleton.mp hp with h
    subst h
    exact default_payload_clean _ (cleanField_noNL (renderExpr_clean v hc))
  | .ifStmt t b o, st => by
    simp only [visitStmt]
    set header := "if " ++ render_expression t ++ ":" with hheader
    set st2 : EmitState :=
      ⟨st.lines ++ [(st.indentLevel, header)], st.indentLevel + 1, st.tempIndex⟩ with hst2
    have hs2 : (st.emit header).indent = st2 := rfl
    rw [hs2]
    obtain ⟨Δb, tb, hΔb, hcleanb⟩ := visitStmts_spec b st2
    rw [hΔb]
    have hd : (⟨st2.lines ++ Δb, st2.indentLevel, tb⟩ : EmitState).dedent =
        .ok (⟨st2.lines ++ Δb, st.indentLevel, tb⟩ : EmitState) := by
      simp [EmitState.dedent, hst2]
    simp only [hd]
    by_cases ho : o.isEmpty
    · have hoe : o = [] := by simpa [List.isEmpty_iff] using ho
      subst hoe
      refine ⟨(st.indentLevel, header) :: Δb, tb, ?_, ?_⟩
      · simp [hst2]
      · intro hc p hp
        simp only [cleanStmt, Bool.and_eq_true] at hc
        rcases List.mem_cons.mp hp with h | h
        · subst h
          refine cleanStr_of_cleanField ?_
          refine cleanField_append_left _ _ ?_ (by decide)
          exact cleanField_append_left _ _ (by decide)
            (cleanField_noNL (renderExpr_clean t hc.1.1))
        · exact hcleanb hc.1.2 p h
    · have hfalse : o.isEmpty = false := by simpa using ho
      simp only [hfalse]
      rw [if_pos (show (!false) = true by decide)]
      set st4 : EmitState :=
        ⟨st2.lines ++ Δb ++ [(st.indentLevel, "else:")], st.indentLevel + 1, tb⟩ with hst4
      have hs4 : ((⟨st2.lines ++ Δb, st.indentLevel, tb⟩ : EmitState).emit "else:").indent =
          st4 := rfl
      rw [hs4]
      obtain ⟨Δo, t4, hΔo, hcleano⟩ := visitStmts_spec o st4
      rw [hΔo]
      have hd2 : (⟨st4.lines ++ Δo, st4.indentLevel, t4⟩ : EmitState).dedent =
          .ok (⟨st4.lines ++ Δo, st.indentLevel, t4⟩ : EmitState) := by
        simp [EmitState.dedent, hst4]
      simp only [hd2]
      refine ⟨(st.indentLevel, header) :: (Δb ++ (st.indentLevel, "else:") :: Δo), t4, ?_, ?_⟩
      · simp [hst4, hst2]
      · intro hc p hp
        simp only [cleanStmt, Bool.and_eq_true] at hc
        rcases List.mem_cons.mp hp with h | h
        · subst h
          refine cleanStr_of_cleanField ?_
          refine cleanField_append_left _ _ ?_ (by decide)
          exact cleanField_append_left _ _ (by decide)
            (cleanField_noNL (renderExpr_clean t hc.1.1))
        · rcases List.mem_append.mp h with h2 | h2
          · exact hcleanb hc.1.2 p h2
          · rcases List.mem_cons.mp h2 with h3 | h3
            · subst h3
              exact (show cleanStr "else:" = true by decide)
            · exact hcleano hc.2 p h3
  | .whileStmt t b, st => by
    simp only [visitStmt]
    set header := "while " ++ render_expression t ++ ":" with hheader
    set st2 : EmitState :=
      ⟨st.lines ++ [(st.indentLevel, header)], st.indentLevel + 1, st.tempIndex⟩ with hst2
    have hs2 : (st.emit header).indent = st2 := rfl
    rw [hs2]
    obtain ⟨Δb, tb, hΔb, hcleanb⟩ := visitStmts_spec b st2
    rw [hΔb]
    have hd : (⟨st2.lines ++ Δb, st2.indentLevel, tb⟩ : EmitState).dedent =
        .ok (⟨st2.lines ++ Δb, st.indentLevel, tb⟩ : EmitState) := by
      simp [EmitState.dedent, hst2]
    simp only [hd]
    refine ⟨(st.indentLevel, header) :: Δb, tb, by simp [hst2], ?_⟩
    intro hc p hp
    simp only [cleanStmt, Bool.and_eq_true] at hc
    rcases List.mem_cons.mp hp with h | h
    · subst h
      refine cleanStr_of_cleanField ?_
      refine cleanField_append_left _ _ ?_ (by decide)
      exact cleanField_append_left _ _ (by decide) (cleanField_noNL (renderExpr_clean t hc.1))
    · exact hcleanb hc.2 p h
  | .forStmt tgt it b, st => by
    simp only [visitStmt]
    set header := "for " ++ tgt ++ " in " ++ render_expression it ++ ":" with hheader
    set st2 : EmitState :=
      ⟨st.lines ++ [(st.indentLevel, header)], st.indentLevel + 1, st.tempIndex⟩ with hst2
    have hs2 : (st.emit header).indent = st2 := rfl
    rw [hs2]
    obtain ⟨Δb, tb, hΔb, hcleanb⟩ := visitStmts_spec b st2
    rw [hΔb]
    have hd : (⟨st2.lines ++ Δb, st2.indentLevel, tb⟩ : EmitState).dedent =
        .ok (⟨st2.lines ++ Δb, st.indentLevel, tb⟩ : EmitState) := by
      simp [EmitState.dedent, hst2]
    simp only [hd]
    refine ⟨(st.indentLevel, header) :: Δb, tb, by simp [hst2], ?_⟩
    intro hc p hp
    simp only [cleanStmt, Bool.and_eq_true] at hc
    obtain ⟨⟨htg, hit⟩, hb⟩ := hc
    rcases List.mem_cons.mp hp with h | h
    · subst h
      refine cleanStr_of_cleanField ?_
      refine cleanField_append_left _ _ ?_ (by decide)
      refine cleanField_append_left _ _ ?_ (cleanField_noNL (renderExpr_clean it hit))
      refine cleanField_append_left _ _ ?_ (by decide)
      exact cleanField_append_left _ _ (by decide) (cleanField_noNL htg)
    · exact hcleanb hb p h
  | .spawn c, st => by
    simp only [visitStmt]
    refine ⟨[(st.indentLevel, _)], st.tempIndex, rfl, ?_⟩
    intro hc p hp
    simp only [cleanStmt] at hc
    rcases List.mem_singleton.mp hp with h
    subst h
    refine cleanStr_of_cleanField ?_
    refine cleanField_append_left _ _ ?_ (by decide)
    exact cleanField_append_left _ _ (by decide) (cleanField_noNL (renderExpr_clean c hc))
  | .exprStmt e, st => by
    simp only [visitStmt]
    refine ⟨[(st.indentLevel, _)], st.tempIndex, rfl, ?_⟩
    intro hc p hp
    simp only [cleanStmt] at hc
    rcases List.mem_singleton.mp hp with h
    subst h
    exact cleanStr_of_cleanField (renderExpr_clean e hc)

theorem visitStmts_spec : ∀ (l : List Stmt) (st : EmitState), ∃ Δ t,
    visitStmts l st = .ok ⟨st.lines ++ Δ, st.indentLevel, t⟩ ∧
    (cleanStmts l = true → ∀ p ∈ Δ, cleanStr p.2 = true)
  | [], st => ⟨[], st.tempIndex, by simp [visitStmts], by simp⟩
  | s :: rest, st => by
    obtain ⟨Δ1, t1, h1, hc1⟩ := visitStmt_spec s st
    obtain ⟨Δ2, t2, h2, hc2⟩ := visitStmts_spec rest ⟨st.lines ++ Δ1, st.indentLevel, t1⟩
    refine ⟨Δ1 ++ Δ2, t2, ?_, ?_⟩
    · simp only [visitStmts, h1, h2, List.append_assoc]
    · intro hc p hp
      simp only [cleanStmts, Bool.and_eq_true] at hc
      rcases List.mem_append.mp hp with h | h
      · exact hc1 hc.1 p h
      · exact hc2 hc.2 p h

end


/-- C4: the Python generator's `visit_function_def` emits the `def` header,
then the visited body, then a trailing `return None` exactly when the body is
empty or its last statement is not a `Return`, then the export/default lines
and a blank line; with an empty body the function's interior is exactly the
single `return None` line. -/
theorem c4_function_return_none (n : String) (ps : List String) (body : List Stmt)
    (ex df : Bool) (st : EmitState) :
    ∃ Δb tb,
      visitStmts body (⟨st.lines ++ [(st.indentLevel, "def " ++ n ++ "(" ++ joinComma ps ++ "):")],
          st.indentLevel + 1, st.tempIndex⟩ : EmitState) =
        .ok ⟨st.lines ++ [(st.indentLevel, "def " ++ n ++ "(" ++ joinComma ps ++ "):")] ++ Δb,
          st.indentLevel + 1, tb⟩ ∧
      visitStmt (.functionDef n ps body ex df) st =
        .ok ⟨st.lines ++ [(st.indentLevel, "def " ++ n ++ "(" ++ joinComma ps ++ "):")] ++ Δb ++
            (if body.isEmpty || !lastIsReturn body then [(st.indentLevel + 1, "return None")]
             else []) ++
            (if ex then [(st.indentLevel, "__trif_exports__['" ++ n ++ "'] = " ++ n)] else []) ++
            (if df then [(st.indentLevel, "__trif_default_export__ = " ++ n)] else []) ++
            [(st.indentLevel, "")],
          st.indentLevel, tb⟩ ∧
      (body = [] → Δb = []) := by
  obtain ⟨Δb, tb, hΔb, hclean⟩ := visitStmts_spec body
    ⟨st.lines ++ [(st.indentLevel, "def " ++ n ++ "(" ++ joinComma ps ++ "):")],
      st.indentLevel + 1, st.tempIndex⟩
  have hnil : body = [] → Δb = [] ∧ st.tempIndex = tb := by
    intro h
    subst h
    have h0 := hΔb
    simp [visitStmts] at h0
    exact ⟨h0.1, h0.2⟩
  refine ⟨Δb, tb, hΔb, ?_, fun h => (hnil h).1⟩
  by_cases hb : body.isEmpty = true
  · have hbody : body = [] := by simpa [List.isEmpty_iff] using hb
    obtain ⟨hΔnil, htemp⟩ := hnil hbody
    subst hbody
    subst hΔnil
    subst htemp
    simp only [visitStmt]
    cases ex <;> cases df <;>
      simp [dedent_succ, EmitState.emit, EmitState.indent, List.append_assoc]
  · have hbfalse : body.isEmpty = false := by simpa using hb
    have hs2 : (st.emit ("def " ++ n ++ "(" ++ joinComma ps ++ "):")).indent =
        (⟨st.lines ++ [(st.indentLevel, "def " ++ n ++ "(" ++ joinComma ps ++ "):")],
          st.indentLevel + 1, st.tempIndex⟩ : EmitState) := rfl
    simp only [visitStmt, hs2, hΔb, hbfalse, Bool.false_eq_true,
      if_neg (by simp : ¬ (false = true)), Bool.false_or]
    cases hlr : lastIsReturn body <;> cases ex <;> cases df <;>
      simp [hlr, dedent_succ, EmitState.emit, List.append_assoc]

/-- Number of leading spaces of a physical line. -/
def countSpaces (l : List Char) : Nat := takeWhileLen (fun c => c = ' ') l

/-- Split a character stream into physical lines at newline characters. -/
def splitNL : List Char → List (List Char)
  | [] => [[]]
  | c :: rest =>
    if c = '\n' then [] :: splitNL rest
    else
      match splitNL rest with
      | [] => [[c]]
      | l :: ls => (c :: l) :: ls

theorem splitNL_append_cons (a t : List Char) (h : '\n' ∉ a) :
    splitNL (a ++ '\n' :: t) = a :: splitNL t := by
  induction a with
  | nil => simp [splitNL]
  | cons c a2 ih =>
    have hc : ¬ c = '\n' := fun hc => h (hc ▸ List.mem_cons_self c a2)
    have h2 : '\n' ∉ a2 := fun hm => h (List.mem_cons_of_mem _ hm)
    simp only [List.cons_append, splitNL, if_neg hc, List.append_eq, ih h2]

theorem countSpaces_replicate (k : Nat) (s : List Char) :
    countSpaces (List.replicate k ' ' ++ s) = k + countSpaces s := by
  induction k with
  | zero => simp
  | succ k ih =>
    simp only [List.replicate_succ, List.cons_append, countSpaces, takeWhileLen] at *
    simp [ih]
    omega

theorem countSpaces_headNotSpace (s : String) (h : headNotSpace s = true) :
    countSpaces s.toList = 0 := by
  unfold headNotSpace at h
  cases hs : s.toList with
  | nil => simp [countSpaces, takeWhileLen]
  | cons c rest =>
    rw [hs] at h
    simp at h
    simp [countSpaces, takeWhileLen, h]

theorem noNL_not_mem (s : String) (h : noNL s = true) : '\n' ∉ s.toList := by
  unfold noNL at h
  simp at h
  exact h

theorem renderLines_layout : ∀ (L : List (Nat × String)),
    (∀ p ∈ L, cleanStr p.2 = true) →
    ∀ l ∈ splitNL (renderLines L).toList, countSpaces l % 4 = 0 := by
  intro L
  induction L with
  | nil =>
    intro _ l hl
    simp [renderLines, splitNL] at hl
    subst hl
    simp [countSpaces, takeWhileLen]
  | cons p rest ih =>
    intro h l hl
    have hp := h p (List.mem_cons_self p rest)
    have hrest : ∀ q ∈ rest, cleanStr q.2 = true :=
      fun q hq => h q (List.mem_cons_of_mem p hq)
    simp only [cleanStr, Bool.and_eq_true] at hp
    simp only [renderLines] at hl
    rw [toList_append, toList_append, toList_append] at hl
    have hmk : (String.mk (List.replicate (4 * p.1) ' ')).toList =
        List.replicate (4 * p.1) ' ' := rfl
    have hnl : ("\n" : String).toList = ['\n'] := rfl
    rw [hmk, hnl, List.append_assoc] at hl
    rw [List.singleton_append] at hl
    have hno : '\n' ∉ (List.replicate (4 * p.1) ' ' ++ p.2.toList) := by
      intro hm
      rcases List.mem_append.mp hm with h1 | h1
      · exact absurd (List.eq_of_mem_replicate h1) (by decide)
      · exact noNL_not_mem p.2 hp.1 h1
    rw [splitNL_append_cons _ _ hno] at hl
    rcases List.mem_cons.mp hl with h1 | h1
    · subst h1
      rw [countSpaces_replicate, countSpaces_headNotSpace p.2 hp.2]
      simp [Nat.mul_mod_right]
    · exact ih hrest l h1

/-- The emitter state after the fixed Python prelude of `PythonVisitor`. -/
def pythonPrelude : EmitState :=
  ⟨[(0, "import pathlib"),
    (0, "import sys"),
    (0, "_trif_origin = pathlib.Path(__file__).resolve().parent if '__file__' in globals() else pathlib.Path.cwd()"),
    (0, "for _candidate in (_trif_origin, _trif_origin.parent):"),
    (1, "candidate_pkg = _candidate / 'trif_lang'"),
    (1, "if candidate_pkg.exists():"),
    (2, "if str(_candidate) not in sys.path:"),
    (3, "sys.path.insert(0, str(_candidate))"),
    (2, "break"),
    (0, "from trif_lang.runtime import runtime"),
    (0, "__trif_exports__ = \x7b\x7d"),
    (0, "__trif_default_export__ = None"),
    (0, "")], 0, 0⟩

/-- The fixed Python epilogue of `PythonVisitor`, applied after the module body. -/
def pythonEpilogue (st : EmitState) : Except String String :=
  let st := st.emit ""
  let st := st.emit "runtime.register_module_exports(__name__, __trif_exports__, __trif_default_export__)"
  let st := st.emit ""
  let st := st.emit "if __name__ == '__main__':"
  let st := st.indent
  let st := st.emit "runtime.default_entry_point(locals())"
  match st.dedent with
  | .error e => .error e
  | .ok st => .ok st.render

theorem python_generate_eq (m : Module) :
    python_generate m =
      match visitStmts m.body pythonPrelude with
      | .error e => .error e
      | .ok st => pythonEpilogue st := rfl

/-- C9 (amended): `python_generate` always succeeds — the "Indentation
underflow" error is unreachable because every dedent follows a matching
indent — and when every emitted payload is clean (no embedded newline, no
leading space: `cleanStmts`), every physical line of the output starts with
a number of spaces divisible by four.  The unrestricted claim is refuted by
`c9_counterexample`. -/
theorem c9_layout (m : Module) :
    ∃ out, python_generate m = .ok out ∧
      (cleanStmts m.body = true →
        ∀ l ∈ splitNL out.toList, countSpaces l % 4 = 0) := by
  obtain ⟨Δ, t, hΔ, hclean⟩ := visitStmts_spec m.body pythonPrelude
  refine ⟨renderLines (pythonPrelude.lines ++ Δ ++
    [(0, ""),
     (0, "runtime.register_module_exports(__name__, __trif_exports__, __trif_default_export__)"),
     (0, ""),
     (0, "if __name__ == '__main__':"),
     (1, "runtime.default_entry_point(locals())")]), ?_, ?_⟩
  · rw [python_generate_eq, hΔ]
    simp [pythonEpilogue, pythonPrelude, EmitState.emit, EmitState.indent, EmitState.dedent,
      EmitState.render, List.append_assoc]
  · intro hc l hl
    refine renderLines_layout _ ?_ l hl
    intro p hp
    rcases List.mem_append.mp hp with h1 | h1
    · rcases List.mem_append.mp h1 with h2 | h2
      · have hall : ∀ q ∈ pythonPrelude.lines, cleanStr q.2 = true := by decide
        exact hall p h2
      · exact hclean hc p h2
    · have hall : ∀ q ∈ ([(0, ""),
          (0, "runtime.register_module_exports(__name__, __trif_exports__, __trif_default_export__)"),
          (0, ""),
          (0, "if __name__ == '__main__':"),
          (1, "runtime.default_entry_point(locals())")] : List (Nat × String)),
          cleanStr q.2 = true := by decide
      exact hall p h1

/-- C9 counterexample: the parser accepts `import "a\n b"` (the lexer decodes
the escape, so the module name holds a newline), and the Python generator
splices that name raw into the import line, producing a physical line that
starts with exactly one space — not a multiple of four. -/
theorem c9_counterexample :
    (match tokenize "import \"a\\n b\"" with
     | .error _ => false
     | .ok ts =>
       match parse ts with
       | .error _ => false
       | .ok m =>
         match python_generate m with
         | .error _ => false
         | .ok out => (splitNL out.toList).any (fun l => countSpaces l % 4 != 0)) = true := by
  rfl

mutual

/-- Every `spawn` node in the statement carries a `Call` expression. -/
def spawnOk : Stmt → Bool
  | .spawn c => c.isCall
  | .functionDef _ _ body _ _ => spawnOks body
  | .ifStmt _ b o => spawnOks b && spawnOks o
  | .whileStmt _ b => spawnOks b
  | .forStmt _ _ b => spawnOks b
  | _ => true

def spawnOks : List Stmt → Bool
  | [] => true
  | s :: rest => spawnOk s && spawnOks rest

end

theorem spawnOks_append1 (l : List Stmt) (s : Stmt) (hl : spawnOks l = true)
    (hs : spawnOk s = true) : spawnOks (l ++ [s]) = true := by
  induction l with
  | nil => simp [spawnOks, hs]
  | cons q rest ih =>
    simp only [spawnOks, Bool.and_eq_true] at hl ⊢
    exact ⟨hl.1, ih hl.2⟩

/-- The spawn invariant each parser request maintains. -/
def PReq.spawnInv : (r : PReq) → r.ret → Prop
  | .statementR, s => spawnOk s = true
  | .exportR, s => spawnOk s = true
  | .varR _ _ _, s => spawnOk s = true
  | .fnR _ _, s => spawnOk s = true
  | .blockR, l => spawnOks l = true
  | .blockLoopR acc, l => spawnOks acc = true → spawnOks l = true
  | .topLoopR acc, l => spawnOks acc = true → spawnOks l = true
  | .binopR _, _ => True
  | .binopLoopR _ _, _ => True
  | .unaryR, _ => True
  | .callR, _ => True
  | .postfixR _, _ => True
  | .argsR _, _ => True
  | .primaryR, _ => True
  | .listR _, _ => True
  | .dictR _, _ => True

theorem parse_import_spawnOk (ts : List Token) (i : Nat) (s : Stmt) (j : Nat)
    (h : parse_import_statement ts i = .ok (s, j)) : spawnOk s = true := by
  simp only [parse_import_statement] at h
  repeat' split at h
  all_goals try exact Except.noConfusion h
  all_goals injection h with h1
  all_goals obtain ⟨rfl, rfl⟩ := Prod.mk.inj h1
  all_goals rfl

theorem parserCore_spawnInv : ∀ (fuel : Nat) (r : PReq) (ts : List Token) (i : Nat)
    (res : r.ret) (j : Nat), parserCore fuel r ts i = .ok (res, j) → r.spawnInv res := by
  intro fuel
  induction fuel with
  | zero =>
    intro r ts i res j h
    exact Except.noConfusion h
  | succ fuel ih =>
    intro r ts i res j h
    cases r with
    | binopR lvl => exact True.intro
    | binopLoopR lvl left => exact True.intro
    | unaryR => exact True.intro
    | callR => exact True.intro
    | postfixR left => exact True.intro
    | argsR acc => exact True.intro
    | primaryR => exact True.intro
    | listR acc => exact True.intro
    | dictR acc => exact True.intro
    | statementR =>
      simp only [parserCore] at h
      by_cases hc1 : (tokAt ts i).type = "IMPORT"
      · rw [if_pos hc1] at h
        repeat' split at h
        all_goals try exact Except.noConfusion h
        all_goals try (injection h with hp; obtain ⟨rfl, rfl⟩ := Prod.mk.inj hp)
        all_goals simp only [PReq.spawnInv, spawnOk]
        all_goals try rfl
        all_goals try assumption
        all_goals try exact parse_import_spawnOk _ _ _ _ (by assumption)
        all_goals try exact ih _ _ _ _ _ (by assumption)
        all_goals try exact ih _ _ _ _ _ h
        all_goals rw [Bool.and_eq_true]
        all_goals first
          | exact ⟨ih .blockR _ _ _ _ (by assumption), ih .blockR _ _ _ _ (by assumption)⟩
          | exact ⟨ih .blockR _ _ _ _ (by assumption), rfl⟩
      · rw [if_neg hc1] at h
        by_cases hc2 : (tokAt ts i).type = "EXPORT"
        · rw [if_pos hc2] at h
          repeat' split at h
          all_goals try exact Except.noConfusion h
          all_goals try (injection h with hp; obtain ⟨rfl, rfl⟩ := Prod.mk.inj hp)
          all_goals simp only [PReq.spawnInv, spawnOk]
          all_goals try rfl
          all_goals try assumption
          all_goals try exact parse_import_spawnOk _ _ _ _ (by assumption)
          all_goals try exact ih _ _ _ _ _ (by assumption)
          all_goals try exact ih _ _ _ _ _ h
          all_goals rw [Bool.and_eq_true]
          all_goals first
            | exact ⟨ih .blockR _ _ _ _ (by assumption), ih .blockR _ _ _ _ (by assumption)⟩
            | exact ⟨ih .blockR _ _ _ _ (by assumption), rfl⟩
        · rw [if_neg hc2] at h
          by_cases hc3 : (tokAt ts i).type = "LET" ∨ (tokAt ts i).type = "CONST"
          · rw [if_pos hc3] at h
            repeat' split at h
            all_goals try exact Except.noConfusion h
            all_goals try (injection h with hp; obtain ⟨rfl, rfl⟩ := Prod.mk.inj hp)
            all_goals simp only [PReq.spawnInv, spawnOk]
            all_goals try rfl
            all_goals try assumption
            all_goals try exact parse_import_spawnOk _ _ _ _ (by assumption)
            all_goals try exact ih _ _ _ _ _ (by assumption)
            all_goals try exact ih _ _ _ _ _ h
            all_goals rw [Bool.and_eq_true]
            all_goals first
              | exact ⟨ih .blockR _ _ _ _ (by assumption), ih .blockR _ _ _ _ (by assumption)⟩
              | exact ⟨ih .blockR _ _ _ _ (by assumption), rfl⟩
          · rw [if_neg hc3] at h
            by_cases hc4 : (tokAt ts i).type = "FN" ∨ (tokAt ts i).type = "FUNCTION"
            · rw [if_pos hc4] at h
              repeat' split at h
              all_goals try exact Except.noConfusion h
              all_goals try (injection h with hp; obtain ⟨rfl, rfl⟩ := Prod.mk.inj hp)
              all_goals simp only [PReq.spawnInv, spawnOk]
              all_goals try rfl
              all_goals try assumption
              all_goals try exact parse_import_spawnOk _ _ _ _ (by assumption)
              all_goals try exact ih _ _ _ _ _ (by assumption)
              all_goals try exact ih _ _ _ _ _ h
              all_goals rw [Bool.and_eq_true]
              all_goals first
                | exact ⟨ih .blockR _ _ _ _ (by assumption), ih .blockR _ _ _ _ (by assumption)⟩
                | exact ⟨ih .blockR _ _ _ _ (by assumption), rfl⟩
            · rw [if_neg hc4] at h
              by_cases hc5 : (tokAt ts i).type = "RETURN"
              · rw [if_pos hc5] at h
                repeat' split at h
                all_goals try exact Except.noConfusion h
                all_goals try (injection h with hp; obtain ⟨rfl, rfl⟩ := Prod.mk.inj hp)
                all_goals simp only [PReq.spawnInv, spawnOk]
                all_goals try rfl
                all_goals try assumption
                all_goals try exact parse_import_spawnOk _ _ _ _ (by assumption)
                all_goals try exact ih _ _ _ _ _ (by assumption)
                all_goals try exact ih _ _ _ _ _ h
                all_goals rw [Bool.and_eq_true]
                all_goals first
                  | exact ⟨ih .blockR _ _ _ _ (by assumption), ih .blockR _ _ _ _ (by assumption)⟩
                  | exact ⟨ih .blockR _ _ _ _ (by assumption), rfl⟩
              · rw [if_neg hc5] at h
                by_cases hc6 : (tokAt ts i).type = "IF"
                · rw [if_pos hc6] at h
                  repeat' split at h
                  all_goals try exact Except.noConfusion h
                  all_goals try (injection h with hp; obtain ⟨rfl, rfl⟩ := Prod.mk.inj hp)
                  all_goals simp only [PReq.spawnInv, spawnOk]
                  all_goals try rfl
                  all_goals try assumption
                  all_goals try exact parse_import_spawnOk _ _ _ _ (by assumption)
                  all_goals try exact ih _ _ _ _ _ (by assumption)
                  all_goals try exact ih _ _ _ _ _ h
                  all_goals rw [Bool.and_eq_true]
                  all_goals first
                    | exact ⟨ih .blockR _ _ _ _ (by assumption), ih .blockR _ _ _ _ (by assumption)⟩
                    | exact ⟨ih .blockR _ _ _ _ (by assumption), rfl⟩
                · rw [if_neg hc6] at h
                  by_cases hc7 : (tokAt ts i).type = "WHILE"
                  · rw [if_pos hc7] at h
                    repeat' split at h
                    all_goals try exact Except.noConfusion h
                    all_goals try (injection h with hp; obtain ⟨rfl, rfl⟩ := Prod.mk.inj hp)
                    all_goals simp only [PReq.spawnInv, spawnOk]
                    all_goals try rfl
                    all_goals try assumption
                    all_goals try exact parse_import_spawnOk _ _ _ _ (by assumption)
                    all_goals try exact ih _ _ _ _ _ (by assumption)
                    all_goals try exact ih _ _ _ _ _ h
                    all_goals rw [Bool.and_eq_true]
                    all_goals first
                      | exact ⟨ih .blockR _ _ _ _ (by assumption), ih .blockR _ _ _ _ (by assumption)⟩
                      | exact ⟨ih .blockR _ _ _ _ (by assumption), rfl⟩
                  · rw [if_neg hc7] at h
                    by_cases hc8 : (tokAt ts i).type = "FOR"
                    · rw [if_pos hc8] at h
                      repeat' split at h
                      all_goals try exact Except.noConfusion h
                      all_goals try (injection h with hp; obtain ⟨rfl, rfl⟩ := Prod.mk.inj hp)
                      all_goals simp only [PReq.spawnInv, spawnOk]
                      all_goals try rfl
                      all_goals try assumption
                      all_goals try exact parse_import_spawnOk _ _ _ _ (by assumption)
                      all_goals try exact ih _ _ _ _ _ (by assumption)
                      all_goals try exact ih _ _ _ _ _ h
                      all_goals rw [Bool.and_eq_true]
                      all_goals first
                        | exact ⟨ih .blockR _ _ _ _ (by assumption), ih .blockR _ _ _ _ (by assumption)⟩
                        | exact ⟨ih .blockR _ _ _ _ (by assumption), rfl⟩
                    · rw [if_neg hc8] at h
                      by_cases hc9 : (tokAt ts i).type = "SPAWN"
                      · rw [if_pos hc9] at h
                        repeat' split at h
                        all_goals try exact Except.noConfusion h
                        all_goals try (injection h with hp; obtain ⟨rfl, rfl⟩ := Prod.mk.inj hp)
                        all_goals simp only [PReq.spawnInv, spawnOk]
                        all_goals try rfl
                        all_goals try assumption
                        all_goals try exact parse_import_spawnOk _ _ _ _ (by assumption)
                        all_goals try exact ih _ _ _ _ _ (by assumption)
                        all_goals try exact ih _ _ _ _ _ h
                        all_goals rw [Bool.and_eq_true]
                        all_goals first
                          | exact ⟨ih .blockR _ _ _ _ (by assumption), ih .blockR _ _ _ _ (by assumption)⟩
                          | exact ⟨ih .blockR _ _ _ _ (by assumption), rfl⟩
                      · rw [if_neg hc9] at h
                        repeat' split at h
                        all_goals try exact Except.noConfusion h
                        all_goals try (injection h with hp; obtain ⟨rfl, rfl⟩ := Prod.mk.inj hp)
                        all_goals simp only [PReq.spawnInv, spawnOk]
                        all_goals try rfl
                        all_goals try assumption
                        all_goals try exact parse_import_spawnOk _ _ _ _ (by assumption)
                        all_goals try exact ih _ _ _ _ _ (by assumption)
                        all_goals try exact ih _ _ _ _ _ h
                        all_goals rw [Bool.and_eq_true]
                        all_goals first
                          | exact ⟨ih .blockR _ _ _ _ (by assumption), ih .blockR _ _ _ _ (by assumption)⟩
                          | exact ⟨ih .blockR _ _ _ _ (by assumption), rfl⟩
    | exportR =>
      simp only [parserCore] at h
      repeat' split at h
      all_goals try exact Except.noConfusion h
      all_goals try (injection h with hp; obtain ⟨rfl, rfl⟩ := Prod.mk.inj hp)
      all_goals simp only [PReq.spawnInv, spawnOk]
      all_goals try rfl
      all_goals try assumption
      all_goals try exact parse_import_spawnOk _ _ _ _ (by assumption)
      all_goals try exact ih _ _ _ _ _ (by assumption)
      all_goals try exact ih _ _ _ _ _ h
      all_goals rw [Bool.and_eq_true]
      all_goals first
        | exact ⟨ih .blockR _ _ _ _ (by assumption), ih .blockR _ _ _ _ (by assumption)⟩
        | exact ⟨ih .blockR _ _ _ _ (by assumption), rfl⟩
    | varR mf ex df =>
      simp only [parserCore] at h
      repeat' split at h
      all_goals try exact Except.noConfusion h
      all_goals try (injection h with hp; obtain ⟨rfl, rfl⟩ := Prod.mk.inj hp)
      all_goals simp only [PReq.spawnInv, spawnOk]
      all_goals try rfl
      all_goals try assumption
      all_goals try exact parse_import_spawnOk _ _ _ _ (by assumption)
      all_goals try exact ih _ _ _ _ _ (by assumption)
      all_goals try exact ih _ _ _ _ _ h
      all_goals rw [Bool.and_eq_true]
      all_goals first
        | exact ⟨ih .blockR _ _ _ _ (by assumption), ih .blockR _ _ _ _ (by assumption)⟩
        | exact ⟨ih .blockR _ _ _ _ (by assumption), rfl⟩
    | fnR ex df =>
      simp only [parserCore] at h
      repeat' split at h
      all_goals try exact Except.noConfusion h
      all_goals try (injection h with hp; obtain ⟨rfl, rfl⟩ := Prod.mk.inj hp)
      all_goals simp only [PReq.spawnInv, spawnOk]
      all_goals try rfl
      all_goals try assumption
      all_goals try exact parse_import_spawnOk _ _ _ _ (by assumption)
      all_goals try exact ih _ _ _ _ _ (by assumption)
      all_goals try exact ih _ _ _ _ _ h
      all_goals rw [Bool.and_eq_true]
      all_goals first
        | exact ⟨ih .blockR _ _ _ _ (by assumption), ih .blockR _ _ _ _ (by assumption)⟩
        | exact ⟨ih .blockR _ _ _ _ (by assumption), rfl⟩
    | blockR =>
      simp only [parserCore] at h
      repeat' split at h
      all_goals try exact Except.noConfusion h
      exact ih (.blockLoopR []) _ _ _ _ h rfl
    | blockLoopR acc =>
      simp only [parserCore] at h
      repeat' split at h
      all_goals try exact Except.noConfusion h
      · injection h with hp
        obtain ⟨rfl, rfl⟩ := Prod.mk.inj hp
        exact id
      · exact ih (.blockLoopR acc) _ _ _ _ h
      · intro hacc
        refine ih _ _ _ _ _ h ?_
        exact spawnOks_append1 _ _ hacc (ih .statementR _ _ _ _ (by assumption))
    | topLoopR acc =>
      simp only [parserCore] at h
      repeat' split at h
      all_goals try exact Except.noConfusion h
      · injection h with hp
        obtain ⟨rfl, rfl⟩ := Prod.mk.inj hp
        exact id
      · exact ih (.topLoopR acc) _ _ _ _ h
      · intro hacc
        refine ih _ _ _ _ _ h ?_
        exact spawnOks_append1 _ _ hacc (ih .statementR _ _ _ _ (by assumption))

/-- C3: every spawn node the parser ever builds carries a `Call` expression
(the invariant holds hereditarily through all statement lists of the module),
and the concrete program `spawn x` is rejected at parse time with exactly the
error "spawn expects a function call". -/
theorem c3_spawn_requires_call :
    (∀ (ts : List Token) (m : Module), parse ts = .ok m → spawnOks m.body = true) ∧
    (match tokenize "spawn x" with
     | .ok ts => parse ts
     | .error _ => .error .fuelOut) =
      .error (.err "spawn expects a function call") := by
  refine ⟨?_, by rfl⟩
  intro ts m h
  unfold parse at h
  split at h
  · exact Except.noConfusion h
  · injection h with h1
    subst h1
    exact parserCore_spawnInv _ (.topLoopR []) _ _ _ _ (by assumption) rfl

theorem dottedLoopF_mono : ∀ (fuel : Nat) (ts : List Token) (i : Nat) (acc res : String)
    (j : Nat), dottedLoopF fuel ts i acc = .ok (res, j) → i ≤ j := by
  intro fuel
  induction fuel with
  | zero => intro ts i acc res j h; exact Except.noConfusion h
  | succ fuel ih =>
    intro ts i acc res j h
    simp only [dottedLoopF] at h
    repeat' split at h
    all_goals try exact Except.noConfusion h
    · have := ih _ _ _ _ _ h
      omega
    · injection h with hp
      obtain ⟨rfl, rfl⟩ := Prod.mk.inj hp
      omega

theorem dottedLoopF_noFuel : ∀ (fuel : Nat) (ts : List Token) (i : Nat) (acc : String),
    ts.length + 1 ≤ fuel + i → 1 ≤ fuel → dottedLoopF fuel ts i acc ≠ .error .fuelOut := by
  intro fuel
  induction fuel with
  | zero => intro ts i acc h1 h2; omega
  | succ fuel ih =>
    intro ts i acc h1 h2
    simp only [dottedLoopF]
    split
    · split
      · refine ih ts (i + 2) _ ?_ ?_
        · omega
        · rename_i hdot _
          have : i < ts.length := tokAt_lt (by rw [hdot]; decide)
          omega
      · intro hc
        injection hc with he
        exact absurd he.symm (by simp [expectedMsg])
    · intro hc
      exact Except.noConfusion hc

theorem parse_dotted_name_progress (ts : List Token) (i : Nat) (res : String) (j : Nat)
    (h : parse_dotted_name ts i = .ok (res, j)) : i + 1 ≤ j ∧ i + 1 ≤ ts.length := by
  simp only [parse_dotted_name] at h
  split at h
  · rename_i hname
    have hlt : i < ts.length := tokAt_lt (by rw [hname]; decide)
    have := dottedLoopF_mono _ _ _ _ _ _ h
    omega
  · exact Except.noConfusion h

theorem parse_dotted_name_noFuel (ts : List Token) (i : Nat) :
    parse_dotted_name ts i ≠ .error .fuelOut := by
  simp only [parse_dotted_name]
  split
  · exact dottedLoopF_noFuel _ _ _ _ (by omega) (by omega)
  · intro hc
    injection hc with he
    exact absurd he.symm (by simp [expectedMsg])

theorem specLoopF_mono : ∀ (fuel : Nat) (ts : List Token) (i : Nat)
    (acc res : List (String × String)) (j : Nat),
    specLoopF fuel ts i acc = .ok (res, j) → i ≤ j := by
  intro fuel
  induction fuel with
  | zero => intro ts i acc res j h; exact Except.noConfusion h
  | succ fuel ih =>
    intro ts i acc res j h
    simp only [specLoopF] at h
    repeat' split at h
    all_goals try exact Except.noConfusion h
    all_goals try (injection h with hp; obtain ⟨rfl, rfl⟩ := Prod.mk.inj hp; omega)
    all_goals have := ih _ _ _ _ _ h
    all_goals omega

theorem specLoopF_noFuel : ∀ (fuel : Nat) (ts : List Token) (i : Nat)
    (acc : List (String × String)), ts.length + 1 ≤ fuel + i → 1 ≤ fuel →
    specLoopF fuel ts i acc ≠ .error .fuelOut := by
  intro fuel
  induction fuel with
  | zero => intro ts i acc h1 h2; omega
  | succ fuel ih =>
    intro ts i acc h1 h2
    simp only [specLoopF]
    split
    · intro hc; exact Except.noConfusion hc
    · split
      · rename_i hname
        have hlt : i < ts.length := tokAt_lt (by rw [hname]; decide)
        split
        · split
          · split
            · exact ih ts (i + 4) _ (by omega) (by omega)
            · intro hc; exact Except.noConfusion hc
          · intro hc
            injection hc with he
            exact absurd he.symm (by simp [expectedMsg])
        · split
          · exact ih ts (i + 2) _ (by omega) (by omega)
          · intro hc; exact Except.noConfusion hc
      · intro hc
        injection hc with he
        exact absurd he.symm (by simp [expectedMsg])

theorem parse_specifiers_progress (ts : List Token) (i : Nat)
    (res : List (String × String)) (j : Nat)
    (h : parse_specifiers ts i = .ok (res, j)) : i + 1 ≤ j ∧ i + 1 ≤ ts.length := by
  simp only [parse_specifiers] at h
  repeat' split at h
  all_goals try exact Except.noConfusion h
  injection h with hp
  obtain ⟨rfl, rfl⟩ := Prod.mk.inj hp
  rename_i hbrace hx hnames hj1 heq hrb
  have hlt : i < ts.length := tokAt_lt (by rw [hbrace]; decide)
  have := specLoopF_mono _ _ _ _ _ _ heq
  omega

theorem parse_specifiers_noFuel (ts : List Token) (i : Nat) :
    parse_specifiers ts i ≠ .error .fuelOut := by
  simp only [parse_specifiers]
  split
  · split
    · rename_i e heq
      intro hc
      injection hc with he
      subst he
      exact specLoopF_noFuel _ _ _ _ (by omega) (by omega) heq
    · split
      · intro hc; exact Except.noConfusion hc
      · intro hc
        injection hc with he
        exact absurd he.symm (by simp [expectedMsg])
  · intro hc
    injection hc with he
    exact absurd he.symm (by simp [expectedMsg])

theorem parse_module_specifier_progress (ts : List Token) (i : Nat) (res : String) (j : Nat)
    (h : parse_module_specifier ts i = .ok (res, j)) : i + 1 ≤ j ∧ i + 1 ≤ ts.length := by
  simp only [parse_module_specifier] at h
  split at h
  · rename_i hstr
    have hlt : i < ts.length := tokAt_lt (by rw [hstr]; decide)
    injection h with hp
    obtain ⟨rfl, rfl⟩ := Prod.mk.inj hp
    omega
  · exact parse_dotted_name_progress _ _ _ _ h

theorem parse_module_specifier_noFuel (ts : List Token) (i : Nat) :
    parse_module_specifier ts i ≠ .error .fuelOut := by
  simp only [parse_module_specifier]
  split
  · intro hc; exact Except.noConfusion hc
  · exact parse_dotted_name_noFuel _ _

theorem paramsLoopF_mono : ∀ (fuel : Nat) (ts : List Token) (i : Nat)
    (acc res : List String) (j : Nat),
    paramsLoopF fuel ts i acc = .ok (res, j) → i + 1 ≤ j := by
  intro fuel
  induction fuel with
  | zero => intro ts i acc res j h; exact Except.noConfusion h
  | succ fuel ih =>
    intro ts i acc res j h
    simp only [paramsLoopF] at h
    repeat' split at h
    all_goals try exact Except.noConfusion h
    all_goals try (injection h with hp; obtain ⟨rfl, rfl⟩ := Prod.mk.inj hp; omega)
    all_goals have := ih _ _ _ _ _ h
    all_goals omega

theorem paramsLoopF_noFuel : ∀ (fuel : Nat) (ts : List Token) (i : Nat)
    (acc : List String), ts.length + 1 ≤ fuel + i → 1 ≤ fuel →
    paramsLoopF fuel ts i acc ≠ .error .fuelOut := by
  intro fuel
  induction fuel with
  | zero => intro ts i acc h1 h2; omega
  | succ fuel ih =>
    intro ts i acc h1 h2
    simp only [paramsLoopF]
    split
    · rename_i hname
      have hlt : i < ts.length := tokAt_lt (by rw [hname]; decide)
      split
      · exact ih ts (i + 2) _ (by omega) (by omega)
      · intro hc; exact Except.noConfusion hc
    · intro hc
      injection hc with he
      exact absurd he.symm (by simp [expectedMsg])

theorem importBranch_mono (ts : List Token) (i1 : Nat)
    (d : Option String) (n : List (String × String)) (ns : Option String) (j : Nat)
    (h : importBranch ts i1 = .ok ((d, n, ns), j)) : i1 ≤ j := by
  simp only [importBranch] at h
  repeat' split at h
  all_goals try exact Except.noConfusion h
  all_goals injection h with hp
  all_goals obtain ⟨hv, rfl⟩ := Prod.mk.inj hp
  all_goals try have hps := parse_specifiers_progress _ _ _ _ (by assumption)
  all_goals omega

theorem importBranch_noFuel (ts : List Token) (i1 : Nat) :
    importBranch ts i1 ≠ .error .fuelOut := by
  intro hc
  simp only [importBranch] at hc
  repeat' split at hc
  all_goals try exact Except.noConfusion hc
  all_goals injection hc with he
  all_goals try exact absurd he (by simp [expectedMsg])
  all_goals subst he
  all_goals exact parse_specifiers_noFuel _ _ (by assumption)

theorem parse_import_statement_progress (ts : List Token) (i : Nat) (s : Stmt) (j : Nat)
    (h : parse_import_statement ts i = .ok (s, j)) : i + 1 ≤ j ∧ i + 1 ≤ ts.length := by
  simp only [parse_import_statement] at h
  split at h
  · rename_i himp
    have hlt : i < ts.length := tokAt_lt (by rw [himp]; decide)
    repeat' split at h
    all_goals try exact Except.noConfusion h
    all_goals injection h with hp
    all_goals obtain ⟨rfl, rfl⟩ := Prod.mk.inj hp
    all_goals try have hms := parse_module_specifier_progress _ _ _ _ (by assumption)
    all_goals try have hbr := importBranch_mono _ _ _ _ _ _ (by assumption)
    all_goals omega
  · exact Except.noConfusion h

theorem parse_import_statement_noFuel (ts : List Token) (i : Nat) :
    parse_import_statement ts i ≠ .error .fuelOut := by
  intro hc
  simp only [parse_import_statement] at hc
  repeat' split at hc
  all_goals try exact Except.noConfusion hc
  all_goals injection hc with he
  all_goals try exact absurd he (by simp [expectedMsg])
  all_goals subst he
  all_goals try exact parse_specifiers_noFuel _ _ (by assumption)
  all_goals try exact importBranch_noFuel _ _ (by assumption)
  all_goals exact parse_module_specifier_noFuel _ _ (by assumption)

/-- Which requests consume at least one token whenever they succeed
(and can only succeed with the current position inside the stream). -/
def PReq.strictTag : PReq → Bool
  | .blockLoopR _ => false
  | .topLoopR _ => false
  | .binopLoopR _ _ => false
  | .postfixR _ => false
  | _ => true

theorem parserCore_progress : ∀ (fuel : Nat) (r : PReq) (ts : List Token) (i : Nat)
    (res : r.ret) (j : Nat), parserCore fuel r ts i = .ok (res, j) →
    i ≤ j ∧ (r.strictTag = true → i + 1 ≤ j ∧ i + 1 ≤ ts.length) := by
  intro fuel
  induction fuel with
  | zero =>
    intro r ts i res j h
    exact Except.noConfusion h
  | succ fuel ih =>
    intro r ts i res j h
    cases r with
    | statementR =>
      simp only [parserCore] at h
      by_cases hc1 : (tokAt ts i).type = "IMPORT"
      · rw [if_pos hc1] at h
        repeat' split at h
        all_goals try exact Except.noConfusion h
        all_goals injection h with hp
        all_goals obtain ⟨rfl, rfl⟩ := Prod.mk.inj hp
        rename_i s j1 heq
        have hip := parse_import_statement_progress _ _ _ _ heq
        have hon := optional_newline_ge ts j1
        exact ⟨by omega, fun _ => ⟨by omega, by omega⟩⟩
      · rw [if_neg hc1] at h
        by_cases hc2 : (tokAt ts i).type = "EXPORT"
        · rw [if_pos hc2] at h
          repeat' split at h
          all_goals try exact Except.noConfusion h
          all_goals injection h with hp
          all_goals obtain ⟨rfl, rfl⟩ := Prod.mk.inj hp
          rename_i s j1 heq
          have hstr := (ih _ _ _ _ _ heq).2 rfl
          have hon := optional_newline_ge ts j1
          exact ⟨by omega, fun _ => ⟨by omega, by omega⟩⟩
        · rw [if_neg hc2] at h
          by_cases hc3 : (tokAt ts i).type = "LET" ∨ (tokAt ts i).type = "CONST"
          · rw [if_pos hc3] at h
            repeat' split at h
            all_goals try exact Except.noConfusion h
            all_goals injection h with hp
            all_goals obtain ⟨rfl, rfl⟩ := Prod.mk.inj hp
            rename_i s j1 heq
            have hstr := (ih _ _ _ _ _ heq).2 rfl
            have hon := optional_newline_ge ts j1
            have hlt : i < ts.length := tokAt_lt (by rcases hc3 with h3 | h3 <;> rw [h3] <;> decide)
            exact ⟨by omega, fun _ => ⟨by omega, by omega⟩⟩
          · rw [if_neg hc3] at h
            by_cases hc4 : (tokAt ts i).type = "FN" ∨ (tokAt ts i).type = "FUNCTION"
            · rw [if_pos hc4] at h
              repeat' split at h
              all_goals try exact Except.noConfusion h
              all_goals injection h with hp
              all_goals obtain ⟨rfl, rfl⟩ := Prod.mk.inj hp
              rename_i s j1 heq
              have hstr := (ih _ _ _ _ _ heq).2 rfl
              have hon := optional_newline_ge ts j1
              exact ⟨by omega, fun _ => ⟨by omega, by omega⟩⟩
            · rw [if_neg hc4] at h
              by_cases hc5 : (tokAt ts i).type = "RETURN"
              · rw [if_pos hc5] at h
                have hlt : i < ts.length := tokAt_lt (by rw [hc5]; decide)
                repeat' split at h
                all_goals try exact Except.noConfusion h
                all_goals injection h with hp
                all_goals obtain ⟨rfl, rfl⟩ := Prod.mk.inj hp
                · rename_i hne e j1 heq
                  have hstr := (ih _ _ _ _ _ heq).2 rfl
                  have hon := optional_newline_ge ts j1
                  exact ⟨by omega, fun _ => ⟨by omega, by omega⟩⟩
                · have hon := optional_newline_ge ts (i + 1)
                  exact ⟨by omega, fun _ => ⟨by omega, by omega⟩⟩
              · rw [if_neg hc5] at h
                by_cases hc6 : (tokAt ts i).type = "IF"
                · rw [if_pos hc6] at h
                  repeat' split at h
                  all_goals try exact Except.noConfusion h
                  all_goals injection h with hp
                  all_goals obtain ⟨rfl, rfl⟩ := Prod.mk.inj hp
                  · rename_i test j1 heq1 _ body j2 heq2 hel _ orelse j3 heq3
                    have h1 := (ih _ _ _ _ _ heq1).2 rfl
                    have h2 := (ih _ _ _ _ _ heq2).2 rfl
                    have h3 := (ih _ _ _ _ _ heq3).2 rfl
                    have hon := optional_newline_ge ts j3
                    exact ⟨by omega, fun _ => ⟨by omega, by omega⟩⟩
                  · rename_i test j1 heq1 _ body j2 heq2 hnel
                    have h1 := (ih _ _ _ _ _ heq1).2 rfl
                    have h2 := (ih _ _ _ _ _ heq2).2 rfl
                    have hon := optional_newline_ge ts j2
                    exact ⟨by omega, fun _ => ⟨by omega, by omega⟩⟩
                · rw [if_neg hc6] at h
                  by_cases hc7 : (tokAt ts i).type = "WHILE"
                  · rw [if_pos hc7] at h
                    repeat' split at h
                    all_goals try exact Except.noConfusion h
                    all_goals injection h with hp
                    all_goals obtain ⟨rfl, rfl⟩ := Prod.mk.inj hp
                    rename_i test j1 heq1 _ body j2 heq2
                    have h1 := (ih _ _ _ _ _ heq1).2 rfl
                    have h2 := (ih _ _ _ _ _ heq2).2 rfl
                    have hon := optional_newline_ge ts j2
                    exact ⟨by omega, fun _ => ⟨by omega, by omega⟩⟩
                  · rw [if_neg hc7] at h
                    by_cases hc8 : (tokAt ts i).type = "FOR"
                    · rw [if_pos hc8] at h
                      repeat' split at h
                      all_goals try exact Except.noConfusion h
                      all_goals injection h with hp
                      all_goals obtain ⟨rfl, rfl⟩ := Prod.mk.inj hp
                      rename_i hname hin _ iter j1 heq1 _ body j2 heq2
                      have h1 := (ih _ _ _ _ _ heq1).2 rfl
                      have h2 := (ih _ _ _ _ _ heq2).2 rfl
                      have hon := optional_newline_ge ts j2
                      exact ⟨by omega, fun _ => ⟨by omega, by omega⟩⟩
                    · rw [if_neg hc8] at h
                      by_cases hc9 : (tokAt ts i).type = "SPAWN"
                      · rw [if_pos hc9] at h
                        repeat' split at h
                        all_goals try exact Except.noConfusion h
                        all_goals injection h with hp
                        all_goals obtain ⟨rfl, rfl⟩ := Prod.mk.inj hp
                        rename_i ce j1 heq1 hcall
                        have h1 := (ih _ _ _ _ _ heq1).2 rfl
                        have hon := optional_newline_ge ts j1
                        exact ⟨by omega, fun _ => ⟨by omega, by omega⟩⟩
                      · rw [if_neg hc9] at h
                        repeat' split at h
                        all_goals try exact Except.noConfusion h
                        all_goals injection h with hp
                        all_goals obtain ⟨rfl, rfl⟩ := Prod.mk.inj hp
                        · rename_i e j1 heq1 hasg _ v j2 heq2
                          have h1 := (ih _ _ _ _ _ heq1).2 rfl
                          have h2 := (ih _ _ _ _ _ heq2).2 rfl
                          have hon := optional_newline_ge ts j2
                          exact ⟨by omega, fun _ => ⟨by omega, by omega⟩⟩
                        · rename_i e j1 heq1 hneg
                          have h1 := (ih _ _ _ _ _ heq1).2 rfl
                          have hon := optional_newline_ge ts j1
                          exact ⟨by omega, fun _ => ⟨by omega, by omega⟩⟩
    | exportR =>
      simp only [parserCore] at h
      repeat' split at h
      all_goals try exact Except.noConfusion h
      all_goals try (injection h with hp; obtain ⟨rfl, rfl⟩ := Prod.mk.inj hp)
      · have h0 := (ih _ _ _ _ _ h).2 rfl
        exact ⟨by omega, fun _ => ⟨by omega, by omega⟩⟩
      · have h0 := (ih _ _ _ _ _ h).2 rfl
        exact ⟨by omega, fun _ => ⟨by omega, by omega⟩⟩
      · rename_i e j1 heq
        have h0 := (ih _ _ _ _ _ heq).2 rfl
        exact ⟨by omega, fun _ => ⟨by omega, by omega⟩⟩
      · have h0 := (ih _ _ _ _ _ h).2 rfl
        exact ⟨by omega, fun _ => ⟨by omega, by omega⟩⟩
      · have h0 := (ih _ _ _ _ _ h).2 rfl
        exact ⟨by omega, fun _ => ⟨by omega, by omega⟩⟩
      · rename_i names j1 heq _ _ src j2 heq2
        have hps := parse_specifiers_progress _ _ _ _ heq
        have hms := parse_module_specifier_progress _ _ _ _ heq2
        exact ⟨by omega, fun _ => ⟨by omega, by omega⟩⟩
      · rename_i names j1 heq hnf
        have hps := parse_specifiers_progress _ _ _ _ heq
        exact ⟨by omega, fun _ => ⟨by omega, by omega⟩⟩
    | varR mf ex df =>
      simp only [parserCore] at h
      repeat' split at h
      all_goals try exact Except.noConfusion h
      all_goals injection h with hp
      all_goals obtain ⟨rfl, rfl⟩ := Prod.mk.inj hp
      rename_i v j1 heq
      have hih := (ih _ _ _ _ _ heq).2 rfl
      exact ⟨by omega, fun _ => ⟨by omega, by omega⟩⟩
    | fnR ex df =>
      simp only [parserCore] at h
      repeat' split at h
      all_goals try exact Except.noConfusion h
      all_goals injection h with hp
      all_goals obtain ⟨rfl, rfl⟩ := Prod.mk.inj hp
      rename_i name k heq0 hlp _ ps j1 heqp hrp _ body j2 heqb
      have hb := (ih _ _ _ _ _ heqb).2 rfl
      have hk : i + 1 ≤ k := by
        split at heq0
        · injection heq0 with hp0
          obtain ⟨h1, rfl⟩ := Prod.mk.inj hp0
          omega
        · split at heq0
          · injection heq0 with hp0
            obtain ⟨h1, rfl⟩ := Prod.mk.inj hp0
            omega
          · exact Except.noConfusion heq0
      have hj1 : k ≤ j1 := by
        split at heqp
        · injection heqp with hp1
          obtain ⟨h1, rfl⟩ := Prod.mk.inj hp1
          omega
        · have := paramsLoopF_mono _ _ _ _ _ _ heqp
          omega
      exact ⟨by omega, fun _ => ⟨by omega, by omega⟩⟩
    | blockR =>
      simp only [parserCore] at h
      split at h
      · rename_i hlb
        have h1 := (ih _ _ _ _ _ h).1
        have hlt : i < ts.length := tokAt_lt (by rw [hlb]; decide)
        exact ⟨by omega, fun _ => ⟨by omega, by omega⟩⟩
      · exact Except.noConfusion h
    | blockLoopR acc =>
      simp only [parserCore] at h
      repeat' split at h
      all_goals try exact Except.noConfusion h
      · injection h with hp
        obtain ⟨rfl, rfl⟩ := Prod.mk.inj hp
        exact ⟨by omega, fun hst => absurd hst (by simp [PReq.strictTag])⟩
      · have h1 := (ih _ _ _ _ _ h).1
        exact ⟨by omega, fun hst => absurd hst (by simp [PReq.strictTag])⟩
      · rename_i s j1 heq
        have h1 := (ih _ _ _ _ _ heq).2 rfl
        have h2 := (ih _ _ _ _ _ h).1
        exact ⟨by omega, fun hst => absurd hst (by simp [PReq.strictTag])⟩
    | topLoopR acc =>
      simp only [parserCore] at h
      repeat' split at h
      all_goals try exact Except.noConfusion h
      · injection h with hp
        obtain ⟨rfl, rfl⟩ := Prod.mk.inj hp
        exact ⟨by omega, fun hst => absurd hst (by simp [PReq.strictTag])⟩
      · have h1 := (ih _ _ _ _ _ h).1
        exact ⟨by omega, fun hst => absurd hst (by simp [PReq.strictTag])⟩
      · rename_i s j1 heq
        have h1 := (ih _ _ _ _ _ heq).2 rfl
        have h2 := (ih _ _ _ _ _ h).1
        exact ⟨by omega, fun hst => absurd hst (by simp [PReq.strictTag])⟩
    | binopR lvl =>
      simp only [parserCore] at h
      repeat' split at h
      all_goals try exact Except.noConfusion h
      rename_i e j1 heq0
      have h1 := (ih _ _ _ _ _ h).1
      have h0 : i + 1 ≤ j1 ∧ i + 1 ≤ ts.length := by
        split at heq0
        · exact (ih _ _ _ _ _ heq0).2 rfl
        · exact (ih _ _ _ _ _ heq0).2 rfl
      exact ⟨by omega, fun _ => ⟨by omega, by omega⟩⟩
    | binopLoopR lvl left =>
      simp only [parserCore] at h
      repeat' split at h
      all_goals try exact Except.noConfusion h
      all_goals try injection h with hp
      all_goals try (obtain ⟨rfl, rfl⟩ := Prod.mk.inj hp)
      all_goals try exact ⟨by omega, fun hst => absurd hst (by simp [PReq.strictTag])⟩
      rename_i hop r j1 heq0
      have h0 : i + 1 + 1 ≤ j1 ∧ i + 1 + 1 ≤ ts.length := by
        split at heq0
        · exact (ih _ _ _ _ _ heq0).2 rfl
        · exact (ih _ _ _ _ _ heq0).2 rfl
      have h1 := (ih _ _ _ _ _ h).1
      exact ⟨by omega, fun hst => absurd hst (by simp [PReq.strictTag])⟩
    | unaryR =>
      simp only [parserCore] at h
      repeat' split at h
      all_goals try exact Except.noConfusion h
      · injection h with hp
        obtain ⟨rfl, rfl⟩ := Prod.mk.inj hp
        rename_i hop e j1 heq
        have h0 := (ih _ _ _ _ _ heq).2 rfl
        exact ⟨by omega, fun _ => ⟨by omega, by omega⟩⟩
      · have h0 := (ih _ _ _ _ _ h).2 rfl
        exact ⟨by omega, fun _ => ⟨by omega, by omega⟩⟩
    | callR =>
      simp only [parserCore] at h
      repeat' split at h
      all_goals try exact Except.noConfusion h
      rename_i e j1 heq
      have h0 := (ih _ _ _ _ _ heq).2 rfl
      have h1 := (ih _ _ _ _ _ h).1
      exact ⟨by omega, fun _ => ⟨by omega, by omega⟩⟩
    | postfixR left =>
      simp only [parserCore] at h
      repeat' split at h
      all_goals try exact Except.noConfusion h
      · have h1 := (ih _ _ _ _ _ h).1
        exact ⟨by omega, fun hst => absurd hst (by simp [PReq.strictTag])⟩
      · rename_i hlp hnrp args j1 heq hrp2
        have h0 := (ih _ _ _ _ _ heq).2 rfl
        have h1 := (ih _ _ _ _ _ h).1
        exact ⟨by omega, fun hst => absurd hst (by simp [PReq.strictTag])⟩
      · have h1 := (ih _ _ _ _ _ h).1
        exact ⟨by omega, fun hst => absurd hst (by simp [PReq.strictTag])⟩
      · injection h with hp
        obtain ⟨rfl, rfl⟩ := Prod.mk.inj hp
        exact ⟨by omega, fun hst => absurd hst (by simp [PReq.strictTag])⟩
    | argsR acc =>
      simp only [parserCore] at h
      repeat' split at h
      all_goals try exact Except.noConfusion h
      · rename_i e j1 heq hcm
        have h0 := (ih _ _ _ _ _ heq).2 rfl
        have h1 := (ih _ _ _ _ _ h).1
        exact ⟨by omega, fun _ => ⟨by omega, by omega⟩⟩
      · injection h with hp
        obtain ⟨rfl, rfl⟩ := Prod.mk.inj hp
        rename_i e heq hcm
        have h0 := (ih _ _ _ _ _ heq).2 rfl
        exact ⟨by omega, fun _ => ⟨by omega, by omega⟩⟩
    | primaryR =>
      simp only [parserCore] at h
      by_cases hp1 : (tokAt ts i).type = "NUMBER"
      · rw [if_pos hp1] at h
        injection h with hp
        obtain ⟨rfl, rfl⟩ := Prod.mk.inj hp
        have hgne : (tokAt ts i).type ≠ "EOF" := by rw [hp1]; decide
        have := tokAt_lt hgne
        exact ⟨by omega, fun _ => ⟨by omega, by omega⟩⟩
      · rw [if_neg hp1] at h
        by_cases hp2 : (tokAt ts i).type = "STRING"
        · rw [if_pos hp2] at h
          injection h with hp
          obtain ⟨rfl, rfl⟩ := Prod.mk.inj hp
          have hgne : (tokAt ts i).type ≠ "EOF" := by rw [hp2]; decide
          have := tokAt_lt hgne
          exact ⟨by omega, fun _ => ⟨by omega, by omega⟩⟩
        · rw [if_neg hp2] at h
          by_cases hp3 : (tokAt ts i).type = "TRUE"
          · rw [if_pos hp3] at h
            injection h with hp
            obtain ⟨rfl, rfl⟩ := Prod.mk.inj hp
            have hgne : (tokAt ts i).type ≠ "EOF" := by rw [hp3]; decide
            have := tokAt_lt hgne
            exact ⟨by omega, fun _ => ⟨by omega, by omega⟩⟩
          · rw [if_neg hp3] at h
            by_cases hp4 : (tokAt ts i).type = "FALSE"
            · rw [if_pos hp4] at h
              injection h with hp
              obtain ⟨rfl, rfl⟩ := Prod.mk.inj hp
              have hgne : (tokAt ts i).type ≠ "EOF" := by rw [hp4]; decide
              have := tokAt_lt hgne
              exact ⟨by omega, fun _ => ⟨by omega, by omega⟩⟩
            · rw [if_neg hp4] at h
              by_cases hp5 : (tokAt ts i).type = "NULL"
              · rw [if_pos hp5] at h
                injection h with hp
                obtain ⟨rfl, rfl⟩ := Prod.mk.inj hp
                have hgne : (tokAt ts i).type ≠ "EOF" := by rw [hp5]; decide
                have := tokAt_lt hgne
                exact ⟨by omega, fun _ => ⟨by omega, by omega⟩⟩
              · rw [if_neg hp5] at h
                by_cases hp6 : (tokAt ts i).type = "NAME"
                · rw [if_pos hp6] at h
                  injection h with hp
                  obtain ⟨rfl, rfl⟩ := Prod.mk.inj hp
                  have hgne : (tokAt ts i).type ≠ "EOF" := by rw [hp6]; decide
                  have := tokAt_lt hgne
                  exact ⟨by omega, fun _ => ⟨by omega, by omega⟩⟩
                · rw [if_neg hp6] at h
                  by_cases hp7 : (tokAt ts i).type = "LPAREN"
                  · rw [if_pos hp7] at h
                    repeat' split at h
                    all_goals try exact Except.noConfusion h
                    injection h with hp
                    obtain ⟨rfl, rfl⟩ := Prod.mk.inj hp
                    rename_i e j1 heq hrp
                    have h0 := (ih _ _ _ _ _ heq).2 rfl
                    exact ⟨by omega, fun _ => ⟨by omega, by omega⟩⟩
                  · rw [if_neg hp7] at h
                    by_cases hp8 : (tokAt ts i).type = "LBRACKET"
                    · rw [if_pos hp8] at h
                      repeat' split at h
                      all_goals try exact Except.noConfusion h
                      all_goals injection h with hp
                      all_goals obtain ⟨rfl, rfl⟩ := Prod.mk.inj hp
                      · rename_i hrbk
                        have hgne : (tokAt ts (i + 1)).type ≠ "EOF" := by rw [hrbk]; decide
                        have := tokAt_lt hgne
                        exact ⟨by omega, fun _ => ⟨by omega, by omega⟩⟩
                      · rename_i els j1 heq hrbk2
                        have h0 := (ih _ _ _ _ _ heq).2 rfl
                        exact ⟨by omega, fun _ => ⟨by omega, by omega⟩⟩
                    · rw [if_neg hp8] at h
                      by_cases hp9 : (tokAt ts i).type = "LBRACE"
                      · rw [if_pos hp9] at h
                        repeat' split at h
                        all_goals try exact Except.noConfusion h
                        all_goals injection h with hp
                        all_goals obtain ⟨rfl, rfl⟩ := Prod.mk.inj hp
                        · rename_i hrbc
                          have hgne : (tokAt ts (i + 1)).type ≠ "EOF" := by rw [hrbc]; decide
                          have := tokAt_lt hgne
                          exact ⟨by omega, fun _ => ⟨by omega, by omega⟩⟩
                        · rename_i prs j1 heq hrbc2
                          have h0 := (ih _ _ _ _ _ heq).2 rfl
                          exact ⟨by omega, fun _ => ⟨by omega, by omega⟩⟩
                      · rw [if_neg hp9] at h
                        exact Except.noConfusion h
    | listR acc =>
      simp only [parserCore] at h
      repeat' split at h
      all_goals try exact Except.noConfusion h
      · rename_i e j1 heq hcm
        have h0 := (ih _ _ _ _ _ heq).2 rfl
        have h1 := (ih _ _ _ _ _ h).1
        exact ⟨by omega, fun _ => ⟨by omega, by omega⟩⟩
      · injection h with hp
        obtain ⟨rfl, rfl⟩ := Prod.mk.inj hp
        rename_i e heq hcm
        have h0 := (ih _ _ _ _ _ heq).2 rfl
        exact ⟨by omega, fun _ => ⟨by omega, by omega⟩⟩
    | dictR acc =>
      simp only [parserCore] at h
      repeat' split at h
      all_goals try exact Except.noConfusion h
      · rename_i key j1 heq1 hcol _ v j2 heq2 hcm
        have h0 := (ih _ _ _ _ _ heq1).2 rfl
        have h2 := (ih _ _ _ _ _ heq2).2 rfl
        have h1 := (ih _ _ _ _ _ h).1
        exact ⟨by omega, fun _ => ⟨by omega, by omega⟩⟩
      · injection h with hp
        obtain ⟨rfl, rfl⟩ := Prod.mk.inj hp
        rename_i key j1 heq1 hcol _ v j2 heq2 hcm
        have h0 := (ih _ _ _ _ _ heq1).2 rfl
        have h2 := (ih _ _ _ _ _ heq2).2 rfl
        exact ⟨by omega, fun _ => ⟨by omega, by omega⟩⟩

/-- The recursion rank of each request: same-position calls strictly
decrease it, and it is bounded by 15 (the per-token fuel coefficient). -/
def PReq.rank : PReq → Nat
  | .primaryR => 1
  | .callR => 2
  | .unaryR => 3
  | .postfixR _ => 3
  | .binopR lvl => 9 - min lvl 5
  | .binopLoopR _ _ => 3
  | .argsR _ => 10
  | .listR _ => 10
  | .dictR _ => 10
  | .varR _ _ _ => 10
  | .fnR _ _ => 10
  | .exportR => 11
  | .statementR => 12
  | .blockR => 13
  | .blockLoopR _ => 13
  | .topLoopR _ => 13

theorem PReq.rank_pos : ∀ r : PReq, 1 ≤ r.rank := by
  intro r
  cases r <;> simp [PReq.rank] <;> omega

theorem parserCore_noFuel : ∀ (fuel : Nat) (r : PReq) (ts : List Token) (i : Nat),
    15 * (ts.length - i) + r.rank ≤ fuel → parserCore fuel r ts i ≠ .error .fuelOut := by
  intro fuel
  induction fuel with
  | zero =>
    intro r ts i hfuel
    have := PReq.rank_pos r
    omega
  | succ fuel ih =>
    intro r ts i hfuel hc
    cases r with
    | statementR =>
      simp only [parserCore] at hc
      by_cases hc1 : (tokAt ts i).type = "IMPORT"
      · rw [if_pos hc1] at hc
        repeat' split at hc
        all_goals try exact Except.noConfusion hc
        injection hc with he
        subst he
        rename_i heq
        exact parse_import_statement_noFuel _ _ heq
      · rw [if_neg hc1] at hc
        by_cases hc2 : (tokAt ts i).type = "EXPORT"
        · rw [if_pos hc2] at hc
          repeat' split at hc
          all_goals try exact Except.noConfusion hc
          injection hc with he
          subst he
          rename_i heq
          exact ih .exportR _ _ (by simp only [PReq.rank] at hfuel ⊢; omega) heq
        · rw [if_neg hc2] at hc
          by_cases hc3 : (tokAt ts i).type = "LET" ∨ (tokAt ts i).type = "CONST"
          · rw [if_pos hc3] at hc
            repeat' split at hc
            all_goals try exact Except.noConfusion hc
            injection hc with he
            subst he
            rename_i heq
            exact ih (.varR _ _ _) _ _ (by simp only [PReq.rank] at hfuel ⊢; omega) heq
          · rw [if_neg hc3] at hc
            by_cases hc4 : (tokAt ts i).type = "FN" ∨ (tokAt ts i).type = "FUNCTION"
            · rw [if_pos hc4] at hc
              repeat' split at hc
              all_goals try exact Except.noConfusion hc
              injection hc with he
              subst he
              rename_i heq
              exact ih (.fnR _ _) _ _ (by simp only [PReq.rank] at hfuel ⊢; omega) heq
            · rw [if_neg hc4] at hc
              by_cases hc5 : (tokAt ts i).type = "RETURN"
              · rw [if_pos hc5] at hc
                repeat' split at hc
                all_goals try exact Except.noConfusion hc
                injection hc with he
                subst he
                rename_i heq
                exact ih (.binopR 0) _ _ (by simp only [PReq.rank] at hfuel ⊢; omega) heq
              · rw [if_neg hc5] at hc
                by_cases hc6 : (tokAt ts i).type = "IF"
                · rw [if_pos hc6] at hc
                  repeat' split at hc
                  all_goals try exact Except.noConfusion hc
                  all_goals injection hc with he
                  all_goals subst he
                  · rename_i heq
                    exact ih (.binopR 0) _ _ (by simp only [PReq.rank] at hfuel ⊢; omega) heq
                  · rename_i _ test j1 heq1 _ heq2
                    have hp1 := (parserCore_progress _ _ _ _ _ _ heq1).2 rfl
                    exact ih .blockR _ _ (by simp only [PReq.rank] at hfuel ⊢; omega) heq2
                  · rename_i _ test j1 heq1 _ body j2 heq2 hel _ heq3
                    have hp1 := (parserCore_progress _ _ _ _ _ _ heq1).2 rfl
                    have hp2 := (parserCore_progress _ _ _ _ _ _ heq2).2 rfl
                    have hel2 : j2 < ts.length := tokAt_lt (by rw [hel]; decide)
                    exact ih .blockR _ _ (by simp only [PReq.rank] at hfuel ⊢; omega) heq3
                · rw [if_neg hc6] at hc
                  by_cases hc7 : (tokAt ts i).type = "WHILE"
                  · rw [if_pos hc7] at hc
                    repeat' split at hc
                    all_goals try exact Except.noConfusion hc
                    all_goals injection hc with he
                    all_goals subst he
                    · rename_i heq
                      exact ih (.binopR 0) _ _ (by simp only [PReq.rank] at hfuel ⊢; omega) heq
                    · rename_i _ test j1 heq1 _ heq2
                      have hp1 := (parserCore_progress _ _ _ _ _ _ heq1).2 rfl
                      exact ih .blockR _ _ (by simp only [PReq.rank] at hfuel ⊢; omega) heq2
                  · rw [if_neg hc7] at hc
                    by_cases hc8 : (tokAt ts i).type = "FOR"
                    · rw [if_pos hc8] at hc
                      repeat' split at hc
                      all_goals try exact Except.noConfusion hc
                      all_goals injection hc with he
                      all_goals try exact ParseErr.noConfusion he
                      all_goals subst he
                      · rename_i heq
                        exact ih (.binopR 0) _ _
                          (by simp only [PReq.rank] at hfuel ⊢; omega) heq
                      · rename_i hname hin _ iter j1 heq1 _ heq2
                        have hp1 := (parserCore_progress _ _ _ _ _ _ heq1).2 rfl
                        exact ih .blockR _ _ (by simp only [PReq.rank] at hfuel ⊢; omega) heq2
                    · rw [if_neg hc8] at hc
                      by_cases hc9 : (tokAt ts i).type = "SPAWN"
                      · rw [if_pos hc9] at hc
                        repeat' split at hc
                        all_goals try exact Except.noConfusion hc
                        all_goals injection hc with he
                        all_goals try exact ParseErr.noConfusion he
                        subst he
                        rename_i heq
                        exact ih (.binopR 0) _ _
                          (by simp only [PReq.rank] at hfuel ⊢; omega) heq
                      · rw [if_neg hc9] at hc
                        repeat' split at hc
                        all_goals try exact Except.noConfusion hc
                        all_goals injection hc with he
                        all_goals subst he
                        · rename_i heq
                          exact ih (.binopR 0) _ _
                            (by simp only [PReq.rank] at hfuel ⊢; omega) heq
                        · rename_i _ e j1 heq1 hasg _ heq2
                          have hp1 := (parserCore_progress _ _ _ _ _ _ heq1).2 rfl
                          exact ih (.binopR 0) _ _
                            (by simp only [PReq.rank] at hfuel ⊢; omega) heq2
    | exportR =>
      simp only [parserCore] at hc
      repeat' split at hc
      all_goals try exact Except.noConfusion hc
      all_goals try injection hc with he
      all_goals try exact ParseErr.noConfusion he
      all_goals try subst he
      · exact ih (.fnR _ _) _ _ (by simp only [PReq.rank] at hfuel ⊢; omega) hc
      · exact ih (.varR _ _ _) _ _ (by simp only [PReq.rank] at hfuel ⊢; omega) hc
      · rename_i heq
        exact ih (.binopR 0) _ _ (by simp only [PReq.rank] at hfuel ⊢; omega) heq
      · exact ih (.fnR _ _) _ _ (by simp only [PReq.rank] at hfuel ⊢; omega) hc
      · exact ih (.varR _ _ _) _ _ (by simp only [PReq.rank] at hfuel ⊢; omega) hc
      · rename_i heq
        exact parse_specifiers_noFuel _ _ heq
      · rename_i heq
        exact parse_module_specifier_noFuel _ _ heq
    | varR mf ex df =>
      simp only [parserCore] at hc
      repeat' split at hc
      all_goals try exact Except.noConfusion hc
      all_goals injection hc with he
      all_goals try exact ParseErr.noConfusion he
      subst he
      rename_i heq
      exact ih (.binopR 0) _ _ (by simp only [PReq.rank] at hfuel ⊢; omega) heq
    | fnR ex df =>
      simp only [parserCore] at hc
      repeat' split at hc
      all_goals try exact Except.noConfusion hc
      all_goals injection hc with he
      all_goals try exact ParseErr.noConfusion he
      all_goals subst he
      · rename_i heq
        split at heq
        · exact Except.noConfusion heq
        · split at heq
          · exact Except.noConfusion heq
          · injection heq with he2
            exact ParseErr.noConfusion he2
      · rename_i name k heq0 hlp _ heqp
        split at heqp
        · exact Except.noConfusion heqp
        · exact paramsLoopF_noFuel _ _ _ _ (by omega) (by omega) heqp
      · rename_i name k heq0 hlp _ ps j1 heqp hrp _ heqb
        have hk : i + 1 ≤ k := by
          split at heq0
          · injection heq0 with hp0
            obtain ⟨h1, rfl⟩ := Prod.mk.inj hp0
            omega
          · split at heq0
            · injection heq0 with hp0
              obtain ⟨h1, rfl⟩ := Prod.mk.inj hp0
              omega
            · exact Except.noConfusion heq0
        have hj1 : k + 1 ≤ j1 := by
          split at heqp
          · injection heqp with hp1
            obtain ⟨h1, rfl⟩ := Prod.mk.inj hp1
            omega
          · have := paramsLoopF_mono _ _ _ _ _ _ heqp
            omega
        have hrpl : j1 < ts.length := tokAt_lt (by rw [hrp]; decide)
        exact ih .blockR _ _ (by simp only [PReq.rank] at hfuel ⊢; omega) heqb
    | blockR =>
      simp only [parserCore] at hc
      split at hc
      · rename_i hlb
        have hlt : i < ts.length := tokAt_lt (by rw [hlb]; decide)
        exact ih (.blockLoopR []) _ _ (by simp only [PReq.rank] at hfuel ⊢; omega) hc
      · injection hc with he
        exact ParseErr.noConfusion he
    | blockLoopR acc =>
      simp only [parserCore] at hc
      repeat' split at hc
      all_goals try exact Except.noConfusion hc
      · rename_i hnrb hsep
        have hlt : i < ts.length := tokAt_lt
          (by rcases hsep with h3 | h3 <;> rw [h3] <;> decide)
        exact ih (.blockLoopR acc) _ _ (by simp only [PReq.rank] at hfuel ⊢; omega) hc
      · injection hc with he
        subst he
        rename_i heq
        exact ih .statementR _ _ (by simp only [PReq.rank] at hfuel ⊢; omega) heq
      · rename_i s j1 heq
        have hp1 := (parserCore_progress _ _ _ _ _ _ heq).2 rfl
        exact ih (.blockLoopR _) _ _ (by simp only [PReq.rank] at hfuel ⊢; omega) hc
    | topLoopR acc =>
      simp only [parserCore] at hc
      repeat' split at hc
      all_goals try exact Except.noConfusion hc
      · rename_i hnrb hsep
        have hlt : i < ts.length := tokAt_lt
          (by rcases hsep with h3 | h3 <;> rw [h3] <;> decide)
        exact ih (.topLoopR acc) _ _ (by simp only [PReq.rank] at hfuel ⊢; omega) hc
      · injection hc with he
        subst he
        rename_i heq
        exact ih .statementR _ _ (by simp only [PReq.rank] at hfuel ⊢; omega) heq
      · rename_i s j1 heq
        have hp1 := (parserCore_progress _ _ _ _ _ _ heq).2 rfl
        exact ih (.topLoopR _) _ _ (by simp only [PReq.rank] at hfuel ⊢; omega) hc
    | binopR lvl =>
      simp only [parserCore] at hc
      repeat' split at hc
      all_goals try exact Except.noConfusion hc
      · injection hc with he
        subst he
        rename_i heq0
        split at heq0
        · exact ih .unaryR _ _ (by simp only [PReq.rank] at hfuel ⊢; omega) heq0
        · exact ih (.binopR (lvl + 1)) _ _
            (by simp only [PReq.rank] at hfuel ⊢; omega) heq0
      · rename_i e j1 heq0
        have hp0 : i + 1 ≤ j1 ∧ i + 1 ≤ ts.length := by
          split at heq0
          · exact (parserCore_progress _ _ _ _ _ _ heq0).2 rfl
          · exact (parserCore_progress _ _ _ _ _ _ heq0).2 rfl
        exact ih (.binopLoopR lvl e) _ _
          (by simp only [PReq.rank] at hfuel ⊢; omega) hc
    | binopLoopR lvl left =>
      simp only [parserCore] at hc
      repeat' split at hc
      all_goals try exact Except.noConfusion hc
      · rename_i hop _ _ _
        injection hc with he
        subst he
        rename_i heq0
        have hlt : i < ts.length := tokAt_lt (by rw [hop.1]; decide)
        split at heq0
        · exact ih .unaryR _ _ (by simp only [PReq.rank] at hfuel ⊢; omega) heq0
        · exact ih (.binopR (lvl + 1)) _ _
            (by simp only [PReq.rank] at hfuel ⊢; omega) heq0
      · rename_i hop _ r j1 heq0
        have hlt : i < ts.length := tokAt_lt (by rw [hop.1]; decide)
        have hp0 : i + 1 + 1 ≤ j1 ∧ i + 1 + 1 ≤ ts.length := by
          split at heq0
          · exact (parserCore_progress _ _ _ _ _ _ heq0).2 rfl
          · exact (parserCore_progress _ _ _ _ _ _ heq0).2 rfl
        exact ih (.binopLoopR lvl _) _ _
          (by simp only [PReq.rank] at hfuel ⊢; omega) hc
    | unaryR =>
      simp only [parserCore] at hc
      repeat' split at hc
      all_goals try exact Except.noConfusion hc
      · rename_i hop _ _ _
        injection hc with he
        subst he
        rename_i heq
        have hlt : i < ts.length := tokAt_lt (by rw [hop.1]; decide)
        exact ih .unaryR _ _ (by simp only [PReq.rank] at hfuel ⊢; omega) heq
      · exact ih .callR _ _ (by simp only [PReq.rank] at hfuel ⊢; omega) hc
    | callR =>
      simp only [parserCore] at hc
      repeat' split at hc
      all_goals try exact Except.noConfusion hc
      · injection hc with he
        subst he
        rename_i heq
        exact ih .primaryR _ _ (by simp only [PReq.rank] at hfuel ⊢; omega) heq
      · rename_i e j1 heq
        have hp0 := (parserCore_progress _ _ _ _ _ _ heq).2 rfl
        exact ih (.postfixR e) _ _ (by simp only [PReq.rank] at hfuel ⊢; omega) hc
    | postfixR left =>
      simp only [parserCore] at hc
      repeat' split at hc
      all_goals try exact Except.noConfusion hc
      · rename_i hlp hrp
        have hlt : i < ts.length := tokAt_lt (by rw [hlp]; decide)
        exact ih (.postfixR _) _ _ (by simp only [PReq.rank] at hfuel ⊢; omega) hc
      · rename_i hlp hnrp _ _ _
        injection hc with he
        subst he
        rename_i heq
        have hlt : i < ts.length := tokAt_lt (by rw [hlp]; decide)
        exact ih (.argsR []) _ _ (by simp only [PReq.rank] at hfuel ⊢; omega) heq
      · rename_i hlp hnrp _ args j1 heq hrp2
        have hlt : i < ts.length := tokAt_lt (by rw [hlp]; decide)
        have hp0 := (parserCore_progress _ _ _ _ _ _ heq).2 rfl
        exact ih (.postfixR _) _ _ (by simp only [PReq.rank] at hfuel ⊢; omega) hc
      · injection hc with he
        exact ParseErr.noConfusion he
      · rename_i hnlp hdot hnm
        have hlt : i < ts.length := tokAt_lt (by rw [hdot]; decide)
        exact ih (.postfixR _) _ _ (by simp only [PReq.rank] at hfuel ⊢; omega) hc
      · injection hc with he
        exact ParseErr.noConfusion he
    | argsR acc =>
      simp only [parserCore] at hc
      repeat' split at hc
      all_goals try exact Except.noConfusion hc
      · injection hc with he
        subst he
        rename_i heq
        exact ih (.binopR 0) _ _ (by simp only [PReq.rank] at hfuel ⊢; omega) heq
      · rename_i e j1 heq hcm
        have hp0 := (parserCore_progress _ _ _ _ _ _ heq).2 rfl
        exact ih (.argsR _) _ _ (by simp only [PReq.rank] at hfuel ⊢; omega) hc
    | primaryR =>
      simp only [parserCore] at hc
      by_cases hp1 : (tokAt ts i).type = "NUMBER"
      · rw [if_pos hp1] at hc
        exact Except.noConfusion hc
      · rw [if_neg hp1] at hc
        by_cases hp2 : (tokAt ts i).type = "STRING"
        · rw [if_pos hp2] at hc
          exact Except.noConfusion hc
        · rw [if_neg hp2] at hc
          by_cases hp3 : (tokAt ts i).type = "TRUE"
          · rw [if_pos hp3] at hc
            exact Except.noConfusion hc
          · rw [if_neg hp3] at hc
            by_cases hp4 : (tokAt ts i).type = "FALSE"
            · rw [if_pos hp4] at hc
              exact Except.noConfusion hc
            · rw [if_neg hp4] at hc
              by_cases hp5 : (tokAt ts i).type = "NULL"
              · rw [if_pos hp5] at hc
                exact Except.noConfusion hc
              · rw [if_neg hp5] at hc
                by_cases hp6 : (tokAt ts i).type = "NAME"
                · rw [if_pos hp6] at hc
                  exact Except.noConfusion hc
                · rw [if_neg hp6] at hc
                  by_cases hp7 : (tokAt ts i).type = "LPAREN"
                  · rw [if_pos hp7] at hc
                    have hlt : i < ts.length := tokAt_lt (by rw [hp7]; decide)
                    repeat' split at hc
                    all_goals try exact Except.noConfusion hc
                    all_goals injection hc with he
                    all_goals try exact ParseErr.noConfusion he
                    subst he
                    rename_i heq
                    exact ih (.binopR 0) _ _
                      (by simp only [PReq.rank] at hfuel ⊢; omega) heq
                  · rw [if_neg hp7] at hc
                    by_cases hp8 : (tokAt ts i).type = "LBRACKET"
                    · rw [if_pos hp8] at hc
                      have hlt : i < ts.length := tokAt_lt (by rw [hp8]; decide)
                      repeat' split at hc
                      all_goals try exact Except.noConfusion hc
                      all_goals injection hc with he
                      all_goals try exact ParseErr.noConfusion he
                      subst he
                      rename_i heq
                      exact ih (.listR []) _ _
                        (by simp only [PReq.rank] at hfuel ⊢; omega) heq
                    · rw [if_neg hp8] at hc
                      by_cases hp9 : (tokAt ts i).type = "LBRACE"
                      · rw [if_pos hp9] at hc
                        have hlt : i < ts.length := tokAt_lt (by rw [hp9]; decide)
                        repeat' split at hc
                        all_goals try exact Except.noConfusion hc
                        all_goals injection hc with he
                        all_goals try exact ParseErr.noConfusion he
                        subst he
                        rename_i heq
                        exact ih (.dictR []) _ _
                          (by simp only [PReq.rank] at hfuel ⊢; omega) heq
                      · rw [if_neg hp9] at hc
                        injection hc with he
                        exact ParseErr.noConfusion he
    | listR acc =>
      simp only [parserCore] at hc
      repeat' split at hc
      all_goals try exact Except.noConfusion hc
      · injection hc with he
        subst he
        rename_i heq
        exact ih (.binopR 0) _ _ (by simp only [PReq.rank] at hfuel ⊢; omega) heq
      · rename_i e j1 heq hcm
        have hp0 := (parserCore_progress _ _ _ _ _ _ heq).2 rfl
        exact ih (.listR _) _ _ (by simp only [PReq.rank] at hfuel ⊢; omega) hc
    | dictR acc =>
      simp only [parserCore] at hc
      repeat' split at hc
      all_goals try exact Except.noConfusion hc
      all_goals try injection hc with he
      all_goals try exact ParseErr.noConfusion he
      all_goals try subst he
      · rename_i heq
        exact ih (.binopR 0) _ _ (by simp only [PReq.rank] at hfuel ⊢; omega) heq
      · rename_i key j1 heq1 hcol _ heq2
        have hp1 := (parserCore_progress _ _ _ _ _ _ heq1).2 rfl
        exact ih (.binopR 0) _ _ (by simp only [PReq.rank] at hfuel ⊢; omega) heq2
      · rename_i key j1 heq1 hcol _ v j2 heq2 hcm
        have hp1 := (parserCore_progress _ _ _ _ _ _ heq1).2 rfl
        have hp2 := (parserCore_progress _ _ _ _ _ _ heq2).2 rfl
        exact ih (.dictR _) _ _ (by simp only [PReq.rank] at hfuel ⊢; omega) hc

/-- C10: the parser terminates on every finite token stream.  In this
embedding the recursion of the C++ parser is driven by a fuel budget of
`15 * |ts| + 15`, and `.error .fuelOut` is the (only) marker of a
non-terminating run; the theorem shows that budget can never run out, because
every iteration of the statement loops and of `parse_block` either consumes a
token or fails — so `parse` always returns a module or an ordinary parse
error after finitely many steps. -/
theorem c10_parser_terminates (ts : List Token) : parse ts ≠ .error .fuelOut := by
  unfold parse
  intro hc
  split at hc
  · injection hc with he
    subst he
    rename_i heq
    refine parserCore_noFuel (parseFuel ts) (.topLoopR []) ts 0 ?_ heq
    simp only [parseFuel, PReq.rank]
    omega
  · exact Except.noConfusion hc


/-! Substituting a SEMICOLON for a NEWLINE at one position `p` of a token
stream.  `swapTypeIff` transports every token-type guard other than the
NEWLINE/SEMICOLON tests; `swapSepIff` transports the separator test (true at
`p` on both sides); `swapTokEq` recovers full token equality at any position
whose ts1-token has a type other than NEWLINE (hence is not `p`). -/

theorem swapTypeIff (ts1 ts2 : List Token) (p : Nat)
    (ht1 : (tokAt ts1 p).type = "NEWLINE") (ht2 : (tokAt ts2 p).type = "SEMICOLON")
    (hsame : ∀ q, q ≠ p → tokAt ts2 q = tokAt ts1 q)
    (q : Nat) (c : String) (hc1 : c ≠ "NEWLINE") (hc2 : c ≠ "SEMICOLON") :
    (tokAt ts2 q).type = c ↔ (tokAt ts1 q).type = c := by
  by_cases hq : q = p
  · subst hq
    rw [ht1, ht2]
    constructor
    · intro h; exact absurd h.symm hc2
    · intro h; exact absurd h.symm hc1
  · rw [hsame q hq]

theorem swapTokEq (ts1 ts2 : List Token) (p : Nat)
    (ht1 : (tokAt ts1 p).type = "NEWLINE")
    (hsame : ∀ q, q ≠ p → tokAt ts2 q = tokAt ts1 q)
    (q : Nat) (c : String) (hc1 : c ≠ "NEWLINE") (hg : (tokAt ts1 q).type = c) :
    tokAt ts2 q = tokAt ts1 q := by
  by_cases hq : q = p
  · subst hq
    rw [ht1] at hg
    exact absurd hg.symm hc1
  · exact hsame q hq

theorem swapSepIff (ts1 ts2 : List Token) (p : Nat)
    (ht1 : (tokAt ts1 p).type = "NEWLINE") (ht2 : (tokAt ts2 p).type = "SEMICOLON")
    (hsame : ∀ q, q ≠ p → tokAt ts2 q = tokAt ts1 q) (q : Nat) :
    ((tokAt ts2 q).type = "NEWLINE" ∨ (tokAt ts2 q).type = "SEMICOLON") ↔
      ((tokAt ts1 q).type = "NEWLINE" ∨ (tokAt ts1 q).type = "SEMICOLON") := by
  by_cases hq : q = p
  · subst hq
    rw [ht1, ht2]
    constructor
    · intro _; exact Or.inl rfl
    · intro _; exact Or.inr rfl
  · rw [hsame q hq]

theorem swapOpIff (ts1 ts2 : List Token) (p : Nat)
    (ht1 : (tokAt ts1 p).type = "NEWLINE") (ht2 : (tokAt ts2 p).type = "SEMICOLON")
    (hsame : ∀ q, q ≠ p → tokAt ts2 q = tokAt ts1 q) (q : Nat) (f : Token → Prop) :
    ((tokAt ts2 q).type = "OP" ∧ f (tokAt ts2 q)) ↔
      ((tokAt ts1 q).type = "OP" ∧ f (tokAt ts1 q)) := by
  by_cases hq : q = p
  · subst hq
    constructor
    · intro h; rw [ht2] at h; exact absurd h.1 (by decide)
    · intro h; rw [ht1] at h; exact absurd h.1 (by decide)
  · rw [hsame q hq]

theorem optionalNewlineF_swap (ts1 ts2 : List Token) (p : Nat)
    (ht1 : (tokAt ts1 p).type = "NEWLINE") (ht2 : (tokAt ts2 p).type = "SEMICOLON")
    (hsame : ∀ q, q ≠ p → tokAt ts2 q = tokAt ts1 q) :
    ∀ (fuel i : Nat), optionalNewlineF fuel ts2 i = optionalNewlineF fuel ts1 i := by
  intro fuel
  induction fuel with
  | zero => intro i; rfl
  | succ fuel ih =>
    intro i
    rw [optionalNewlineF, optionalNewlineF]
    by_cases hcond : (tokAt ts1 i).type = "NEWLINE" ∨ (tokAt ts1 i).type = "SEMICOLON"
    · rw [if_pos hcond, if_pos ((swapSepIff ts1 ts2 p ht1 ht2 hsame i).mpr hcond)]
      exact ih (i + 1)
    · rw [if_neg hcond,
        if_neg (fun hx => hcond ((swapSepIff ts1 ts2 p ht1 ht2 hsame i).mp hx))]

theorem optional_newline_swap (ts1 ts2 : List Token) (p : Nat)
    (hlen : ts2.length = ts1.length)
    (ht1 : (tokAt ts1 p).type = "NEWLINE") (ht2 : (tokAt ts2 p).type = "SEMICOLON")
    (hsame : ∀ q, q ≠ p → tokAt ts2 q = tokAt ts1 q) (i : Nat) :
    optional_newline ts2 i = optional_newline ts1 i := by
  unfold optional_newline
  rw [hlen]
  exact optionalNewlineF_swap ts1 ts2 p ht1 ht2 hsame _ i

theorem dottedLoopF_swap (ts1 ts2 : List Token) (p : Nat)
    (ht1 : (tokAt ts1 p).type = "NEWLINE") (ht2 : (tokAt ts2 p).type = "SEMICOLON")
    (hsame : ∀ q, q ≠ p → tokAt ts2 q = tokAt ts1 q) :
    ∀ (fuel i : Nat) (acc res : String) (j : Nat),
      dottedLoopF fuel ts1 i acc = .ok (res, j) →
      dottedLoopF fuel ts2 i acc = .ok (res, j) := by
  intro fuel
  induction fuel with
  | zero => intro i acc res j h; exact Except.noConfusion h
  | succ fuel ih =>
    intro i acc res j h
    simp only [dottedLoopF] at h ⊢
    by_cases h1 : (tokAt ts1 i).type = "DOT"
    · rw [if_pos h1] at h
      rw [if_pos ((swapTypeIff ts1 ts2 p ht1 ht2 hsame i "DOT" (by decide) (by decide)).mpr h1)]
      by_cases h2 : (tokAt ts1 (i + 1)).type = "NAME"
      · rw [if_pos h2] at h
        rw [swapTokEq ts1 ts2 p ht1 hsame (i + 1) "NAME" (by decide) h2, if_pos h2]
        exact ih _ _ _ _ h
      · rw [if_neg h2] at h
        exact Except.noConfusion h
    · rw [if_neg h1] at h
      rw [if_neg (fun hx => h1
        ((swapTypeIff ts1 ts2 p ht1 ht2 hsame i "DOT" (by decide) (by decide)).mp hx))]
      exact h

theorem parse_dotted_name_swap (ts1 ts2 : List Token) (p : Nat)
    (hlen : ts2.length = ts1.length)
    (ht1 : (tokAt ts1 p).type = "NEWLINE") (ht2 : (tokAt ts2 p).type = "SEMICOLON")
    (hsame : ∀ q, q ≠ p → tokAt ts2 q = tokAt ts1 q)
    (i : Nat) (res : String) (j : Nat)
    (h : parse_dotted_name ts1 i = .ok (res, j)) :
    parse_dotted_name ts2 i = .ok (res, j) := by
  simp only [parse_dotted_name] at h ⊢
  by_cases h1 : (tokAt ts1 i).type = "NAME"
  · rw [if_pos h1] at h
    rw [swapTokEq ts1 ts2 p ht1 hsame i "NAME" (by decide) h1, if_pos h1, hlen]
    exact dottedLoopF_swap ts1 ts2 p ht1 ht2 hsame _ _ _ _ _ h
  · rw [if_neg h1] at h
    exact Except.noConfusion h

theorem specLoopF_swap (ts1 ts2 : List Token) (p : Nat)
    (ht1 : (tokAt ts1 p).type = "NEWLINE") (ht2 : (tokAt ts2 p).type = "SEMICOLON")
    (hsame : ∀ q, q ≠ p → tokAt ts2 q = tokAt ts1 q) :
    ∀ (fuel i : Nat) (acc res : List (String × String)) (j : Nat),
      specLoopF fuel ts1 i acc = .ok (res, j) →
      specLoopF fuel ts2 i acc = .ok (res, j) := by
  intro fuel
  induction fuel with
  | zero => intro i acc res j h; exact Except.noConfusion h
  | succ fuel ih =>
    intro i acc res j h
    simp only [specLoopF] at h ⊢
    by_cases h1 : (tokAt ts1 i).type = "RBRACE"
    · rw [if_pos h1] at h
      rw [if_pos ((swapTypeIff ts1 ts2 p ht1 ht2 hsame i "RBRACE" (by decide)
        (by decide)).mpr h1)]
      exact h
    · rw [if_neg h1] at h
      rw [if_neg (fun hx => h1
        ((swapTypeIff ts1 ts2 p ht1 ht2 hsame i "RBRACE" (by decide) (by decide)).mp hx))]
      by_cases h2 : (tokAt ts1 i).type = "NAME"
      · rw [if_pos h2] at h
        rw [swapTokEq ts1 ts2 p ht1 hsame i "NAME" (by decide) h2, if_pos h2]
        by_cases h3 : (tokAt ts1 (i + 1)).type = "AS"
        · rw [if_pos h3] at h
          rw [if_pos ((swapTypeIff ts1 ts2 p ht1 ht2 hsame (i + 1) "AS" (by decide)
            (by decide)).mpr h3)]
          by_cases h4 : (tokAt ts1 (i + 2)).type = "NAME"
          · rw [if_pos h4] at h
            rw [swapTokEq ts1 ts2 p ht1 hsame (i + 2) "NAME" (by decide) h4, if_pos h4]
            by_cases h5 : (tokAt ts1 (i + 3)).type = "COMMA"
            · rw [if_pos h5] at h
              rw [if_pos ((swapTypeIff ts1 ts2 p ht1 ht2 hsame (i + 3) "COMMA" (by decide)
                (by decide)).mpr h5)]
              exact ih _ _ _ _ h
            · rw [if_neg h5] at h
              rw [if_neg (fun hx => h5 ((swapTypeIff ts1 ts2 p ht1 ht2 hsame (i + 3) "COMMA"
                (by decide) (by decide)).mp hx))]
              exact h
          · rw [if_neg h4] at h
            exact Except.noConfusion h
        · rw [if_neg h3] at h
          rw [if_neg (fun hx => h3 ((swapTypeIff ts1 ts2 p ht1 ht2 hsame (i + 1) "AS"
            (by decide) (by decide)).mp hx))]
          by_cases h5 : (tokAt ts1 (i + 1)).type = "COMMA"
          · rw [if_pos h5] at h
            rw [if_pos ((swapTypeIff ts1 ts2 p ht1 ht2 hsame (i + 1) "COMMA" (by decide)
              (by decide)).mpr h5)]
            exact ih _ _ _ _ h
          · rw [if_neg h5] at h
            rw [if_neg (fun hx => h5 ((swapTypeIff ts1 ts2 p ht1 ht2 hsame (i + 1) "COMMA"
              (by decide) (by decide)).mp hx))]
            exact h
      · rw [if_neg h2] at h
        exact Except.noConfusion h

theorem parse_specifiers_swap (ts1 ts2 : List Token) (p : Nat)
    (hlen : ts2.length = ts1.length)
    (ht1 : (tokAt ts1 p).type = "NEWLINE") (ht2 : (tokAt ts2 p).type = "SEMICOLON")
    (hsame : ∀ q, q ≠ p → tokAt ts2 q = tokAt ts1 q)
    (i : Nat) (res : List (String × String)) (j : Nat)
    (h : parse_specifiers ts1 i = .ok (res, j)) :
    parse_specifiers ts2 i = .ok (res, j) := by
  simp only [parse_specifiers] at h ⊢
  by_cases h1 : (tokAt ts1 i).type = "LBRACE"
  · rw [if_pos h1] at h
    rw [if_pos ((swapTypeIff ts1 ts2 p ht1 ht2 hsame i "LBRACE" (by decide)
      (by decide)).mpr h1), hlen]
    split at h
    · exact Except.noConfusion h
    · rename_i names j1 heq
      simp only [specLoopF_swap ts1 ts2 p ht1 ht2 hsame _ _ _ _ _ heq]
      by_cases h2 : (tokAt ts1 j1).type = "RBRACE"
      · rw [if_pos h2] at h
        rw [if_pos ((swapTypeIff ts1 ts2 p ht1 ht2 hsame j1 "RBRACE" (by decide)
          (by decide)).mpr h2)]
        exact h
      · rw [if_neg h2] at h
        exact Except.noConfusion h
  · rw [if_neg h1] at h
    exact Except.noConfusion h

theorem parse_module_specifier_swap (ts1 ts2 : List Token) (p : Nat)
    (hlen : ts2.length = ts1.length)
    (ht1 : (tokAt ts1 p).type = "NEWLINE") (ht2 : (tokAt ts2 p).type = "SEMICOLON")
    (hsame : ∀ q, q ≠ p → tokAt ts2 q = tokAt ts1 q)
    (i : Nat) (res : String) (j : Nat)
    (h : parse_module_specifier ts1 i = .ok (res, j)) :
    parse_module_specifier ts2 i = .ok (res, j) := by
  simp only [parse_module_specifier] at h ⊢
  by_cases h1 : (tokAt ts1 i).type = "STRING"
  · rw [if_pos h1] at h
    rw [swapTokEq ts1 ts2 p ht1 hsame i "STRING" (by decide) h1, if_pos h1]
    exact h
  · rw [if_neg h1] at h
    rw [if_neg (fun hx => h1
      ((swapTypeIff ts1 ts2 p ht1 ht2 hsame i "STRING" (by decide) (by decide)).mp hx))]
    exact parse_dotted_name_swap ts1 ts2 p hlen ht1 ht2 hsame _ _ _ h

theorem importBranch_swap (ts1 ts2 : List Token) (p : Nat)
    (hlen : ts2.length = ts1.length)
    (ht1 : (tokAt ts1 p).type = "NEWLINE") (ht2 : (tokAt ts2 p).type = "SEMICOLON")
    (hsame : ∀ q, q ≠ p → tokAt ts2 q = tokAt ts1 q)
    (i1 : Nat) (res : (Option String × List (String × String) × Option String)) (j : Nat)
    (h : importBranch ts1 i1 = .ok (res, j)) :
    importBranch ts2 i1 = .ok (res, j) := by
  simp only [importBranch] at h ⊢
  by_cases h1 : (tokAt ts1 i1).type = "NAME" ∧ (tokAt ts1 (i1 + 1)).type = "COMMA"
  · have hv := swapTokEq ts1 ts2 p ht1 hsame i1 "NAME" (by decide) h1.1
    rw [if_pos h1] at h
    rw [hv, if_pos (by
      refine ⟨h1.1, ?_⟩
      rw [(swapTypeIff ts1 ts2 p ht1 ht2 hsame (i1 + 1) "COMMA" (by decide) (by decide))]
      exact h1.2)]
    by_cases h2 : (tokAt ts1 (i1 + 2)).type = "LBRACE"
    · rw [if_pos h2] at h
      rw [if_pos ((swapTypeIff ts1 ts2 p ht1 ht2 hsame (i1 + 2) "LBRACE" (by decide)
        (by decide)).mpr h2)]
      split at h
      · exact Except.noConfusion h
      · rename_i names j1 heq
        simp only [parse_specifiers_swap ts1 ts2 p hlen ht1 ht2 hsame _ _ _ heq]
        exact h
    · rw [if_neg h2] at h
      exact Except.noConfusion h
  · rw [if_neg h1] at h
    rw [if_neg (fun hx => h1 (by
      refine ⟨?_, ?_⟩
      · exact (swapTypeIff ts1 ts2 p ht1 ht2 hsame i1 "NAME" (by decide) (by decide)).mp hx.1
      · exact (swapTypeIff ts1 ts2 p ht1 ht2 hsame (i1 + 1) "COMMA" (by decide)
          (by decide)).mp hx.2))]
    by_cases h2 : (tokAt ts1 i1).type = "NAME" ∧ (tokAt ts1 (i1 + 1)).type = "FROM"
    · have hv := swapTokEq ts1 ts2 p ht1 hsame i1 "NAME" (by decide) h2.1
      rw [if_pos h2] at h
      rw [hv, if_pos (by
        refine ⟨h2.1, ?_⟩
        rw [(swapTypeIff ts1 ts2 p ht1 ht2 hsame (i1 + 1) "FROM" (by decide) (by decide))]
        exact h2.2)]
      exact h
    · rw [if_neg h2] at h
      rw [if_neg (fun hx => h2 (by
        refine ⟨?_, ?_⟩
        · exact (swapTypeIff ts1 ts2 p ht1 ht2 hsame i1 "NAME" (by decide) (by decide)).mp hx.1
        · exact (swapTypeIff ts1 ts2 p ht1 ht2 hsame (i1 + 1) "FROM" (by decide)
            (by decide)).mp hx.2))]
      by_cases h3 : (tokAt ts1 i1).type = "LBRACE"
      · rw [if_pos h3] at h
        rw [if_pos ((swapTypeIff ts1 ts2 p ht1 ht2 hsame i1 "LBRACE" (by decide)
          (by decide)).mpr h3)]
        split at h
        · exact Except.noConfusion h
        · rename_i names j1 heq
          simp only [parse_specifiers_swap ts1 ts2 p hlen ht1 ht2 hsame _ _ _ heq]
          exact h
      · rw [if_neg h3] at h
        rw [if_neg (fun hx => h3 ((swapTypeIff ts1 ts2 p ht1 ht2 hsame i1 "LBRACE"
          (by decide) (by decide)).mp hx))]
        by_cases h4 : (tokAt ts1 i1).type = "OP" ∧ (tokAt ts1 i1).value = "*"
        · have hv := swapTokEq ts1 ts2 p ht1 hsame i1 "OP" (by decide) h4.1
          rw [if_pos h4] at h
          rw [hv, if_pos h4]
          by_cases h5 : (tokAt ts1 (i1 + 1)).type = "AS"
          · rw [if_pos h5] at h
            rw [if_pos ((swapTypeIff ts1 ts2 p ht1 ht2 hsame (i1 + 1) "AS" (by decide)
              (by decide)).mpr h5)]
            by_cases h6 : (tokAt ts1 (i1 + 2)).type = "NAME"
            · rw [if_pos h6] at h
              rw [swapTokEq ts1 ts2 p ht1 hsame (i1 + 2) "NAME" (by decide) h6, if_pos h6]
              exact h
            · rw [if_neg h6] at h
              exact Except.noConfusion h
          · rw [if_neg h5] at h
            exact Except.noConfusion h
        · rw [if_neg h4] at h
          rw [if_neg (fun hx => h4 (by
            have hveq : tokAt ts2 i1 = tokAt ts1 i1 :=
              swapTokEq ts1 ts2 p ht1 hsame i1 "OP" (by decide) (by
                by_contra hne
                rw [(swapTypeIff ts1 ts2 p ht1 ht2 hsame i1 "OP" (by decide)
                  (by decide))] at hx
                exact hne hx.1)
            rw [hveq] at hx
            exact hx))]
          exact h

theorem parse_import_statement_swap (ts1 ts2 : List Token) (p : Nat)
    (hlen : ts2.length = ts1.length)
    (ht1 : (tokAt ts1 p).type = "NEWLINE") (ht2 : (tokAt ts2 p).type = "SEMICOLON")
    (hsame : ∀ q, q ≠ p → tokAt ts2 q = tokAt ts1 q)
    (i : Nat) (res : Stmt) (j : Nat)
    (h : parse_import_statement ts1 i = .ok (res, j)) :
    parse_import_statement ts2 i = .ok (res, j) := by
  simp only [parse_import_statement] at h ⊢
  by_cases h1 : (tokAt ts1 i).type = "IMPORT"
  · rw [if_pos h1] at h
    rw [if_pos ((swapTypeIff ts1 ts2 p ht1 ht2 hsame i "IMPORT" (by decide)
      (by decide)).mpr h1)]
    by_cases h2 : (tokAt ts1 (i + 1)).type = "STRING"
    · rw [if_pos h2] at h
      rw [swapTokEq ts1 ts2 p ht1 hsame (i + 1) "STRING" (by decide) h2, if_pos h2]
      by_cases h3 : (tokAt ts1 (i + 1 + 1)).type = "AS"
      · rw [if_pos h3] at h
        rw [if_pos ((swapTypeIff ts1 ts2 p ht1 ht2 hsame (i + 1 + 1) "AS" (by decide)
          (by decide)).mpr h3)]
        by_cases h4 : (tokAt ts1 (i + 1 + 2)).type = "NAME"
        · rw [if_pos h4] at h
          rw [swapTokEq ts1 ts2 p ht1 hsame (i + 1 + 2) "NAME" (by decide) h4, if_pos h4]
          exact h
        · rw [if_neg h4] at h
          exact Except.noConfusion h
      · rw [if_neg h3] at h
        rw [if_neg (fun hx => h3 ((swapTypeIff ts1 ts2 p ht1 ht2 hsame (i + 1 + 1) "AS"
          (by decide) (by decide)).mp hx))]
        exact h
    · rw [if_neg h2] at h
      rw [if_neg (fun hx => h2 ((swapTypeIff ts1 ts2 p ht1 ht2 hsame (i + 1) "STRING"
        (by decide) (by decide)).mp hx))]
      split at h
      · exact Except.noConfusion h
      · rename_i dflt names nspace j1 heq
        simp only [importBranch_swap ts1 ts2 p hlen ht1 ht2 hsame _ _ _ heq]
        by_cases h5 : dflt.isSome = true ∨ names ≠ [] ∨ nspace.isSome = true
        · rw [if_pos h5] at h
          rw [if_pos h5]
          by_cases h6 : (tokAt ts1 j1).type = "FROM"
          · rw [if_pos h6] at h
            rw [if_pos ((swapTypeIff ts1 ts2 p ht1 ht2 hsame j1 "FROM" (by decide)
              (by decide)).mpr h6)]
            split at h
            · exact Except.noConfusion h
            · rename_i module j2 heq2
              simp only [parse_module_specifier_swap ts1 ts2 p hlen ht1 ht2 hsame _ _ _ heq2]
              exact h
          · rw [if_neg h6] at h
            exact Except.noConfusion h
        · rw [if_neg h5] at h
          rw [if_neg h5]
          split at h
          · exact Except.noConfusion h
          · rename_i module j2 heq2
            simp only [parse_module_specifier_swap ts1 ts2 p hlen ht1 ht2 hsame _ _ _ heq2]
            by_cases h7 : (tokAt ts1 j2).type = "AS"
            · rw [if_pos h7] at h
              rw [if_pos ((swapTypeIff ts1 ts2 p ht1 ht2 hsame j2 "AS" (by decide)
                (by decide)).mpr h7)]
              by_cases h8 : (tokAt ts1 (j2 + 1)).type = "NAME"
              · rw [if_pos h8] at h
                rw [swapTokEq ts1 ts2 p ht1 hsame (j2 + 1) "NAME" (by decide) h8, if_pos h8]
                exact h
              · rw [if_neg h8] at h
                exact Except.noConfusion h
            · rw [if_neg h7] at h
              rw [if_neg (fun hx => h7 ((swapTypeIff ts1 ts2 p ht1 ht2 hsame j2 "AS"
                (by decide) (by decide)).mp hx))]
              exact h
  · rw [if_neg h1] at h
    exact Except.noConfusion h

theorem paramsLoopF_swap (ts1 ts2 : List Token) (p : Nat)
    (ht1 : (tokAt ts1 p).type = "NEWLINE") (ht2 : (tokAt ts2 p).type = "SEMICOLON")
    (hsame : ∀ q, q ≠ p → tokAt ts2 q = tokAt ts1 q) :
    ∀ (fuel i : Nat) (acc res : List String) (j : Nat),
      paramsLoopF fuel ts1 i acc = .ok (res, j) →
      paramsLoopF fuel ts2 i acc = .ok (res, j) := by
  intro fuel
  induction fuel with
  | zero => intro i acc res j h; exact Except.noConfusion h
  | succ fuel ih =>
    intro i acc res j h
    simp only [paramsLoopF] at h ⊢
    by_cases h1 : (tokAt ts1 i).type = "NAME"
    · rw [if_pos h1] at h
      rw [swapTokEq ts1 ts2 p ht1 hsame i "NAME" (by decide) h1, if_pos h1]
      by_cases h2 : (tokAt ts1 (i + 1)).type = "COMMA"
      · rw [if_pos h2] at h
        rw [if_pos ((swapTypeIff ts1 ts2 p ht1 ht2 hsame (i + 1) "COMMA" (by decide)
          (by decide)).mpr h2)]
        exact ih _ _ _ _ h
      · rw [if_neg h2] at h
        rw [if_neg (fun hx => h2 ((swapTypeIff ts1 ts2 p ht1 ht2 hsame (i + 1) "COMMA"
          (by decide) (by decide)).mp hx))]
        exact h
    · rw [if_neg h1] at h
      exact Except.noConfusion h

theorem parserCore_swap (ts1 ts2 : List Token) (p : Nat)
    (hlen : ts2.length = ts1.length)
    (ht1 : (tokAt ts1 p).type = "NEWLINE") (ht2 : (tokAt ts2 p).type = "SEMICOLON")
    (hsame : ∀ q, q ≠ p → tokAt ts2 q = tokAt ts1 q)
    (hnotret : ∀ q, q + 1 = p → (tokAt ts1 q).type ≠ "RETURN") :
    ∀ (fuel : Nat) (r : PReq) (i : Nat) (res : r.ret) (j : Nat),
      parserCore fuel r ts1 i = .ok (res, j) →
      parserCore fuel r ts2 i = .ok (res, j) := by
  intro fuel
  induction fuel with
  | zero =>
    intro r i res j h
    exact Except.noConfusion h
  | succ fuel ih =>
    intro r i res j h
    cases r with
    | statementR =>
      simp only [parserCore] at h ⊢
      by_cases hc1 : (tokAt ts1 i).type = "IMPORT"
      · rw [if_pos hc1] at h
        rw [if_pos ((swapTypeIff ts1 ts2 p ht1 ht2 hsame i "IMPORT" (by decide)
          (by decide)).mpr hc1)]
        split at h
        · exact Except.noConfusion h
        · rename_i s j1 heq
          simp only [parse_import_statement_swap ts1 ts2 p hlen ht1 ht2 hsame _ _ _ heq]
          rw [optional_newline_swap ts1 ts2 p hlen ht1 ht2 hsame j1]
          exact h
      · rw [if_neg hc1] at h
        rw [if_neg (fun hx => hc1 ((swapTypeIff ts1 ts2 p ht1 ht2 hsame i "IMPORT"
          (by decide) (by decide)).mp hx))]
        by_cases hc2 : (tokAt ts1 i).type = "EXPORT"
        · rw [if_pos hc2] at h
          rw [if_pos ((swapTypeIff ts1 ts2 p ht1 ht2 hsame i "EXPORT" (by decide)
            (by decide)).mpr hc2)]
          split at h
          · exact Except.noConfusion h
          · rename_i s j1 heq
            simp only [ih _ _ _ _ heq]
            rw [optional_newline_swap ts1 ts2 p hlen ht1 ht2 hsame j1]
            exact h
        · rw [if_neg hc2] at h
          rw [if_neg (fun hx => hc2 ((swapTypeIff ts1 ts2 p ht1 ht2 hsame i "EXPORT"
            (by decide) (by decide)).mp hx))]
          by_cases hc3 : (tokAt ts1 i).type = "LET" ∨ (tokAt ts1 i).type = "CONST"
          · have hne : i ≠ p := by
              intro he
              subst he
              rcases hc3 with h3 | h3 <;> (rw [ht1] at h3; exact absurd h3 (by decide))
            rw [if_pos hc3] at h
            rw [hsame i hne, if_pos hc3]
            split at h
            · exact Except.noConfusion h
            · rename_i s j1 heq
              simp only [ih _ _ _ _ heq]
              rw [optional_newline_swap ts1 ts2 p hlen ht1 ht2 hsame j1]
              exact h
          · rw [if_neg hc3] at h
            rw [if_neg (fun hx => hc3 (by
              rcases hx with h3 | h3
              · exact Or.inl ((swapTypeIff ts1 ts2 p ht1 ht2 hsame i "LET" (by decide)
                  (by decide)).mp h3)
              · exact Or.inr ((swapTypeIff ts1 ts2 p ht1 ht2 hsame i "CONST" (by decide)
                  (by decide)).mp h3)))]
            by_cases hc4 : (tokAt ts1 i).type = "FN" ∨ (tokAt ts1 i).type = "FUNCTION"
            · rw [if_pos hc4] at h
              rw [if_pos (by
                rcases hc4 with h4 | h4
                · exact Or.inl ((swapTypeIff ts1 ts2 p ht1 ht2 hsame i "FN" (by decide)
                    (by decide)).mpr h4)
                · exact Or.inr ((swapTypeIff ts1 ts2 p ht1 ht2 hsame i "FUNCTION"
                    (by decide) (by decide)).mpr h4))]
              split at h
              · exact Except.noConfusion h
              · rename_i s j1 heq
                simp only [ih _ _ _ _ heq]
                rw [optional_newline_swap ts1 ts2 p hlen ht1 ht2 hsame j1]
                exact h
            · rw [if_neg hc4] at h
              rw [if_neg (fun hx => hc4 (by
                rcases hx with h4 | h4
                · exact Or.inl ((swapTypeIff ts1 ts2 p ht1 ht2 hsame i "FN" (by decide)
                    (by decide)).mp h4)
                · exact Or.inr ((swapTypeIff ts1 ts2 p ht1 ht2 hsame i "FUNCTION"
                    (by decide) (by decide)).mp h4)))]
              by_cases hc5 : (tokAt ts1 i).type = "RETURN"
              · have hne : i ≠ p := by
                  intro he
                  subst he
                  rw [ht1] at hc5
                  exact absurd hc5 (by decide)
                have hne2 : i + 1 ≠ p := fun he => hnotret i he hc5
                rw [if_pos hc5] at h
                rw [hsame i hne, if_pos hc5, hsame (i + 1) hne2]
                by_cases hin : (tokAt ts1 (i + 1)).type ≠ "NEWLINE" ∧
                    (tokAt ts1 (i + 1)).type ≠ "RBRACE" ∧ (tokAt ts1 (i + 1)).type ≠ "EOF"
                · rw [if_pos hin] at h
                  rw [if_pos hin]
                  split at h
                  · exact Except.noConfusion h
                  · rename_i e j1 heq
                    simp only [ih _ _ _ _ heq]
                    rw [optional_newline_swap ts1 ts2 p hlen ht1 ht2 hsame j1]
                    exact h
                · rw [if_neg hin] at h
                  rw [if_neg hin]
                  rw [optional_newline_swap ts1 ts2 p hlen ht1 ht2 hsame (i + 1)]
                  exact h
              · rw [if_neg hc5] at h
                rw [if_neg (fun hx => hc5 ((swapTypeIff ts1 ts2 p ht1 ht2 hsame i "RETURN"
                  (by decide) (by decide)).mp hx))]
                by_cases hc6 : (tokAt ts1 i).type = "IF"
                · rw [if_pos hc6] at h
                  rw [if_pos ((swapTypeIff ts1 ts2 p ht1 ht2 hsame i "IF" (by decide)
                    (by decide)).mpr hc6)]
                  split at h
                  · exact Except.noConfusion h
                  · rename_i test j1 heq1
                    simp only [ih _ _ _ _ heq1]
                    split at h
                    · exact Except.noConfusion h
                    · rename_i body j2 heq2
                      simp only [ih _ _ _ _ heq2]
                      by_cases hel : (tokAt ts1 j2).type = "ELSE"
                      · rw [if_pos hel] at h
                        rw [if_pos ((swapTypeIff ts1 ts2 p ht1 ht2 hsame j2 "ELSE"
                          (by decide) (by decide)).mpr hel)]
                        split at h
                        · exact Except.noConfusion h
                        · rename_i orelse j3 heq3
                          simp only [ih _ _ _ _ heq3]
                          rw [optional_newline_swap ts1 ts2 p hlen ht1 ht2 hsame j3]
                          exact h
                      · rw [if_neg hel] at h
                        rw [if_neg (fun hx => hel ((swapTypeIff ts1 ts2 p ht1 ht2 hsame j2
                          "ELSE" (by decide) (by decide)).mp hx))]
                        rw [optional_newline_swap ts1 ts2 p hlen ht1 ht2 hsame j2]
                        exact h
                · rw [if_neg hc6] at h
                  rw [if_neg (fun hx => hc6 ((swapTypeIff ts1 ts2 p ht1 ht2 hsame i "IF"
                    (by decide) (by decide)).mp hx))]
                  by_cases hc7 : (tokAt ts1 i).type = "WHILE"
                  · rw [if_pos hc7] at h
                    rw [if_pos ((swapTypeIff ts1 ts2 p ht1 ht2 hsame i "WHILE" (by decide)
                      (by decide)).mpr hc7)]
                    split at h
                    · exact Except.noConfusion h
                    · rename_i test j1 heq1
                      simp only [ih _ _ _ _ heq1]
                      split at h
                      · exact Except.noConfusion h
                      · rename_i body j2 heq2
                        simp only [ih _ _ _ _ heq2]
                        rw [optional_newline_swap ts1 ts2 p hlen ht1 ht2 hsame j2]
                        exact h
                  · rw [if_neg hc7] at h
                    rw [if_neg (fun hx => hc7 ((swapTypeIff ts1 ts2 p ht1 ht2 hsame i
                      "WHILE" (by decide) (by decide)).mp hx))]
                    by_cases hc8 : (tokAt ts1 i).type = "FOR"
                    · rw [if_pos hc8] at h
                      rw [if_pos ((swapTypeIff ts1 ts2 p ht1 ht2 hsame i "FOR" (by decide)
                        (by decide)).mpr hc8)]
                      by_cases hname : (tokAt ts1 (i + 1)).type = "NAME"
                      · have hne2 : i + 1 ≠ p := by
                          intro he
                          rw [he, ht1] at hname
                          exact absurd hname (by decide)
                        rw [if_pos hname] at h
                        rw [hsame (i + 1) hne2, if_pos hname]
                        by_cases hin : (tokAt ts1 (i + 2)).type = "IN"
                        · rw [if_pos hin] at h
                          rw [if_pos ((swapTypeIff ts1 ts2 p ht1 ht2 hsame (i + 2) "IN"
                            (by decide) (by decide)).mpr hin)]
                          split at h
                          · exact Except.noConfusion h
                          · rename_i iter j1 heq1
                            simp only [ih _ _ _ _ heq1]
                            split at h
                            · exact Except.noConfusion h
                            · rename_i body j2 heq2
                              simp only [ih _ _ _ _ heq2]
                              rw [optional_newline_swap ts1 ts2 p hlen ht1 ht2 hsame j2]
                              exact h
                        · rw [if_neg hin] at h
                          exact Except.noConfusion h
                      · rw [if_neg hname] at h
                        exact Except.noConfusion h
                    · rw [if_neg hc8] at h
                      rw [if_neg (fun hx => hc8 ((swapTypeIff ts1 ts2 p ht1 ht2 hsame i
                        "FOR" (by decide) (by decide)).mp hx))]
                      by_cases hc9 : (tokAt ts1 i).type = "SPAWN"
                      · rw [if_pos hc9] at h
                        rw [if_pos ((swapTypeIff ts1 ts2 p ht1 ht2 hsame i "SPAWN"
                          (by decide) (by decide)).mpr hc9)]
                        split at h
                        · exact Except.noConfusion h
                        · rename_i ce j1 heq1
                          simp only [ih _ _ _ _ heq1]
                          by_cases hcall : ce.isCall = true
                          · rw [if_pos hcall] at h
                            rw [if_pos hcall]
                            rw [optional_newline_swap ts1 ts2 p hlen ht1 ht2 hsame j1]
                            exact h
                          · rw [if_neg hcall] at h
                            exact Except.noConfusion h
                      · rw [if_neg hc9] at h
                        rw [if_neg (fun hx => hc9 ((swapTypeIff ts1 ts2 p ht1 ht2 hsame i
                          "SPAWN" (by decide) (by decide)).mp hx))]
                        split at h
                        · exact Except.noConfusion h
                        · rename_i e j1 heq1
                          simp only [ih _ _ _ _ heq1]
                          by_cases hasg : (e.isName = true ∨ e.isAttribute = true) ∧
                              (tokAt ts1 j1).type = "OP" ∧ (tokAt ts1 j1).value = "="
                          · have hne : j1 ≠ p := by
                              intro he
                              rw [he, ht1] at hasg
                              exact absurd hasg.2.1 (by decide)
                            rw [if_pos hasg] at h
                            rw [hsame j1 hne, if_pos hasg]
                            split at h
                            · exact Except.noConfusion h
                            · rename_i v j2 heq2
                              simp only [ih _ _ _ _ heq2]
                              rw [optional_newline_swap ts1 ts2 p hlen ht1 ht2 hsame j2]
                              exact h
                          · rw [if_neg hasg] at h
                            rw [if_neg (fun hx => hasg ⟨hx.1,
                              (swapOpIff ts1 ts2 p ht1 ht2 hsame j1
                                (fun t => t.value = "=")).mp hx.2⟩)]
                            rw [optional_newline_swap ts1 ts2 p hlen ht1 ht2 hsame j1]
                            exact h
    | exportR =>
      simp only [parserCore] at h ⊢
      by_cases hE : (tokAt ts1 i).type = "EXPORT"
      · rw [if_pos hE] at h
        rw [if_pos ((swapTypeIff ts1 ts2 p ht1 ht2 hsame i "EXPORT" (by decide)
          (by decide)).mpr hE)]
        by_cases hD : (tokAt ts1 (i + 1)).type = "DEFAULT"
        · rw [if_pos hD] at h
          rw [if_pos ((swapTypeIff ts1 ts2 p ht1 ht2 hsame (i + 1) "DEFAULT" (by decide)
            (by decide)).mpr hD)]
          by_cases hf : (tokAt ts1 (i + 1 + 1)).type = "FN" ∨
              (tokAt ts1 (i + 1 + 1)).type = "FUNCTION"
          · rw [if_pos hf] at h
            rw [if_pos (by
              rcases hf with h4 | h4
              · exact Or.inl ((swapTypeIff ts1 ts2 p ht1 ht2 hsame (i + 1 + 1) "FN"
                  (by decide) (by decide)).mpr h4)
              · exact Or.inr ((swapTypeIff ts1 ts2 p ht1 ht2 hsame (i + 1 + 1) "FUNCTION"
                  (by decide) (by decide)).mpr h4))]
            exact ih _ _ _ _ h
          · rw [if_neg hf] at h
            rw [if_neg (fun hx => hf (by
              rcases hx with h4 | h4
              · exact Or.inl ((swapTypeIff ts1 ts2 p ht1 ht2 hsame (i + 1 + 1) "FN"
                  (by decide) (by decide)).mp h4)
              · exact Or.inr ((swapTypeIff ts1 ts2 p ht1 ht2 hsame (i + 1 + 1) "FUNCTION"
                  (by decide) (by decide)).mp h4)))]
            by_cases hl : (tokAt ts1 (i + 1 + 1)).type = "LET" ∨
                (tokAt ts1 (i + 1 + 1)).type = "CONST"
            · have hne : i + 1 + 1 ≠ p := by
                intro he
                rcases hl with h3 | h3 <;> (rw [he, ht1] at h3; exact absurd h3 (by decide))
              rw [if_pos hl] at h
              rw [hsame (i + 1 + 1) hne, if_pos hl]
              exact ih _ _ _ _ h
            · rw [if_neg hl] at h
              rw [if_neg (fun hx => hl (by
                rcases hx with h3 | h3
                · exact Or.inl ((swapTypeIff ts1 ts2 p ht1 ht2 hsame (i + 1 + 1) "LET"
                    (by decide) (by decide)).mp h3)
                · exact Or.inr ((swapTypeIff ts1 ts2 p ht1 ht2 hsame (i + 1 + 1) "CONST"
                    (by decide) (by decide)).mp h3)))]
              split at h
              · exact Except.noConfusion h
              · rename_i e j1 heq
                simp only [ih _ _ _ _ heq]
                exact h
        · rw [if_neg hD] at h
          rw [if_neg (fun hx => hD ((swapTypeIff ts1 ts2 p ht1 ht2 hsame (i + 1) "DEFAULT"
            (by decide) (by decide)).mp hx))]
          by_cases hf : (tokAt ts1 (i + 1)).type = "FN" ∨
              (tokAt ts1 (i + 1)).type = "FUNCTION"
          · rw [if_pos hf] at h
            rw [if_pos (by
              rcases hf with h4 | h4
              · exact Or.inl ((swapTypeIff ts1 ts2 p ht1 ht2 hsame (i + 1) "FN"
                  (by decide) (by decide)).mpr h4)
              · exact Or.inr ((swapTypeIff ts1 ts2 p ht1 ht2 hsame (i + 1) "FUNCTION"
                  (by decide) (by decide)).mpr h4))]
            exact ih _ _ _ _ h
          · rw [if_neg hf] at h
            rw [if_neg (fun hx => hf (by
              rcases hx with h4 | h4
              · exact Or.inl ((swapTypeIff ts1 ts2 p ht1 ht2 hsame (i + 1) "FN"
                  (by decide) (by decide)).mp h4)
              · exact Or.inr ((swapTypeIff ts1 ts2 p ht1 ht2 hsame (i + 1) "FUNCTION"
                  (by decide) (by decide)).mp h4)))]
            by_cases hl : (tokAt ts1 (i + 1)).type = "LET" ∨
                (tokAt ts1 (i + 1)).type = "CONST"
            · have hne : i + 1 ≠ p := by
                intro he
                rcases hl with h3 | h3 <;> (rw [he, ht1] at h3; exact absurd h3 (by decide))
              rw [if_pos hl] at h
              rw [hsame (i + 1) hne, if_pos hl]
              exact ih _ _ _ _ h
            · rw [if_neg hl] at h
              rw [if_neg (fun hx => hl (by
                rcases hx with h3 | h3
                · exact Or.inl ((swapTypeIff ts1 ts2 p ht1 ht2 hsame (i + 1) "LET"
                    (by decide) (by decide)).mp h3)
                · exact Or.inr ((swapTypeIff ts1 ts2 p ht1 ht2 hsame (i + 1) "CONST"
                    (by decide) (by decide)).mp h3)))]
              by_cases hb : (tokAt ts1 (i + 1)).type = "LBRACE"
              · rw [if_pos hb] at h
                rw [if_pos ((swapTypeIff ts1 ts2 p ht1 ht2 hsame (i + 1) "LBRACE"
                  (by decide) (by decide)).mpr hb)]
                split at h
                · exact Except.noConfusion h
                · rename_i names j1 heq
                  simp only [parse_specifiers_swap ts1 ts2 p hlen ht1 ht2 hsame _ _ _ heq]
                  by_cases hfr : (tokAt ts1 j1).type = "FROM"
                  · rw [if_pos hfr] at h
                    rw [if_pos ((swapTypeIff ts1 ts2 p ht1 ht2 hsame j1 "FROM" (by decide)
                      (by decide)).mpr hfr)]
                    split at h
                    · exact Except.noConfusion h
                    · rename_i src j2 heq2
                      simp only [parse_module_specifier_swap ts1 ts2 p hlen ht1 ht2 hsame
                        _ _ _ heq2]
                      exact h
                  · rw [if_neg hfr] at h
                    rw [if_neg (fun hx => hfr ((swapTypeIff ts1 ts2 p ht1 ht2 hsame j1
                      "FROM" (by decide) (by decide)).mp hx))]
                    exact h
              · rw [if_neg hb] at h
                exact Except.noConfusion h
      · rw [if_neg hE] at h
        exact Except.noConfusion h
    | varR mf ex df =>
      simp only [parserCore] at h ⊢
      by_cases h1 : (tokAt ts1 i).type = "NAME"
      · have hne : i ≠ p := by
          intro he
          rw [he, ht1] at h1
          exact absurd h1 (by decide)
        rw [if_pos h1] at h
        rw [hsame i hne, if_pos h1]
        by_cases h2 : (tokAt ts1 (i + 1)).type = "OP" ∧ (tokAt ts1 (i + 1)).value = "="
        · have hne2 : i + 1 ≠ p := by
            intro he
            rw [he, ht1] at h2
            exact absurd h2.1 (by decide)
          rw [if_pos h2] at h
          rw [hsame (i + 1) hne2, if_pos h2]
          split at h
          · exact Except.noConfusion h
          · rename_i v j1 heq
            simp only [ih _ _ _ _ heq]
            exact h
        · rw [if_neg h2] at h
          exact Except.noConfusion h
      · rw [if_neg h1] at h
        exact Except.noConfusion h
    | fnR ex df =>
      simp only [parserCore] at h ⊢
      split at h
      · exact Except.noConfusion h
      · rename_i name k heq0
        have heq0s : (if (tokAt ts2 (i + 1)).type = "NAME" then
              Except.ok ((tokAt ts2 (i + 1)).value, i + 1 + 1)
            else if df = true then Except.ok ("_default_export", i + 1)
            else .error (.err "Function declaration requires a name") :
            Except ParseErr (String × Nat)) = .ok (name, k) := by
          by_cases hn : (tokAt ts1 (i + 1)).type = "NAME"
          · rw [if_pos hn] at heq0
            rw [swapTokEq ts1 ts2 p ht1 hsame (i + 1) "NAME" (by decide) hn, if_pos hn]
            exact heq0
          · rw [if_neg hn] at heq0
            rw [if_neg (fun hx => hn ((swapTypeIff ts1 ts2 p ht1 ht2 hsame (i + 1) "NAME"
              (by decide) (by decide)).mp hx))]
            exact heq0
        simp only [heq0s]
        by_cases hlp : (tokAt ts1 k).type = "LPAREN"
        · rw [if_pos hlp] at h
          rw [if_pos ((swapTypeIff ts1 ts2 p ht1 ht2 hsame k "LPAREN" (by decide)
            (by decide)).mpr hlp)]
          split at h
          · exact Except.noConfusion h
          · rename_i ps j1 heqp
            have heqps : (if (tokAt ts2 (k + 1)).type = "RPAREN" then Except.ok ([], k + 1)
                else paramsLoopF (ts2.length + 1) ts2 (k + 1) []) = .ok (ps, j1) := by
              by_cases hrp : (tokAt ts1 (k + 1)).type = "RPAREN"
              · rw [if_pos hrp] at heqp
                rw [if_pos ((swapTypeIff ts1 ts2 p ht1 ht2 hsame (k + 1) "RPAREN"
                  (by decide) (by decide)).mpr hrp)]
                exact heqp
              · rw [if_neg hrp] at heqp
                rw [if_neg (fun hx => hrp ((swapTypeIff ts1 ts2 p ht1 ht2 hsame (k + 1)
                  "RPAREN" (by decide) (by decide)).mp hx)), hlen]
                exact paramsLoopF_swap ts1 ts2 p ht1 ht2 hsame _ _ _ _ _ heqp
            simp only [heqps]
            by_cases hrp2 : (tokAt ts1 j1).type = "RPAREN"
            · rw [if_pos hrp2] at h
              rw [if_pos ((swapTypeIff ts1 ts2 p ht1 ht2 hsame j1 "RPAREN" (by decide)
                (by decide)).mpr hrp2)]
              split at h
              · exact Except.noConfusion h
              · rename_i body j2 heqb
                simp only [ih _ _ _ _ heqb]
                exact h
            · rw [if_neg hrp2] at h
              exact Except.noConfusion h
        · rw [if_neg hlp] at h
          exact Except.noConfusion h
    | blockR =>
      simp only [parserCore] at h ⊢
      by_cases h1 : (tokAt ts1 i).type = "LBRACE"
      · rw [if_pos h1] at h
        rw [if_pos ((swapTypeIff ts1 ts2 p ht1 ht2 hsame i "LBRACE" (by decide)
          (by decide)).mpr h1)]
        exact ih _ _ _ _ h
      · rw [if_neg h1] at h
        exact Except.noConfusion h
    | blockLoopR acc =>
      simp only [parserCore] at h ⊢
      by_cases h1 : (tokAt ts1 i).type = "RBRACE"
      · rw [if_pos h1] at h
        rw [if_pos ((swapTypeIff ts1 ts2 p ht1 ht2 hsame i "RBRACE" (by decide)
          (by decide)).mpr h1)]
        exact h
      · rw [if_neg h1] at h
        rw [if_neg (fun hx => h1 ((swapTypeIff ts1 ts2 p ht1 ht2 hsame i "RBRACE"
          (by decide) (by decide)).mp hx))]
        by_cases h2 : (tokAt ts1 i).type = "NEWLINE" ∨ (tokAt ts1 i).type = "SEMICOLON"
        · rw [if_pos h2] at h
          rw [if_pos ((swapSepIff ts1 ts2 p ht1 ht2 hsame i).mpr h2)]
          exact ih _ _ _ _ h
        · rw [if_neg h2] at h
          rw [if_neg (fun hx => h2 ((swapSepIff ts1 ts2 p ht1 ht2 hsame i).mp hx))]
          split at h
          · exact Except.noConfusion h
          · rename_i s j1 heq
            simp only [ih _ _ _ _ heq]
            exact ih _ _ _ _ h
    | topLoopR acc =>
      simp only [parserCore] at h ⊢
      by_cases h1 : (tokAt ts1 i).type = "EOF"
      · rw [if_pos h1] at h
        rw [if_pos ((swapTypeIff ts1 ts2 p ht1 ht2 hsame i "EOF" (by decide)
          (by decide)).mpr h1)]
        exact h
      · rw [if_neg h1] at h
        rw [if_neg (fun hx => h1 ((swapTypeIff ts1 ts2 p ht1 ht2 hsame i "EOF"
          (by decide) (by decide)).mp hx))]
        by_cases h2 : (tokAt ts1 i).type = "NEWLINE" ∨ (tokAt ts1 i).type = "SEMICOLON"
        · rw [if_pos h2] at h
          rw [if_pos ((swapSepIff ts1 ts2 p ht1 ht2 hsame i).mpr h2)]
          exact ih _ _ _ _ h
        · rw [if_neg h2] at h
          rw [if_neg (fun hx => h2 ((swapSepIff ts1 ts2 p ht1 ht2 hsame i).mp hx))]
          split at h
          · exact Except.noConfusion h
          · rename_i s j1 heq
            simp only [ih _ _ _ _ heq]
            exact ih _ _ _ _ h
    | binopR lvl =>
      simp only [parserCore] at h ⊢
      split at h
      · exact Except.noConfusion h
      · rename_i e j1 heq0
        have heq0s : (if 5 ≤ lvl then parserCore fuel .unaryR ts2 i
            else parserCore fuel (.binopR (lvl + 1)) ts2 i) = .ok (e, j1) := by
          by_cases h5 : 5 ≤ lvl
          · rw [if_pos h5] at heq0 ⊢
            exact ih _ _ _ _ heq0
          · rw [if_neg h5] at heq0 ⊢
            exact ih _ _ _ _ heq0
        simp only [heq0s]
        exact ih _ _ _ _ h
    | binopLoopR lvl left =>
      simp only [parserCore] at h ⊢
      by_cases h1 : (tokAt ts1 i).type = "OP" ∧
          ((binopOps lvl).contains (tokAt ts1 i).value) = true
      · have hne : i ≠ p := by
          intro he
          rw [he, ht1] at h1
          exact absurd h1.1 (by decide)
        rw [if_pos h1] at h
        rw [hsame i hne, if_pos h1]
        split at h
        · exact Except.noConfusion h
        · rename_i r j1 heq0
          have heq0s : (if 5 ≤ lvl then parserCore fuel .unaryR ts2 (i + 1)
              else parserCore fuel (.binopR (lvl + 1)) ts2 (i + 1)) = .ok (r, j1) := by
            by_cases h5 : 5 ≤ lvl
            · rw [if_pos h5] at heq0 ⊢
              exact ih _ _ _ _ heq0
            · rw [if_neg h5] at heq0 ⊢
              exact ih _ _ _ _ heq0
          simp only [heq0s]
          exact ih _ _ _ _ h
      · rw [if_neg h1] at h
        rw [if_neg (fun hx => h1 ((swapOpIff ts1 ts2 p ht1 ht2 hsame i
          (fun t => ((binopOps lvl).contains t.value) = true)).mp hx))]
        exact h
    | unaryR =>
      simp only [parserCore] at h ⊢
      by_cases h1 : (tokAt ts1 i).type = "OP" ∧
          ((tokAt ts1 i).value = "-" ∨ (tokAt ts1 i).value = "!")
      · have hne : i ≠ p := by
          intro he
          rw [he, ht1] at h1
          exact absurd h1.1 (by decide)
        rw [if_pos h1] at h
        rw [hsame i hne, if_pos h1]
        split at h
        · exact Except.noConfusion h
        · rename_i e j1 heq
          simp only [ih _ _ _ _ heq]
          exact h
      · rw [if_neg h1] at h
        rw [if_neg (fun hx => h1 ((swapOpIff ts1 ts2 p ht1 ht2 hsame i
          (fun t => t.value = "-" ∨ t.value = "!")).mp hx))]
        exact ih _ _ _ _ h
    | callR =>
      simp only [parserCore] at h ⊢
      split at h
      · exact Except.noConfusion h
      · rename_i e j1 heq
        simp only [ih _ _ _ _ heq]
        exact ih _ _ _ _ h
    | postfixR left =>
      simp only [parserCore] at h ⊢
      by_cases h1 : (tokAt ts1 i).type = "LPAREN"
      · rw [if_pos h1] at h
        rw [if_pos ((swapTypeIff ts1 ts2 p ht1 ht2 hsame i "LPAREN" (by decide)
          (by decide)).mpr h1)]
        by_cases h2 : (tokAt ts1 (i + 1)).type = "RPAREN"
        · rw [if_pos h2] at h
          rw [if_pos ((swapTypeIff ts1 ts2 p ht1 ht2 hsame (i + 1) "RPAREN" (by decide)
            (by decide)).mpr h2)]
          exact ih _ _ _ _ h
        · rw [if_neg h2] at h
          rw [if_neg (fun hx => h2 ((swapTypeIff ts1 ts2 p ht1 ht2 hsame (i + 1) "RPAREN"
            (by decide) (by decide)).mp hx))]
          split at h
          · exact Except.noConfusion h
          · rename_i args j1 heq
            simp only [ih _ _ _ _ heq]
            by_cases h3 : (tokAt ts1 j1).type = "RPAREN"
            · rw [if_pos h3] at h
              rw [if_pos ((swapTypeIff ts1 ts2 p ht1 ht2 hsame j1 "RPAREN" (by decide)
                (by decide)).mpr h3)]
              exact ih _ _ _ _ h
            · rw [if_neg h3] at h
              exact Except.noConfusion h
      · rw [if_neg h1] at h
        rw [if_neg (fun hx => h1 ((swapTypeIff ts1 ts2 p ht1 ht2 hsame i "LPAREN"
          (by decide) (by decide)).mp hx))]
        by_cases h4 : (tokAt ts1 i).type = "DOT"
        · rw [if_pos h4] at h
          rw [if_pos ((swapTypeIff ts1 ts2 p ht1 ht2 hsame i "DOT" (by decide)
            (by decide)).mpr h4)]
          by_cases h5 : (tokAt ts1 (i + 1)).type = "NAME"
          · have hne2 : i + 1 ≠ p := by
              intro he
              rw [he, ht1] at h5
              exact absurd h5 (by decide)
            rw [if_pos h5] at h
            rw [hsame (i + 1) hne2, if_pos h5]
            exact ih _ _ _ _ h
          · rw [if_neg h5] at h
            exact Except.noConfusion h
        · rw [if_neg h4] at h
          rw [if_neg (fun hx => h4 ((swapTypeIff ts1 ts2 p ht1 ht2 hsame i "DOT"
            (by decide) (by decide)).mp hx))]
          exact h
    | argsR acc =>
      simp only [parserCore] at h ⊢
      split at h
      · exact Except.noConfusion h
      · rename_i e j1 heq
        simp only [ih _ _ _ _ heq]
        by_cases h1 : (tokAt ts1 j1).type = "COMMA"
        · rw [if_pos h1] at h
          rw [if_pos ((swapTypeIff ts1 ts2 p ht1 ht2 hsame j1 "COMMA" (by decide)
            (by decide)).mpr h1)]
          exact ih _ _ _ _ h
        · rw [if_neg h1] at h
          rw [if_neg (fun hx => h1 ((swapTypeIff ts1 ts2 p ht1 ht2 hsame j1 "COMMA"
            (by decide) (by decide)).mp hx))]
          exact h
    | primaryR =>
      simp only [parserCore] at h ⊢
      by_cases hp1 : (tokAt ts1 i).type = "NUMBER"
      · have hne : i ≠ p := by
          intro he
          rw [he, ht1] at hp1
          exact absurd hp1 (by decide)
        rw [if_pos hp1] at h
        rw [hsame i hne, if_pos hp1]
        exact h
      · rw [if_neg hp1] at h
        rw [if_neg (fun hx => hp1 ((swapTypeIff ts1 ts2 p ht1 ht2 hsame i "NUMBER"
          (by decide) (by decide)).mp hx))]
        by_cases hp2 : (tokAt ts1 i).type = "STRING"
        · have hne : i ≠ p := by
            intro he
            rw [he, ht1] at hp2
            exact absurd hp2 (by decide)
          rw [if_pos hp2] at h
          rw [hsame i hne, if_pos hp2]
          exact h
        · rw [if_neg hp2] at h
          rw [if_neg (fun hx => hp2 ((swapTypeIff ts1 ts2 p ht1 ht2 hsame i "STRING"
            (by decide) (by decide)).mp hx))]
          by_cases hp3 : (tokAt ts1 i).type = "TRUE"
          · rw [if_pos hp3] at h
            rw [if_pos ((swapTypeIff ts1 ts2 p ht1 ht2 hsame i "TRUE" (by decide)
              (by decide)).mpr hp3)]
            exact h
          · rw [if_neg hp3] at h
            rw [if_neg (fun hx => hp3 ((swapTypeIff ts1 ts2 p ht1 ht2 hsame i "TRUE"
              (by decide) (by decide)).mp hx))]
            by_cases hp4 : (tokAt ts1 i).type = "FALSE"
            · rw [if_pos hp4] at h
              rw [if_pos ((swapTypeIff ts1 ts2 p ht1 ht2 hsame i "FALSE" (by decide)
                (by decide)).mpr hp4)]
              exact h
            · rw [if_neg hp4] at h
              rw [if_neg (fun hx => hp4 ((swapTypeIff ts1 ts2 p ht1 ht2 hsame i "FALSE"
                (by decide) (by decide)).mp hx))]
              by_cases hp5 : (tokAt ts1 i).type = "NULL"
              · rw [if_pos hp5] at h
                rw [if_pos ((swapTypeIff ts1 ts2 p ht1 ht2 hsame i "NULL" (by decide)
                  (by decide)).mpr hp5)]
                exact h
              · rw [if_neg hp5] at h
                rw [if_neg (fun hx => hp5 ((swapTypeIff ts1 ts2 p ht1 ht2 hsame i "NULL"
                  (by decide) (by decide)).mp hx))]
                by_cases hp6 : (tokAt ts1 i).type = "NAME"
                · have hne : i ≠ p := by
                    intro he
                    rw [he, ht1] at hp6
                    exact absurd hp6 (by decide)
                  rw [if_pos hp6] at h
                  rw [hsame i hne, if_pos hp6]
                  exact h
                · rw [if_neg hp6] at h
                  rw [if_neg (fun hx => hp6 ((swapTypeIff ts1 ts2 p ht1 ht2 hsame i "NAME"
                    (by decide) (by decide)).mp hx))]
                  by_cases hp7 : (tokAt ts1 i).type = "LPAREN"
                  · rw [if_pos hp7] at h
                    rw [if_pos ((swapTypeIff ts1 ts2 p ht1 ht2 hsame i "LPAREN" (by decide)
                      (by decide)).mpr hp7)]
                    split at h
                    · exact Except.noConfusion h
                    · rename_i e j1 heq
                      simp only [ih _ _ _ _ heq]
                      by_cases hrp : (tokAt ts1 j1).type = "RPAREN"
                      · rw [if_pos hrp] at h
                        rw [if_pos ((swapTypeIff ts1 ts2 p ht1 ht2 hsame j1 "RPAREN"
                          (by decide) (by decide)).mpr hrp)]
                        exact h
                      · rw [if_neg hrp] at h
                        exact Except.noConfusion h
                  · rw [if_neg hp7] at h
                    rw [if_neg (fun hx => hp7 ((swapTypeIff ts1 ts2 p ht1 ht2 hsame i
                      "LPAREN" (by decide) (by decide)).mp hx))]
                    by_cases hp8 : (tokAt ts1 i).type = "LBRACKET"
                    · rw [if_pos hp8] at h
                      rw [if_pos ((swapTypeIff ts1 ts2 p ht1 ht2 hsame i "LBRACKET"
                        (by decide) (by decide)).mpr hp8)]
                      by_cases hrb : (tokAt ts1 (i + 1)).type = "RBRACKET"
                      · rw [if_pos hrb] at h
                        rw [if_pos ((swapTypeIff ts1 ts2 p ht1 ht2 hsame (i + 1) "RBRACKET"
                          (by decide) (by decide)).mpr hrb)]
                        exact h
                      · rw [if_neg hrb] at h
                        rw [if_neg (fun hx => hrb ((swapTypeIff ts1 ts2 p ht1 ht2 hsame
                          (i + 1) "RBRACKET" (by decide) (by decide)).mp hx))]
                        split at h
                        · exact Except.noConfusion h
                        · rename_i els j1 heq
                          simp only [ih _ _ _ _ heq]
                          by_cases hrb2 : (tokAt ts1 j1).type = "RBRACKET"
                          · rw [if_pos hrb2] at h
                            rw [if_pos ((swapTypeIff ts1 ts2 p ht1 ht2 hsame j1 "RBRACKET"
                              (by decide) (by decide)).mpr hrb2)]
                            exact h
                          · rw [if_neg hrb2] at h
                            exact Except.noConfusion h
                    · rw [if_neg hp8] at h
                      rw [if_neg (fun hx => hp8 ((swapTypeIff ts1 ts2 p ht1 ht2 hsame i
                        "LBRACKET" (by decide) (by decide)).mp hx))]
                      by_cases hp9 : (tokAt ts1 i).type = "LBRACE"
                      · rw [if_pos hp9] at h
                        rw [if_pos ((swapTypeIff ts1 ts2 p ht1 ht2 hsame i "LBRACE"
                          (by decide) (by decide)).mpr hp9)]
                        by_cases hrb : (tokAt ts1 (i + 1)).type = "RBRACE"
                        · rw [if_pos hrb] at h
                          rw [if_pos ((swapTypeIff ts1 ts2 p ht1 ht2 hsame (i + 1) "RBRACE"
                            (by decide) (by decide)).mpr hrb)]
                          exact h
                        · rw [if_neg hrb] at h
                          rw [if_neg (fun hx => hrb ((swapTypeIff ts1 ts2 p ht1 ht2 hsame
                            (i + 1) "RBRACE" (by decide) (by decide)).mp hx))]
                          split at h
                          · exact Except.noConfusion h
                          · rename_i prs j1 heq
                            simp only [ih _ _ _ _ heq]
                            by_cases hrb2 : (tokAt ts1 j1).type = "RBRACE"
                            · rw [if_pos hrb2] at h
                              rw [if_pos ((swapTypeIff ts1 ts2 p ht1 ht2 hsame j1 "RBRACE"
                                (by decide) (by decide)).mpr hrb2)]
                              exact h
                            · rw [if_neg hrb2] at h
                              exact Except.noConfusion h
                      · rw [if_neg hp9] at h
                        exact Except.noConfusion h
    | listR acc =>
      simp only [parserCore] at h ⊢
      split at h
      · exact Except.noConfusion h
      · rename_i e j1 heq
        simp only [ih _ _ _ _ heq]
        by_cases h1 : (tokAt ts1 j1).type = "COMMA"
        · rw [if_pos h1] at h
          rw [if_pos ((swapTypeIff ts1 ts2 p ht1 ht2 hsame j1 "COMMA" (by decide)
            (by decide)).mpr h1)]
          exact ih _ _ _ _ h
        · rw [if_neg h1] at h
          rw [if_neg (fun hx => h1 ((swapTypeIff ts1 ts2 p ht1 ht2 hsame j1 "COMMA"
            (by decide) (by decide)).mp hx))]
          exact h
    | dictR acc =>
      simp only [parserCore] at h ⊢
      split at h
      · exact Except.noConfusion h
      · rename_i key j1 heq1
        simp only [ih _ _ _ _ heq1]
        by_cases h1 : (tokAt ts1 j1).type = "COLON"
        · rw [if_pos h1] at h
          rw [if_pos ((swapTypeIff ts1 ts2 p ht1 ht2 hsame j1 "COLON" (by decide)
            (by decide)).mpr h1)]
          split at h
          · exact Except.noConfusion h
          · rename_i v j2 heq2
            simp only [ih _ _ _ _ heq2]
            by_cases h2 : (tokAt ts1 j2).type = "COMMA"
            · rw [if_pos h2] at h
              rw [if_pos ((swapTypeIff ts1 ts2 p ht1 ht2 hsame j2 "COMMA" (by decide)
                (by decide)).mpr h2)]
              exact ih _ _ _ _ h
            · rw [if_neg h2] at h
              rw [if_neg (fun hx => h2 ((swapTypeIff ts1 ts2 p ht1 ht2 hsame j2 "COMMA"
                (by decide) (by decide)).mp hx))]
              exact h
        · rw [if_neg h1] at h
          exact Except.noConfusion h

/-- Claim C2 (amended).  NEWLINE and SEMICOLON are interchangeable
statement separators with one exception: the token immediately after
`return` decides whether the return carries a value, and only NEWLINE
(not SEMICOLON) is in the no-value list.  Precisely: if the parser
accepts `ts1` and `ts2` differs from `ts1` only in that the token at
position `p` has type SEMICOLON instead of NEWLINE, and `p` is not
immediately preceded by a RETURN token, then the parser accepts `ts2`
with the identical AST. -/
theorem c2_separator_substitution (ts1 ts2 : List Token) (p : Nat)
    (hlen : ts2.length = ts1.length)
    (ht1 : (tokAt ts1 p).type = "NEWLINE") (ht2 : (tokAt ts2 p).type = "SEMICOLON")
    (hsame : ∀ q, q ≠ p → tokAt ts2 q = tokAt ts1 q)
    (hnotret : ∀ q, q + 1 = p → (tokAt ts1 q).type ≠ "RETURN")
    (m : Module) (h : parse ts1 = .ok m) : parse ts2 = .ok m := by
  unfold parse at h ⊢
  have hf : parseFuel ts2 = parseFuel ts1 := by simp [parseFuel, hlen]
  rw [hf]
  split at h
  · exact Except.noConfusion h
  · rename_i body j heq
    simp only [parserCore_swap ts1 ts2 p hlen ht1 ht2 hsame hnotret _ (.topLoopR []) _ _ _
      heq]
    exact h

/-- Witness for C2: a two-statement program accepted with a NEWLINE
separator is also accepted, with the same AST, after the separator is
replaced by a SEMICOLON. -/
theorem c2_separator_substitution_witness :
    parse [⟨"NAME", "x", 1, 1⟩, ⟨"SEMICOLON", ";", 1, 2⟩, ⟨"NAME", "y", 2, 1⟩,
        ⟨"EOF", "", 2, 2⟩] =
      .ok ⟨[.exprStmt (.name "x"), .exprStmt (.name "y")]⟩ :=
  c2_separator_substitution
    [⟨"NAME", "x", 1, 1⟩, ⟨"NEWLINE", "\n", 1, 2⟩, ⟨"NAME", "y", 2, 1⟩, ⟨"EOF", "", 2, 2⟩]
    [⟨"NAME", "x", 1, 1⟩, ⟨"SEMICOLON", ";", 1, 2⟩, ⟨"NAME", "y", 2, 1⟩, ⟨"EOF", "", 2, 2⟩]
    1 rfl rfl rfl
    (fun q hq => match q with
      | 0 => rfl
      | 1 => absurd rfl hq
      | 2 => rfl
      | 3 => rfl
      | _ + 4 => rfl)
    (fun q hq => by
      have h0 : q = 0 := by omega
      subst h0
      decide)
    _ rfl

/-- Counterexample to C2 as stated: immediately after `return`, NEWLINE
and SEMICOLON are not interchangeable.  `return` followed by NEWLINE
parses as a valueless return, but with SEMICOLON the parser tries to
read the semicolon as the returned expression and fails. -/
theorem c2_counterexample :
    parse [⟨"RETURN", "return", 1, 1⟩, ⟨"NEWLINE", "\n", 1, 7⟩, ⟨"EOF", "", 1, 8⟩] =
      .ok ⟨[.ret none]⟩ ∧
    parse [⟨"RETURN", "return", 1, 1⟩, ⟨"SEMICOLON", ";", 1, 7⟩, ⟨"EOF", "", 1, 8⟩] =
      .error (.err "Unexpected token SEMICOLON at line 1") :=
  ⟨rfl, rfl⟩

end Trif
